import Mathlib

/-!
# AMD family 15h northbridge (binaryPI 00630F01): resource allocator, address map, APIC ids

A shallow embedding of `src/northbridge/amd/pi/00630F01/northbridge.c`.

Conventions of the embedding

* C unsigned integers are natural numbers; where an operation can wrap, the
  reduction modulo `2^32` or `2^64` is written out.
* A `struct device *` that is one of the per-node function handles is represented
  by the node number it belongs to; the pointee lives in the state
  (`NbState.f0_dev`, `NbState.f1_dev`), and a `NULL` handle is `none`.
* A `struct resource *` returned by the device core is represented by the
  resource key (`index`) on that device; a null pointer is `none`.
* A function that would dereference a null device yields `none` for the whole
  call.
-/

namespace Coreboot

/-! ## Data model -/

/-- The fields of `struct resource` that the northbridge code reads or writes. -/
structure Resource where
  base : Nat
  size : Nat
  limit : Nat
  flags : Nat
  index : Nat
  align : Nat
  gran : Nat
deriving DecidableEq

/-- The fields of `struct device` used here: the enable flag, the resource list
and the PCI configuration space of the function (register offset to 32-bit value). -/
structure Device where
  enabled : Bool
  resource_list : List Resource
  pci_config : Nat → Nat

/-- The file-scope variables of `northbridge.c`: `node_nums`, `sblink`, `fx_devs`
and the handle arrays `__f0_dev[]`, `__f1_dev[]` together with their pointees. -/
structure NbState where
  node_nums : Nat
  sblink : Nat
  fx_devs : Nat
  f0_dev : Nat → Option Device
  f1_dev : Nat → Option Device

/-- Constants of the device core that `northbridge.c` uses but does not define
(resource flag bits and HyperTransport host alignments). -/
structure DevConsts where
  IORESOURCE_IO : Nat
  IORESOURCE_MEM : Nat
  IORESOURCE_PREFETCH : Nat
  IORESOURCE_BRIDGE : Nat
  IORESOURCE_STORED : Nat
  IORESOURCE_ASSIGNED : Nat
  HT_IO_HOST_ALIGN : Nat
  HT_MEM_HOST_ALIGN : Nat

/-- Modelled from the spec: the resource key macro `IOINDEX(IDX, LINK)` is declared
outside the shown sources.  A register pair is keyed by a fixed register offset and
carries the owning link; the key keeps the register index in the low 16 bits
(`set_resource` reads it back with `index & 0xfff` and `index & 0xffff`) and the
link number above them (`IOINDEX_LINK`). -/
def IOINDEX (idx link : Nat) : Nat := (link <<< 16) + idx

/-- Modelled from the spec: `IOINDEX_LINK`, the link number stored in a resource key. -/
def IOINDEX_LINK (index : Nat) : Nat := (index &&& 0xf0000) >>> 16

/-- Modelled from the spec: `probe_resource(dev, index)` of the device core (not in
the shown sources) looks a resource up by its key on one device; the result is the
first resource of the list with that key, or null. -/
def probe_resource (dev : Device) (index : Nat) : Option Resource :=
  dev.resource_list.find? (fun r => decide (r.index = index))

/-- A resource as `new_resource` hands it out: all window fields cleared. -/
def fresh_resource (index : Nat) : Resource :=
  { base := 0, size := 0, limit := 0, flags := 0, index := index, align := 0, gran := 0 }

/-- The resource list after `new_resource`: the first resource keyed `index` is
re-initialised in place, or a new one is appended at the tail. -/
def new_resource_list : List Resource → Nat → List Resource
  | [], index => [fresh_resource index]
  | r :: rs, index =>
    if r.index = index then fresh_resource index :: rs
    else r :: new_resource_list rs index

/-- Modelled from the spec: `new_resource(dev, index)` of the device core (not in the
shown sources).  A register pair is "allocated once per link; never freed within a
boot session": the call yields the resource of `dev` keyed `index`, creating it when
absent, with its window fields cleared.  Running out of resource storage is fatal in
the device core, so the returned pointer is never null.  `dev` is the node number of
a function-0 handle; a null handle makes the call undefined (`none`). -/
def new_resource (s : NbState) (dev index : Nat) : Option (NbState × Nat) :=
  match s.f0_dev dev with
  | none => none
  | some d =>
    let d' : Device := { d with resource_list := new_resource_list d.resource_list index }
    some ({ s with f0_dev := Function.update s.f0_dev dev (some d') }, index)

/-- Write through a resource pointer obtained for `dev`: the first resource of the
device keyed `index` is replaced by `f` of it. -/
def modify_resource_list (f : Resource → Resource) : List Resource → Nat → List Resource
  | [], _ => []
  | r :: rs, index =>
    if r.index = index then f r :: rs else r :: modify_resource_list f rs index

/-- Write through a resource pointer of function-0 device `dev`. -/
def modify_resource (s : NbState) (dev index : Nat) (f : Resource → Resource) : NbState :=
  match s.f0_dev dev with
  | none => s
  | some d =>
    let d' : Device := { d with resource_list := modify_resource_list f d.resource_list index }
    { s with f0_dev := Function.update s.f0_dev dev (some d') }

/-! ## Register-pair allocator -/

/-- Inner loop of `reg_useable`:
`for (link = 0; !res && (link < 8); link++) res = probe_resource(dev, IOINDEX(0x1000 + reg, link));`
started at `link` with `k` iterations left.  Yields `res` and the final value of `link`. -/
def reg_useable_links (dev : Device) (reg : Nat) : Nat → Nat → Option Resource × Nat
  | 0, link => (none, link)
  | k + 1, link =>
    match probe_resource dev (IOINDEX (0x1000 + reg) link) with
    | some res => (some res, link + 1)
    | none => reg_useable_links dev reg k (link + 1)

/-- Outer loop of `reg_useable`:
`for (nodeid = 0; !res && (nodeid < fx_devs); nodeid++)`, started at `nodeid` with `k`
iterations left and the current value of `link`.  Yields `res` and the final values
of `nodeid` and `link`. -/
def reg_useable_nodes (s : NbState) (reg : Nat) : Nat → Nat → Nat → Option Resource × Nat × Nat
  | 0, nodeid, link => (none, nodeid, link)
  | k + 1, nodeid, link =>
    match s.f0_dev nodeid with
    | none => reg_useable_nodes s reg k (nodeid + 1) link
    | some dev =>
      match reg_useable_links dev reg 8 0 with
      | (some res, link') => (some res, nodeid + 1, link')
      | (none, link') => reg_useable_nodes s reg k (nodeid + 1) link'

/-- The search of `reg_useable` for the resource that occupies register `reg`. -/
def reg_useable_scan (s : NbState) (reg : Nat) : Option Resource × Nat × Nat :=
  reg_useable_nodes s reg s.fx_devs 0 0

/-- `reg_useable(reg, goal_dev, goal_nodeid, goal_link)`:
2 = resource does not exist, usable; 0 = exists, not usable; 1 = exists, allocated
before to the caller.  (`goal_dev` is unused by the C function.) -/
def reg_useable (s : NbState) (reg goal_nodeid goal_link : Nat) : Nat :=
  match reg_useable_scan s reg with
  | (none, _, _) => 2
  | (some res, nodeid, link) =>
    if goal_link = link - 1 ∧ goal_nodeid = nodeid - 1 ∧ res.flags ≤ 1 then 1 else 0

/-- The walk shared by `amdfam15_find_iopair` and `amdfam15_find_mempair` over the
register offsets still to visit, with the current `free_reg`; the result is the value
of `reg` after the `if (reg > last) reg = free_reg;` that follows the loop. -/
def find_pair_walk (s : NbState) (nodeid link : Nat) : List Nat → Nat → Nat
  | [], free_reg => free_reg
  | reg :: rest, free_reg =>
    let result := reg_useable s reg nodeid link
    if result = 1 then reg
    else if result > 1 then find_pair_walk s nodeid link rest reg
    else find_pair_walk s nodeid link rest free_reg

/-- The offsets visited by `for (reg = 0xc0; reg <= 0xd8; reg += 0x8)`. -/
def io_regs : List Nat := [0xc0, 0xc8, 0xd0, 0xd8]

/-- The offsets visited by `for (reg = 0x80; reg <= 0xb8; reg += 0x8)`. -/
def mem_regs : List Nat := [0x80, 0x88, 0x90, 0x98, 0xa0, 0xa8, 0xb0, 0xb8]

/-- The register offset `amdfam15_find_iopair` settles on. -/
def iopair_reg (s : NbState) (nodeid link : Nat) : Nat :=
  find_pair_walk s nodeid link io_regs 0

/-- The register offset `amdfam15_find_mempair` settles on. -/
def mempair_reg (s : NbState) (nodeid link : Nat) : Nat :=
  find_pair_walk s nodeid link mem_regs 0

/-- `amdfam15_find_iopair(dev, nodeid, link)`: the new state and the returned
resource pointer. -/
def amdfam15_find_iopair (s : NbState) (dev nodeid link : Nat) :
    Option (NbState × Option Nat) :=
  match new_resource s dev (IOINDEX (0x1000 + iopair_reg s nodeid link) link) with
  | none => none
  | some (s', resource) => some (s', some resource)

/-- `amdfam15_find_mempair(dev, nodeid, link)`: the new state and the returned
resource pointer. -/
def amdfam15_find_mempair (s : NbState) (dev nodeid link : Nat) :
    Option (NbState × Option Nat) :=
  match new_resource s dev (IOINDEX (0x1000 + mempair_reg s nodeid link) link) with
  | none => none
  | some (s', resource) => some (s', some resource)

/-- The register offset of a window resource, as `set_resource` extracts it:
`reg = resource->index & 0xfff`. -/
def resource_reg (index : Nat) : Nat := index &&& 0xfff

/-- The resource of function-0 device `n` keyed to register `reg` and link `l`,
if the handle is not null and the device has one. -/
def probe_at (s : NbState) (reg n l : Nat) : Option Resource :=
  match s.f0_dev n with
  | none => none
  | some d => probe_resource d (IOINDEX (0x1000 + reg) l)

/-- A run of `amdfam15_find_iopair` / `amdfam15_find_mempair` calls (`find`), one per
`(nodeid, link)` of the list, each made with the function-0 device of its node; yields
the final state and the returned pointers in call order. -/
def find_pair_seq (find : NbState → Nat → Nat → Nat → Option (NbState × Option Nat))
    (s : NbState) : List (Nat × Nat) → Option (NbState × List (Option Nat))
  | [] => some (s, [])
  | (nodeid, link) :: rest =>
    match find s nodeid nodeid link with
    | none => none
    | some (s', res) =>
      match find_pair_seq find s' rest with
      | none => none
      | some (s'', out) => some (s'', res :: out)

/-- The constraints `amdfam15_link_read_bases` writes into a window resource. -/
def init_window (r : Resource) (align limit flags : Nat) : Resource :=
  { r with base := 0, size := 0, align := align, gran := align, limit := limit, flags := flags }

/-- One of the three blocks of `amdfam15_link_read_bases`: `if (resource) { ... }`. -/
def setup_window (s : NbState) (dev : Nat) (resource : Option Nat)
    (align limit flags : Nat) : NbState :=
  match resource with
  | none => s
  | some index => modify_resource s dev index (fun r => init_window r align limit flags)

/-- `amdfam15_link_read_bases(dev, nodeid, link)`: the I/O window, the prefetchable
memory window and the memory window of one link, in this order.  `log2` of the host
alignments is the integer logarithm of the device core. -/
def amdfam15_link_read_bases (c : DevConsts) (s : NbState) (dev nodeid link : Nat) :
    Option NbState :=
  match amdfam15_find_iopair s dev nodeid link with
  | none => none
  | some (s1, res_io) =>
    let s2 := setup_window s1 dev res_io (Nat.log2 c.HT_IO_HOST_ALIGN) 0xffff
      (c.IORESOURCE_IO ||| c.IORESOURCE_BRIDGE)
    match amdfam15_find_mempair s2 dev nodeid link with
    | none => none
    | some (s3, res_pref) =>
      let s4 := setup_window s3 dev res_pref (Nat.log2 c.HT_MEM_HOST_ALIGN) 0xffffffffff
        ((c.IORESOURCE_MEM ||| c.IORESOURCE_PREFETCH) ||| c.IORESOURCE_BRIDGE)
      match amdfam15_find_mempair s4 dev nodeid link with
      | none => none
      | some (s5, res_mem) =>
        some (setup_window s5 dev res_mem (Nat.log2 c.HT_MEM_HOST_ALIGN) 0xffffffffff
          (c.IORESOURCE_MEM ||| c.IORESOURCE_BRIDGE))

/-! ## Node handles and recovery of committed register pairs -/

/-- The loop of `get_fx_devs`, at node `i` with `k` iterations left.
`get_node_pci i fn` is the device-tree lookup `pcidev_on_root(DEV_CDB + i, fn)`.
(The handles `__f2_dev`, `__f4_dev` are stored by the C code but never read.) -/
def get_fx_devs_loop (get_node_pci : Nat → Nat → Option Device) : Nat → Nat → NbState → NbState
  | 0, _, s => s
  | k + 1, i, s =>
    let f0 := get_node_pci i 0
    let f1 := get_node_pci i 1
    let s1 : NbState := { s with f0_dev := Function.update s.f0_dev i f0
                                 f1_dev := Function.update s.f1_dev i f1 }
    let s2 : NbState := if f0.isSome ∧ f1.isSome then { s1 with fx_devs := i + 1 } else s1
    get_fx_devs_loop get_node_pci k (i + 1) s2

/-- `get_fx_devs()`; `none` is `die("Cannot find 0:0x18.[0|1]")`.  `MAX_NODE_NUMS` is a
constant of the vendor headers. -/
def get_fx_devs (MAX_NODE_NUMS : Nat) (get_node_pci : Nat → Nat → Option Device)
    (s : NbState) : Option NbState :=
  let s' := get_fx_devs_loop get_node_pci MAX_NODE_NUMS 0 s
  if (s'.f1_dev 0).isNone ∨ (s'.f0_dev 0).isNone ∨ s'.fx_devs = 0 then none else some s'

/-- `f1_read_config32(reg)`: reads node 0's function 1, looking the handles up first
when that has not happened yet. -/
def f1_read_config32 (MAX_NODE_NUMS : Nat) (get_node_pci : Nat → Nat → Option Device)
    (s : NbState) (reg : Nat) : Option (NbState × Nat) :=
  match (if s.fx_devs = 0 then get_fx_devs MAX_NODE_NUMS get_node_pci s else some s) with
  | none => none
  | some s1 =>
    match s1.f1_dev 0 with
    | none => none
    | some d => some (s1, d.pci_config reg)

/-- The node that owns the register pair at `reg`, decoded from its base and limit
words as `domain_read_resources` does. -/
def decode_nodeid (reg base limit : Nat) : Nat :=
  if reg < 0xc0 then (limit &&& 0xf) + (base &&& 0x30)
  else (limit &&& 0xf) + ((base >>> 4) &&& 0x30)

/-- The link that owns a register pair: `reg_link = (limit >> 4) & 7`. -/
def decode_link (limit : Nat) : Nat := (limit >>> 4) &&& 7

/-- Body of the loop of `domain_read_resources` for one register offset.  The decoded
node number indexes `__f0_dev[]` as in the C code; an entry that `get_fx_devs` never
wrote is still null. -/
def domain_read_resources_step (MAX_NODE_NUMS : Nat)
    (get_node_pci : Nat → Nat → Option Device) (s : NbState) (reg : Nat) : Option NbState :=
  match f1_read_config32 MAX_NODE_NUMS get_node_pci s reg with
  | none => none
  | some (s1, base) =>
    match f1_read_config32 MAX_NODE_NUMS get_node_pci s1 (reg + 0x04) with
    | none => none
    | some (s2, limit) =>
      if base &&& 3 ≠ 0 then
        let nodeid := decode_nodeid reg base limit
        let reg_link := decode_link limit
        match s2.f0_dev nodeid with
        | none => some s2
        | some _ =>
          match new_resource s2 nodeid (IOINDEX (0x1000 + reg) reg_link) with
          | none => none
          | some (s3, res) => some (modify_resource s3 nodeid res (fun r => { r with flags := 1 }))
      else some s2

/-- The loop of `domain_read_resources` over the offsets still to visit. -/
def domain_read_resources_loop (MAX_NODE_NUMS : Nat)
    (get_node_pci : Nat → Nat → Option Device) : NbState → List Nat → Option NbState
  | s, [] => some s
  | s, reg :: rest =>
    match domain_read_resources_step MAX_NODE_NUMS get_node_pci s reg with
    | none => none
    | some s' => domain_read_resources_loop MAX_NODE_NUMS get_node_pci s' rest

/-- The offsets visited by `for (reg = 0x80; reg <= 0xd8; reg += 0x08)`. -/
def window_regs : List Nat :=
  [0x80, 0x88, 0x90, 0x98, 0xa0, 0xa8, 0xb0, 0xb8, 0xc0, 0xc8, 0xd0, 0xd8]

/-- `domain_read_resources(dev)` as far as it concerns the register pairs: the handle
lookup and the recovery of the pairs that are already allocated.  The closing call
`pci_domain_read_resources(dev)` works on the domain device and is outside this
file. -/
def domain_read_resources (MAX_NODE_NUMS : Nat) (get_node_pci : Nat → Nat → Option Device)
    (s : NbState) : Option NbState :=
  match get_fx_devs MAX_NODE_NUMS get_node_pci s with
  | none => none
  | some s1 => domain_read_resources_loop MAX_NODE_NUMS get_node_pci s1 window_regs

/-- The common body of `amdfam15_find_iopair` and `amdfam15_find_mempair`, for the
register offsets `regs` of one class. -/
def find_pair (regs : List Nat) (s : NbState) (dev nodeid link : Nat) :
    Option (NbState × Option Nat) :=
  match new_resource s dev (IOINDEX (0x1000 + find_pair_walk s nodeid link regs 0) link) with
  | none => none
  | some (s', resource) => some (s', some resource)

/-! ## Example states -/

/-- A function-0 device without any resource. -/
def bare_device : Device := ⟨true, [], fun _ => 0⟩

/-- A two-node system on which no window resource exists yet. -/
def two_node_state : NbState :=
  ⟨2, 0, 2, fun n => if n < 2 then some bare_device else none,
    fun n => if n < 2 then some bare_device else none⟩

/-- The file-scope variables before any function has run (static storage is zeroed). -/
def initial_state : NbState := ⟨0, 0, 0, fun _ => none, fun _ => none⟩

/-- A two-node device tree whose routing registers already hold two committed pairs,
both owned by node 1, link 2: the I/O pair at 0xC8 and the memory pair at 0x90
(base word 3, limit word 0x21). -/
def committed_tree : Nat → Nat → Option Device := fun i fn =>
  if i < 2 then
    if fn = 1 then
      some ⟨true, [], fun reg =>
        if reg = 0xc8 ∨ reg = 0x90 then 3 else if reg = 0xcc ∨ reg = 0x94 then 0x21 else 0⟩
    else some bare_device
  else none

/-- The state `domain_read_resources` leaves on `committed_tree`. -/
def recovered_state : NbState :=
  match domain_read_resources 8 committed_tree initial_state with
  | some s => s
  | none => initial_state

/-- A two-node device tree whose routing registers are all committed to links of
node 0: the I/O pairs 0xC0..0xD8 to links 0..3 and the memory pairs 0x80..0xB8 to
links 0..7 (base word 3, limit word `link << 4`). -/
def exhausted_tree : Nat → Nat → Option Device := fun i fn =>
  if i < 2 then
    if fn = 1 then
      some ⟨true, [], fun reg =>
        if 0x80 ≤ reg ∧ reg < 0xe0 then
          (if reg % 8 = 0 then 3 else (((reg - 4) / 8) % 8) <<< 4)
        else 0⟩
    else some bare_device
  else none

/-- The state `domain_read_resources` leaves on `exhausted_tree`. -/
def exhausted_state : NbState :=
  match domain_read_resources 8 exhausted_tree initial_state with
  | some s => s
  | none => initial_state

/-! ## DRAM extents and the address-space partitioner -/

/-- The C type `dram_base_mask_t`: address bits [47:27] at [28:8]; bit 0 of `mask` is
the enable bit. -/
structure DramBaseMask where
  base : Nat
  mask : Nat
deriving DecidableEq

/-- `get_dram_base_mask(nodeid)`; `cfg` is the configuration space of `__f1_dev[0]`,
which the C function reads with `pci_read_config32`. -/
def get_dram_base_mask (cfg : Nat → Nat) (nodeid : Nat) : DramBaseMask :=
  let temp := cfg (0x44 + (nodeid <<< 3))
  let mask := (temp &&& 0xfff80000) >>> (8 + 3)
  let temp := cfg (0x144 + (nodeid <<< 3)) &&& 0xff
  let mask := mask ||| (temp <<< 21)
  let temp := cfg (0x40 + (nodeid <<< 3))
  let mask := mask ||| (temp &&& 1)
  let base := (temp &&& 0xfff80000) >>> (8 + 3)
  let temp := cfg (0x140 + (nodeid <<< 3)) &&& 0xff
  let base := base ||| (temp <<< 21)
  { base := base, mask := mask }

/-- The start of a node's DRAM in KiB: `((resource_t)(d.base & 0x1fffff00)) << 9`. -/
def node_basek (d : DramBaseMask) : Nat := (d.base &&& 0x1fffff00) <<< 9

/-- The end of a node's DRAM in KiB:
`((resource_t)(((d.mask & ~1) + 0x000FF) & 0x1fffff00)) << 9`, the inner sum in 32 bits. -/
def node_limitk (d : DramBaseMask) : Nat :=
  ((((d.mask &&& 0xfffffffe) + 0x000FF) % 2 ^ 32) &&& 0x1fffff00) <<< 9

/-- Subtraction of two `resource_t` (64-bit unsigned) values. -/
def sub64 (a b : Nat) : Nat := (a % 2 ^ 64 + 2 ^ 64 - b % 2 ^ 64) % 2 ^ 64

/-- One call `ram_resource(dev, index, basek, sizek)`. -/
structure RamResource where
  index : Nat
  basek : Nat
  sizek : Nat
deriving DecidableEq

/-- The local variables of one iteration of the node loop of `domain_set_resources`,
with the `ram_resource` calls made so far in the iteration. -/
structure NodeVars where
  out : List RamResource
  idx : Nat
  basek : Nat
  sizek : Nat

/-- The block "see if we need a hole from 0xa0000 to 0xbffff". -/
def carve_vga_hole (i limitk : Nat) (v : NodeVars) : NodeVars :=
  if v.basek < (8 * 64) + (8 * 16) ∧ v.sizek > (8 * 64) + (16 * 16) then
    { out := v.out ++ [⟨v.idx ||| i, v.basek, ((8 * 64) + (8 * 16)) - v.basek⟩]
      idx := v.idx + 0x10
      basek := (8 * 64) + (16 * 16)
      sizek := sub64 limitk ((8 * 64) + (16 * 16)) }
  else v

/-- The inner block `if (basek <= mmio_basek) { ... }` of the split; `pre_sizek` is an
`unsigned int`. -/
def split_below_mmio (mmio_basek i : Nat) (v : NodeVars) : NodeVars :=
  if v.basek ≤ mmio_basek then
    let pre_sizek := (mmio_basek - v.basek) % 2 ^ 32
    if pre_sizek > 0 then
      { out := v.out ++ [⟨v.idx ||| i, v.basek, pre_sizek⟩]
        idx := v.idx + 0x10
        basek := mmio_basek
        sizek := sub64 v.sizek pre_sizek }
    else { v with basek := mmio_basek }
  else v

/-- The block "split the region to accommodate pci memory space"; `topmem2` is the
value of `bsp_topmem2()`. -/
def split_pci_memory (mmio_basek topmem2 i limitk : Nat) (v : NodeVars) : NodeVars :=
  if v.basek < 4 * 1024 * 1024 ∧ limitk > mmio_basek then
    let v1 := split_below_mmio mmio_basek i v
    if (v1.basek + v1.sizek) % 2 ^ 64 ≤ 4 * 1024 * 1024 then
      { v1 with sizek := 0 }
    else
      { v1 with basek := 4 * 1024 * 1024
                sizek := sub64 (topmem2 / 1024) (4 * 1024 * 1024) }
  else v

/-- The body of the node loop for an enabled node with decoded `basek` and `limitk`:
the `ram_resource` calls of the iteration and the value of `idx` after it. -/
def set_resources_region (mmio_basek topmem2 i idx basek limitk : Nat) :
    List RamResource × Nat :=
  let v0 : NodeVars := { out := [], idx := idx, basek := basek, sizek := sub64 limitk basek }
  let v1 := carve_vga_hole i limitk v0
  let v2 := split_pci_memory mmio_basek topmem2 i limitk v1
  (v2.out ++ [⟨v2.idx ||| i, v2.basek, v2.sizek⟩], v2.idx + 0x10)

/-- The body of the node loop of `domain_set_resources` for node `i`. -/
def set_resources_node (mmio_basek topmem2 i idx : Nat) (d : DramBaseMask) :
    List RamResource × Nat :=
  if d.mask &&& 1 = 0 then ([], idx)
  else set_resources_region mmio_basek topmem2 i idx (node_basek d) (node_limitk d)

/-- The node loop of `domain_set_resources`, `for (i = 0; i < node_nums; i++)`, at
node `i` with `k` iterations left: the `ram_resource` calls in order. -/
def set_resources_nodes (cfg : Nat → Nat) (mmio_basek topmem2 : Nat) :
    Nat → Nat → Nat → List RamResource
  | 0, _, _ => []
  | k + 1, i, idx =>
    let r := set_resources_node mmio_basek topmem2 i idx (get_dram_base_mask cfg i)
    r.1 ++ set_resources_nodes cfg mmio_basek topmem2 k (i + 1) r.2

/-- The result type `struct hw_mem_hole_info`. -/
structure HwMemHoleInfo where
  hole_startk : Nat
  node_id : Int
deriving DecidableEq

/-- First loop of `get_hw_mem_hole_info`: the search for a node whose register 0xF0
has the hole bit set.  `none` is a read through a null handle; `some none` means no
such node. -/
def find_explicit_hole (s : NbState) (cfg : Nat → Nat) : Nat → Nat → Option (Option HwMemHoleInfo)
  | 0, _ => some none
  | k + 1, i =>
    let d := get_dram_base_mask cfg i
    if d.mask &&& 1 = 0 then find_explicit_hole s cfg k (i + 1)
    else
      match s.f1_dev i with
      | none => none
      | some dev =>
        let hole := dev.pci_config 0xf0
        if hole &&& 1 ≠ 0 then
          some (some { hole_startk := (hole &&& (0xff <<< 24)) >>> 10, node_id := (i : Int) })
        else find_explicit_hole s cfg k (i + 1)

/-- Second loop of `get_hw_mem_hole_info`: the search for a discontinuity between the
limit of one node and the base of the next, at node `i` with the current
`limitk_pri`. -/
def find_inferred_hole (cfg : Nat → Nat) : Nat → Nat → Nat → Option HwMemHoleInfo
  | 0, _, _ => none
  | k + 1, i, limitk_pri =>
    let d := get_dram_base_mask cfg i
    if d.base &&& 1 = 0 then find_inferred_hole cfg k (i + 1) limitk_pri
    else
      let base_k := (d.base &&& 0x1fffff00) <<< 9
      if base_k > 4 * 1024 * 1024 then none
      else if limitk_pri ≠ base_k then
        some { hole_startk := limitk_pri % 2 ^ 32, node_id := (i : Int) }
      else find_inferred_hole cfg k (i + 1) (node_limitk d)

/-- `get_hw_mem_hole_info()`; `HW_MEM_HOLE_SIZEK` is the build option
`CONFIG_HW_MEM_HOLE_SIZEK`.  `none` is a read through a null handle. -/
def get_hw_mem_hole_info (HW_MEM_HOLE_SIZEK : Nat) (s : NbState) : Option HwMemHoleInfo :=
  if s.node_nums = 0 then some { hole_startk := HW_MEM_HOLE_SIZEK, node_id := -1 }
  else
    match s.f1_dev 0 with
    | none => none
    | some f1 =>
      match find_explicit_hole s f1.pci_config s.node_nums 0 with
      | none => none
      | some (some mem_hole) => some mem_hole
      | some none =>
        match find_inferred_hole f1.pci_config s.node_nums 0 0 with
        | some mem_hole => some mem_hole
        | none => some { hole_startk := HW_MEM_HOLE_SIZEK, node_id := -1 }

/-- The low-memory ceiling `mmio_basek` of `domain_set_resources`, from the final value
of `pci_tolm` and the hole descriptor (absent when `CONFIG_HW_MEM_HOLE_SIZEK` is 0). -/
def compute_mmio_basek (pci_tolm : Nat) (mem_hole : Option HwMemHoleInfo) : Nat :=
  let mmio_basek := pci_tolm >>> 10
  let mmio_basek := mmio_basek &&& 0xffffffc0
  let mmio_basek := mmio_basek &&& 0xffff0000
  match mem_hole with
  | none => mmio_basek
  | some h => if h.node_id ≠ -1 ∧ mmio_basek > h.hole_startk then h.hole_startk else mmio_basek

/-- `domain_set_resources(dev)`: the list of `ram_resource` calls.  `pci_tolm` is the
value left by the loop over the links (`find_pci_tolm`, or 0xffffffff without links),
`topmem2` the value of `bsp_topmem2()`.  The closing calls (`add_uma_resource_below_tolm`,
`assign_resources`) belong to the device core. -/
def domain_set_resources (HW_MEM_HOLE_SIZEK pci_tolm topmem2 : Nat) (s : NbState) :
    Option (List RamResource) :=
  match (if HW_MEM_HOLE_SIZEK ≠ 0 then (get_hw_mem_hole_info HW_MEM_HOLE_SIZEK s).map some
         else some none) with
  | none => none
  | some mem_hole =>
    let mmio_basek := compute_mmio_basek pci_tolm mem_hole
    if s.node_nums = 0 then some []
    else
      match s.f1_dev 0 with
      | none => none
      | some f1 => some (set_resources_nodes f1.pci_config mmio_basek topmem2 s.node_nums 0 0x10)

/-- DRAM registers of a two-node system with the extents [0, 2 GiB) and
[2 GiB, 6 GiB), both nodes enabled. -/
def two_extent_cfg : Nat → Nat := fun reg =>
  if reg = 0x40 then 0x00000001 else if reg = 0x44 then 0x00800000
  else if reg = 0x48 then 0x00800001 else if reg = 0x4c then 0x01800000 else 0

/-- DRAM registers of a one-node system with the extent [0, 1 GiB). -/
def one_gib_cfg : Nat → Nat := fun reg =>
  if reg = 0x40 then 0x00000001 else if reg = 0x44 then 0x00400000 else 0

/-- DRAM registers of a two-node system with the extents [0, 5 GiB) and
[5 GiB, 6 GiB), both nodes enabled. -/
def crossing_cfg : Nat → Nat := fun reg =>
  if reg = 0x40 then 0x00000001 else if reg = 0x44 then 0x01400000
  else if reg = 0x48 then 0x01400001 else if reg = 0x4c then 0x01800000 else 0

/-- DRAM registers of a two-node system with the extents [0, 1 GiB) and
[2 GiB, 3 GiB), both nodes enabled: a gap between node 0's limit and node 1's base. -/
def gap_cfg : Nat → Nat := fun reg =>
  if reg = 0x40 then 0x00000001 else if reg = 0x44 then 0x00400000
  else if reg = 0x48 then 0x00800001 else if reg = 0x4c then 0x00c00000 else 0

/-- A two-node state whose function-1 devices carry `gap_cfg` and have the hole bit of
register 0xF0 clear. -/
def gap_state : NbState :=
  ⟨2, 0, 2, fun n => if n < 2 then some bare_device else none,
    fun n => if n < 2 then some ⟨true, [], gap_cfg⟩ else none⟩

/-- A two-node state whose function-1 devices carry `two_extent_cfg`. -/
def two_extent_state : NbState :=
  ⟨2, 0, 2, fun n => if n < 2 then some bare_device else none,
    fun n => if n < 2 then some ⟨true, [], two_extent_cfg⟩ else none⟩

/-- Two `ram_resource` calls in call order: the bases do not decrease. -/
def bases_ordered (a b : RamResource) : Prop := a.basek ≤ b.basek

/-- Two `ram_resource` calls in call order do not overlap: one of them is empty or the
earlier one ends at or before the start of the later one. -/
def no_overlap (a b : RamResource) : Prop :=
  a.sizek = 0 ∨ b.sizek = 0 ∨ a.basek + a.sizek ≤ b.basek

instance (a b : RamResource) : Decidable (bases_ordered a b) := by
  unfold bases_ordered; infer_instance

instance (a b : RamResource) : Decidable (no_overlap a b) := by
  unfold no_overlap; infer_instance

/-! ## Processor enumeration -/

/-- What `cpu_bus_scan` obtains from outside the file: the AGESA values
`AMD_GLOBAL_NUM_MODULES` and `CfgPlatNumIoApics`, the two `cpuid` words it reads, and
the device tree, `pcidev_on_root i fn` standing for `pcidev_on_root(DEV_CDB + i, fn)`
(for function 0 as it answers after the probing of a missing node). -/
structure CpuScanEnv where
  modules : Nat
  ioapic_count : Nat
  cpuid_ecx_80000008 : Nat
  cpuid_eax_1 : Nat
  pcidev_on_root : Nat → Nat → Option Device

/-- One call `add_cpu_device(cpu_bus, apic_id, enable_node)`, with the node and core
index that `amd_cpu_topology` receives for it. -/
structure CpuCall where
  apic_id : Nat
  enable_node : Bool
  node : Nat
  core : Nat
deriving DecidableEq

/-- `sysconf_init`: `node_nums = ((pci_read_config32(dev, 0x60) >> 4) & 7) + 1`. -/
def sysconf_node_nums (dev_mc : Device) : Nat := ((dev_mc.pci_config 0x60 >>> 4) &&& 7) + 1

/-- `sysconf_init`: `sblink = (pci_read_config32(dev, 0x64) >> 8) & 7`. -/
def sysconf_sblink (dev_mc : Device) : Nat := (dev_mc.pci_config 0x64 >>> 8) &&& 7

/-- "Get Max Number of cores(MNC)": `core_max = 1 << (coreid_bits & 0x000F)` with
`coreid_bits = (cpuid_ecx(0x80000008) & 0x0000F000) >> 12`. -/
def core_max_of (ecx : Nat) : Nat := 1 <<< ((((ecx &&& 0x0000F000) >>> 12)) &&& 0x000F)

/-- The value of `lapicid_start` in the core loop of `cpu_bus_scan` (32-bit unsigned;
`ioapic_count` is positive by the assertion at the head of the function). -/
def lapicid_start (node_nums core_max ioapic_count : Nat) : Nat :=
  if ((node_nums * core_max) % 2 ^ 32 + ioapic_count) % 2 ^ 32 ≥ 0x10 then
    ((((ioapic_count - 1) / core_max) % 2 ^ 32 + 1) * core_max) % 2 ^ 32
  else 0

/-- The value of `apic_id` for node `i`, core `j`:
`(lapicid_start * (i/modules + 1)) + ((i % modules) ? (j + (siblings + 1)) : j)` in 32-bit
unsigned arithmetic. -/
def apic_id (node_nums core_max ioapic_count modules siblings i j : Nat) : Nat :=
  (lapicid_start node_nums core_max ioapic_count * ((i / modules + 1) % 2 ^ 32)
    + (if i % modules ≠ 0 then j + (siblings + 1) else j)) % 2 ^ 32

/-- The sibling count `cpu_bus_scan` uses for node `i`, given the value `siblings` left
by the previous node, and the device whose presence and enable flag give `enable_node`.
`none` is the read through a null handle in the family 10h branch. -/
def node_siblings (env : CpuScanEnv) (family i siblings : Nat) : Option (Nat × Option Device) :=
  if family = 1 then
    match env.pcidev_on_root i 3 with
    | none => none
    | some cdb_dev =>
      let dword := cdb_dev.pci_config 0xe8
      some (((dword &&& 0x8000) >>> 13) ||| ((dword &&& (0x2000 ||| 0x1000)) >>> 12),
            some cdb_dev)
  else if family = 6 then
    match env.pcidev_on_root i 5 with
    | some cdb_dev =>
      if cdb_dev.enabled then some (cdb_dev.pci_config 0x84 &&& 0xFF, some cdb_dev)
      else some (siblings, some cdb_dev)
    | none => some (siblings, none)
  else some (0, env.pcidev_on_root i 0)

/-- The core loop `for (j = 0; j <= siblings; j++)` of node `i`. -/
def scan_cores (node_nums core_max ioapic_count modules siblings i : Nat)
    (enable_node : Bool) : List CpuCall :=
  (List.range (siblings + 1)).map (fun j =>
    { apic_id := apic_id node_nums core_max ioapic_count modules siblings i j
      enable_node := enable_node, node := i, core := j })

/-- The node loop `for (i = 0; i < node_nums; i++)` of `cpu_bus_scan`, at node `i` with
`k` iterations left and the current value of `siblings`. -/
def scan_nodes (env : CpuScanEnv) (node_nums core_max family : Nat) :
    Nat → Nat → Nat → Option (List CpuCall)
  | 0, _, _ => some []
  | k + 1, i, siblings =>
    match node_siblings env family i siblings with
    | none => none
    | some (siblings', cdb_dev) =>
      let enable_node := match cdb_dev with
        | some d => d.enabled
        | none => false
      match scan_nodes env node_nums core_max family k (i + 1) siblings' with
      | none => none
      | some rest =>
        some (scan_cores node_nums core_max env.ioapic_count env.modules siblings' i
                enable_node ++ rest)

/-- `cpu_bus_scan(dev)`: the calls of `add_cpu_device` in order.  `none` is the `die`
for a missing node-0 host bridge, or a read through a null handle. -/
def cpu_bus_scan (env : CpuScanEnv) : Option (List CpuCall) :=
  match env.pcidev_on_root 0 0 with
  | none => none
  | some dev_mc =>
    let node_nums := sysconf_node_nums dev_mc
    let core_max := core_max_of env.cpuid_ecx_80000008
    let family := (env.cpuid_eax_1 >>> 20) &&& 0xFF
    scan_nodes env node_nums core_max family node_nums 0 0

/-- A family 15h system of two nodes with `core_max = 4`, three siblings on each node
and 20 I/O APICs, for a given module count. -/
def two_node_env (modules : Nat) : CpuScanEnv :=
  { modules := modules
    ioapic_count := 20
    cpuid_ecx_80000008 := 0x2000
    cpuid_eax_1 := 0x00600000
    pcidev_on_root := fun i fn =>
      if i < 2 then
        if fn = 0 then some ⟨true, [], fun reg => if reg = 0x60 then 0x10 else 0⟩
        else if fn = 5 then some ⟨true, [], fun reg => if reg = 0x84 then 3 else 0⟩
        else some bare_device
      else none }

/-- A family 15h system of two nodes with `core_max = 4`, three siblings on each node,
one module and a single I/O APIC, which stays below the threshold of 16 APICs. -/
def two_node_low_env : CpuScanEnv :=
  { modules := 1
    ioapic_count := 1
    cpuid_ecx_80000008 := 0x2000
    cpuid_eax_1 := 0x00600000
    pcidev_on_root := (two_node_env 1).pcidev_on_root }

/-- The node-0 host bridge of the example systems: register 0x60 announces two nodes. -/
def two_node_bridge : Device := ⟨true, [], fun reg => if reg = 0x60 then 0x10 else 0⟩

/-- A two-node system whose extended family (0) is neither 1 (family 10h) nor 6
(family 15h). -/
def unknown_family_env : CpuScanEnv :=
  { modules := 1
    ioapic_count := 20
    cpuid_ecx_80000008 := 0x2000
    cpuid_eax_1 := 0
    pcidev_on_root := fun i fn =>
      if i < 2 then (if fn = 0 then some two_node_bridge else some bare_device) else none }

/-! ## Committing a window to the routing registers -/

/-- `pci_write_config32(__f1_dev[i], reg, value)`; `none` is the write through a null
handle. -/
def f1_write (s : NbState) (i reg value : Nat) : Option NbState :=
  match s.f1_dev i with
  | none => none
  | some d =>
    let d' : Device := { d with pci_config := Function.update d.pci_config reg value }
    some { s with f1_dev := Function.update s.f1_dev i (some d') }

/-- The loop `for (i = 0; i < n; i++) pci_write_config32(__f1_dev[i], reg, value);`, at
node `i` with `k` iterations left. -/
def f1_write_nodes (reg value : Nat) : Nat → Nat → NbState → Option NbState
  | 0, _, s => some s
  | k + 1, i, s =>
    match f1_write s i reg value with
    | none => none
    | some s' => f1_write_nodes reg value k (i + 1) s'

/-- The limit word `set_io_addr_reg` writes at `reg + 4` (32-bit unsigned). -/
def io_limit_word (nodeid linkn io_max : Nat) : Nat :=
  (((nodeid &&& 0xf) ||| ((nodeid &&& 0x30) <<< (8 - 4))) ||| ((linkn <<< 4) % 2 ^ 32))
    ||| ((io_max &&& 0xf0) <<< (12 - 4))

/-- The base word `set_io_addr_reg` writes at `reg`. -/
def io_base_word (io_min : Nat) : Nat := 3 ||| ((io_min &&& 0xf0) <<< (12 - 4))

/-- The limit word `set_mmio_addr_reg` writes at `reg + 4` (32-bit unsigned). -/
def mmio_limit_word (nodeid linkn mmio_max : Nat) : Nat :=
  ((nodeid &&& 0xf) ||| ((linkn <<< 4) % 2 ^ 32)) ||| (mmio_max &&& 0xffffff00)

/-- The base word `set_mmio_addr_reg` writes at `reg`. -/
def mmio_base_word (nodeid mmio_min : Nat) : Nat :=
  (3 ||| (nodeid &&& 0x30)) ||| (mmio_min &&& 0xffffff00)

/-- `set_io_addr_reg(dev, nodeid, linkn, reg, io_min, io_max)`: the limit word goes to
`reg + 4` and then the base word to `reg`, on the function 1 of every node below
`node_nums`. -/
def set_io_addr_reg (s : NbState) (nodeid linkn reg io_min io_max : Nat) : Option NbState :=
  match f1_write_nodes (reg + 4) (io_limit_word nodeid linkn io_max) s.node_nums 0 s with
  | none => none
  | some s1 => f1_write_nodes reg (io_base_word io_min) s1.node_nums 0 s1

/-- `set_mmio_addr_reg(nodeid, linkn, reg, index, mmio_min, mmio_max, nodes)`: the limit
loop runs over `nodes`, the base loop over `node_nums`. -/
def set_mmio_addr_reg (s : NbState) (nodeid linkn reg _index mmio_min mmio_max nodes : Nat) :
    Option NbState :=
  match f1_write_nodes (reg + 4) (mmio_limit_word nodeid linkn mmio_max) nodes 0 s with
  | none => none
  | some s1 => f1_write_nodes reg (mmio_base_word nodeid mmio_min) s1.node_nums 0 s1

/-- `set_resource(dev, resource, nodeid)`.  `dev` is the node number of the function-0
handle and `index` the key of the resource the pointer refers to; `resource_end` is the
device-core helper of that name (the last address of the window).  The values
`rbase >> 8` and `rend >> 8` are passed as 32-bit arguments.  `none` is an access
through a null handle or a pointer to no resource. -/
def set_resource (c : DevConsts) (resource_end : Resource → Nat) (s : NbState)
    (dev index nodeid : Nat) : Option NbState :=
  match s.f0_dev dev with
  | none => none
  | some d =>
    match probe_resource d index with
    | none => none
    | some resource =>
      if resource.flags &&& c.IORESOURCE_ASSIGNED = 0 then some s
      else if resource.flags &&& c.IORESOURCE_STORED ≠ 0 then some s
      else if resource.flags &&& (c.IORESOURCE_MEM ||| c.IORESOURCE_IO) = 0 then some s
      else if resource.index &&& 0xffff < 0x1000 then some s
      else
        let rbase := resource.base
        let rend := resource_end resource
        let reg := resource.index &&& 0xfff
        let link_num := IOINDEX_LINK resource.index
        let written :=
          if resource.flags &&& c.IORESOURCE_IO ≠ 0 then
            set_io_addr_reg s nodeid link_num reg ((rbase >>> 8) % 2 ^ 32) ((rend >>> 8) % 2 ^ 32)
          else if resource.flags &&& c.IORESOURCE_MEM ≠ 0 then
            set_mmio_addr_reg s nodeid link_num reg (resource.index >>> 24)
              ((rbase >>> 8) % 2 ^ 32) ((rend >>> 8) % 2 ^ 32) s.node_nums
          else some s
        match written with
        | none => none
        | some s1 =>
          some (modify_resource s1 dev index
            (fun r => { r with flags := r.flags ||| c.IORESOURCE_STORED }))

/-- The values the device core gives the constants of `DevConsts`. -/
def example_consts : DevConsts :=
  { IORESOURCE_IO := 0x100
    IORESOURCE_MEM := 0x200
    IORESOURCE_PREFETCH := 0x1000
    IORESOURCE_BRIDGE := 0x80000
    IORESOURCE_STORED := 0x20000000
    IORESOURCE_ASSIGNED := 0x40000000
    HT_IO_HOST_ALIGN := 4096
    HT_MEM_HOST_ALIGN := 0x100000 }

/-- An assigned, not yet stored I/O window of link 1 at register offset 0xC0: base
0x1000, size 0x1000. -/
def assigned_io_window : Resource :=
  ⟨0x1000, 0x1000, 0xffff, 0x40000100, IOINDEX (0x1000 + 0xc0) 1, 12, 12⟩

/-- A function-0 device holding `assigned_io_window`. -/
def assigned_io_device : Device := ⟨true, [assigned_io_window], fun _ => 0⟩

/-- A two-node state in which node 0 holds the window of `assigned_io_device`. -/
def assigned_state : NbState :=
  ⟨2, 0, 2,
    fun n => if n = 0 then some assigned_io_device else if n = 1 then some bare_device else none,
    fun n => if n < 2 then some bare_device else none⟩

/-- Modelled from the spec: `resource_end` of the device core (not in the shown
sources), the last address of a window given by base and size. -/
def example_resource_end (r : Resource) : Nat := r.base + r.size - 1

/-- Both the function-0 and the function-1 handle of node `i` exist in the device
tree. -/
def both_handles (get_node_pci : Nat → Nat → Option Device) (i : Nat) : Prop :=
  (get_node_pci i 0).isSome = true ∧ (get_node_pci i 1).isSome = true

/-- DRAM registers of a one-node system with the extent [0, 6 GiB). -/
def six_gib_cfg : Nat → Nat := fun reg =>
  if reg = 0x40 then 0x00000001 else if reg = 0x44 then 0x01800000 else 0

/-- DRAM registers of a one-node system with the extent [4 GiB, 6 GiB). -/
def high_node_cfg : Nat → Nat := fun reg =>
  if reg = 0x40 then 0x01000001 else if reg = 0x44 then 0x01800000 else 0

/-! ## Link lists -/

/-- One `struct bus`, with the fields that `add_more_links` writes and `children`.
Pointers are cell numbers, a null pointer is `none`.  The structure is declared outside
this file: the width of its `link_num` field is the parameter `LINK_NUM_BITS` of the
functions below. -/
structure Bus where
  link_num : Nat
  dev : Option Nat
  children : Option Nat
  next : Option Nat
deriving DecidableEq

/-- A `struct bus` after `memset(link, 0, ...)`. -/
def zero_bus : Bus := ⟨0, none, none, none⟩

/-- The memory that `add_more_links` works on: `dev->link_list` and the `struct bus`
cells, addressed in units of `sizeof(struct bus)`. -/
structure LinkHeap where
  link_list : Option Nat
  mem : Nat → Bus

/-- How a call of `add_more_links` ends. -/
inductive LinksOutcome where
  | done (h : LinkHeap)
  | die
  | null_access
  | out_of_fuel

/-- A write to the cell `p`. -/
def store (mem : Nat → Bus) (p : Nat) (b : Bus) : Nat → Bus :=
  fun q => if q = p then b else mem q

/-- The call `memset(link, 0, count*sizeof(*link))` with `link` at cell `a`. -/
def memset_links (mem : Nat → Bus) (a count : Nat) : Nat → Bus :=
  fun q => if a ≤ q ∧ q < a + count then zero_bus else mem q

/-- The loop `for (link = dev->link_list; link; link = link->next) last = link;` at
`link` with the current `last`: the final `last`, or `none` when the fuel runs out. -/
def last_link (mem : Nat → Bus) : Nat → Option Nat → Option Nat → Option (Option Nat)
  | _, none, last => some last
  | 0, some _, _ => none
  | fuel + 1, some p, _ => last_link mem fuel (mem p).next (some p)

/-- The loop `for (link_num = link_num + 1; link_num < total_links; link_num++)` with
`k` iterations left: the final `last` and memory, or `none` on a write through a null
`link`.  The store `link->link_num = link_num` keeps the low `LINK_NUM_BITS` bits. -/
def fill_links (LINK_NUM_BITS dev : Nat) :
    Nat → Nat → Option Nat → Option Nat → (Nat → Bus) → Option (Option Nat × (Nat → Bus))
  | 0, _, _, last, mem => some (last, mem)
  | k + 1, link_num, link, _, mem =>
    match link with
    | none => none
    | some p =>
      fill_links LINK_NUM_BITS dev k (link_num + 1) (some (p + 1)) (some p)
        (store mem p { mem p with link_num := link_num % 2 ^ LINK_NUM_BITS, dev := some dev
                                  next := some (p + 1) })

/-- The fill loop entered with `link_num + 1 = start`, followed by `last->next = NULL`. -/
def finish_links (LINK_NUM_BITS dev total_links start : Nat) (link_list link last : Option Nat)
    (mem : Nat → Bus) : LinksOutcome :=
  match fill_links LINK_NUM_BITS dev (total_links - start) start link last mem with
  | none => .null_access
  | some (none, _) => .null_access
  | some (some l, mem1) => .done ⟨link_list, store mem1 l { mem1 l with next := none }⟩

/-- `add_more_links(dev, total_links)`.  `malloc_result` is what the one call of
`malloc` returns when it is made: the first cell of the new block, or `none` for a null
pointer.  `int links` is the 32-bit difference read as a signed number.  With an empty
list and a null result, `memset` or else `last->next = NULL` writes through a null
pointer. -/
def add_more_links (LINK_NUM_BITS fuel : Nat) (malloc_result : Option Nat)
    (dev total_links : Nat) (h : LinkHeap) : LinksOutcome :=
  match last_link h.mem fuel h.link_list none with
  | none => .out_of_fuel
  | some (some last) =>
    let links := (total_links + 2 ^ 32 - (h.mem last).link_num % 2 ^ 32) % 2 ^ 32
    let link_num := (h.mem last).link_num
    if 0 < links ∧ links < 2 ^ 31 then
      match malloc_result with
      | none => .die
      | some a =>
        let mem1 := memset_links h.mem a links
        let mem2 := store mem1 last { mem1 last with next := some a }
        finish_links LINK_NUM_BITS dev total_links (link_num + 1) h.link_list (some a)
          (some last) mem2
    else
      finish_links LINK_NUM_BITS dev total_links (link_num + 1) h.link_list none (some last)
        h.mem
  | some none =>
    match malloc_result with
    | none => .null_access
    | some a =>
      let mem1 := memset_links h.mem a total_links
      finish_links LINK_NUM_BITS dev total_links 0 (some a) (some a) none mem1

/-- The cells `addrs` are, in order, the list that starts at the pointer `p` and ends
with a null `next`. -/
def IsChain (mem : Nat → Bus) : Option Nat → List Nat → Prop
  | p, [] => p = none
  | p, a :: rest => p = some a ∧ IsChain mem (mem a).next rest

instance decIsChain (mem : Nat → Bus) :
    ∀ (p : Option Nat) (l : List Nat), Decidable (IsChain mem p l)
  | p, [] => by unfold IsChain; infer_instance
  | p, a :: rest => by
    unfold IsChain
    have := decIsChain mem (mem a).next rest
    infer_instance

/-- A device (handle 7) with one link, number 0, in cell 10; the link has a child. -/
def one_link_heap : LinkHeap :=
  ⟨some 10, fun q => if q = 10 then ⟨0, some 7, some 99, none⟩ else zero_bus⟩

/-- The ceiling as the specification words it: `R`, the value `pci_tolm >> 10` rounded
down to a multiple of 65536 KiB, or the smaller of `R` and the start of the hole when a
hole is reported. -/
def mmio_basek_spec (pci_tolm : Nat) (mem_hole : Option HwMemHoleInfo) : Nat :=
  let R := (pci_tolm >>> 10) / 65536 * 65536
  match mem_hole with
  | none => R
  | some h => if h.node_id ≠ -1 then min R h.hole_startk else R

/-! ## Previous sleep state (`soc/intel/icelake/pmutil.c`) -/

/-- Constants of the PMC headers that `pmutil.c` uses but does not define: the power
failure bits of `GEN_PMCON_A`, the deep-S3 gate bits of `S3_PWRGATE_POL` and the ACPI
sleep state numbers. -/
structure PmcConsts where
  PWR_FLR : Nat
  SUS_PWR_FLR : Nat
  S3DC_GATE_SUS : Nat
  S3AC_GATE_SUS : Nat
  ACPI_S3 : Int
  ACPI_S5 : Int

/-- `deep_s3_enabled()`; `s3_pwrgate_pol` is the value read from the register
`S3_PWRGATE_POL`. -/
def deep_s3_enabled (c : PmcConsts) (s3_pwrgate_pol : Nat) : Bool :=
  decide (s3_pwrgate_pol &&& (c.S3DC_GATE_SUS ||| c.S3AC_GATE_SUS) ≠ 0)

/-- `soc_prev_sleep_state(ps, prev_sleep_state)`; `gen_pmcon_a` is `ps->gen_pmcon_a`. -/
def soc_prev_sleep_state (c : PmcConsts) (s3_pwrgate_pol gen_pmcon_a : Nat)
    (prev_sleep_state : Int) : Int :=
  let prev_sleep_state :=
    if gen_pmcon_a &&& (c.PWR_FLR ||| c.SUS_PWR_FLR) ≠ 0 then c.ACPI_S5 else prev_sleep_state
  if prev_sleep_state = c.ACPI_S3 then
    let mask := c.PWR_FLR
    let mask := if ¬ deep_s3_enabled c s3_pwrgate_pol = true then mask ||| c.SUS_PWR_FLR else mask
    if gen_pmcon_a &&& mask ≠ 0 then c.ACPI_S5 else prev_sleep_state
  else prev_sleep_state

/-- The previous sleep state as the specification words it: S5 when `gen_pmcon_a` has
`PWR_FLR` or `SUS_PWR_FLR` set, the input otherwise. -/
def prev_sleep_state_spec (c : PmcConsts) (gen_pmcon_a : Nat) (prev_sleep_state : Int) : Int :=
  if gen_pmcon_a &&& c.PWR_FLR ≠ 0 ∨ gen_pmcon_a &&& c.SUS_PWR_FLR ≠ 0 then c.ACPI_S5
  else prev_sleep_state

/-! ## Option ROM ids -/

/-- `map_oprom_vendev(vendev)`. -/
def map_oprom_vendev (vendev : Nat) : Nat :=
  let new_vendev := vendev
  if vendev = 0x10021308 then new_vendev
  else if 0x10021300 ≤ vendev ∧ vendev ≤ 0x1002131F then 0x10021304
  else new_vendev

/-- The sibling count of one node of a family 15h system as the specification words
it: the low byte of register 0x84 of the node's function 5 when that device exists and
is enabled, the value `prev` of the node before it otherwise. -/
def family15_node_siblings (env : CpuScanEnv) (i prev : Nat) : Nat :=
  match env.pcidev_on_root i 5 with
  | some d => if d.enabled then d.pci_config 0x84 &&& 0xFF else prev
  | none => prev

/-- The sibling count of node `i` of a family 15h system, carried over from node
`i - 1` (from 0 for node 0) when node `i` has no enabled function 5. -/
def family15_siblings (env : CpuScanEnv) : Nat → Nat
  | 0 => family15_node_siblings env 0 0
  | i + 1 => family15_node_siblings env (i + 1) (family15_siblings env i)

/-- A family 15h system of three nodes whose node 1 has a disabled function 5 and whose
node 2 has none: node 0 announces 3 siblings, node 1 would announce 1. -/
def carry_env : CpuScanEnv :=
  { modules := 1
    ioapic_count := 20
    cpuid_ecx_80000008 := 0x2000
    cpuid_eax_1 := 0x00600000
    pcidev_on_root := fun i fn =>
      if fn = 0 then
        (if i < 3 then some ⟨true, [], fun reg => if reg = 0x60 then 0x20 else 0⟩ else none)
      else if fn = 5 then
        (if i = 0 then some ⟨true, [], fun reg => if reg = 0x84 then 3 else 0⟩
         else if i = 1 then some ⟨false, [], fun reg => if reg = 0x84 then 1 else 0⟩
         else none)
      else none }

/-- The region of a `ram_resource` call has nonzero size and meets the interval
[lo, hi) of KiB addresses. -/
def region_meets (r : RamResource) (lo hi : Nat) : Prop :=
  r.sizek ≠ 0 ∧ r.basek < hi ∧ lo < r.basek + r.sizek

instance decRegionMeets (r : RamResource) (lo hi : Nat) : Decidable (region_meets r lo hi) := by
  unfold region_meets; infer_instance

/-- The step of the device core between `read_resources` and `set_resources`: the
window keyed `index` on function-0 device `dev` receives its base and size and is
marked assigned. -/
def assign_window (c : DevConsts) (s : NbState) (dev index base size : Nat) : NbState :=
  modify_resource s dev index
    (fun r => { r with base := base, size := size, flags := r.flags ||| c.IORESOURCE_ASSIGNED })

/-- The state recovered from `exhausted_tree`, with `node_nums` as `sysconf_init` sets
it for the two nodes. -/
def exhausted_two_node_state : NbState := { exhausted_state with node_nums := 2 }

/-- Node 1, link 0 on `exhausted_two_node_state`: the I/O window is obtained from
`amdfam15_find_iopair`, set up as in `amdfam15_link_read_bases`, assigned
[0x1000, 0x1fff] and committed with `set_resource`. -/
def exhausted_io_store : Option NbState :=
  match amdfam15_find_iopair exhausted_two_node_state 1 1 0 with
  | some (s1, some res) =>
    let s2 := setup_window s1 1 (some res) (Nat.log2 example_consts.HT_IO_HOST_ALIGN) 0xffff
      (example_consts.IORESOURCE_IO ||| example_consts.IORESOURCE_BRIDGE)
    let s3 := assign_window example_consts s2 1 res 0x1000 0x1000
    set_resource example_consts example_resource_end s3 1 res 1
  | _ => none

/-- Node 1, link 0 on `exhausted_two_node_state`: the memory window is obtained from
`amdfam15_find_mempair`, set up as in `amdfam15_link_read_bases`, assigned
[0xe0000000, 0xe00fffff] and committed with `set_resource`. -/
def exhausted_mem_store : Option NbState :=
  match amdfam15_find_mempair exhausted_two_node_state 1 1 0 with
  | some (s1, some res) =>
    let s2 := setup_window s1 1 (some res) (Nat.log2 example_consts.HT_MEM_HOST_ALIGN)
      0xffffffffff (example_consts.IORESOURCE_MEM ||| example_consts.IORESOURCE_BRIDGE)
    let s3 := assign_window example_consts s2 1 res 0xe0000000 0x100000
    set_resource example_consts example_resource_end s3 1 res 1
  | _ => none

/-- The function-1 registers of node `i` at the given offsets. -/
def f1_regs (s : NbState) (i : Nat) (regs : List Nat) : Option (List Nat) :=
  (s.f1_dev i).map (fun d => regs.map d.pci_config)

/-- The three resource pointers that one call of `amdfam15_link_read_bases` obtains, in
call order (I/O, prefetchable memory, memory), with the final state: the same steps as
`amdfam15_link_read_bases`, keeping the pointers. -/
def link_read_bases_resources (c : DevConsts) (s : NbState) (dev nodeid link : Nat) :
    Option (NbState × Option Nat × Option Nat × Option Nat) :=
  match amdfam15_find_iopair s dev nodeid link with
  | none => none
  | some (s1, res_io) =>
    let s2 := setup_window s1 dev res_io (Nat.log2 c.HT_IO_HOST_ALIGN) 0xffff
      (c.IORESOURCE_IO ||| c.IORESOURCE_BRIDGE)
    match amdfam15_find_mempair s2 dev nodeid link with
    | none => none
    | some (s3, res_pref) =>
      let s4 := setup_window s3 dev res_pref (Nat.log2 c.HT_MEM_HOST_ALIGN) 0xffffffffff
        ((c.IORESOURCE_MEM ||| c.IORESOURCE_PREFETCH) ||| c.IORESOURCE_BRIDGE)
      match amdfam15_find_mempair s4 dev nodeid link with
      | none => none
      | some (s5, res_mem) =>
        some (setup_window s5 dev res_mem (Nat.log2 c.HT_MEM_HOST_ALIGN) 0xffffffffff
          (c.IORESOURCE_MEM ||| c.IORESOURCE_BRIDGE), res_io, res_pref, res_mem)

/-- A device tree of three nodes in which node 2 has a function 0 but no function 1,
so that `fx_devs` is 2; the I/O pair 0xD8 is committed to node 2, link 0 (base word 3,
limit word 2). -/
def partial_node_tree : Nat → Nat → Option Device := fun i fn =>
  if fn = 1 then
    (if i < 2 then
      some ⟨true, [], fun reg => if reg = 0xd8 then 3 else if reg = 0xdc then 2 else 0⟩
     else none)
  else if i < 3 then some bare_device
  else none

/-- The state `domain_read_resources` leaves on `partial_node_tree`. -/
def partial_node_state : NbState :=
  match domain_read_resources 8 partial_node_tree initial_state with
  | some s => s
  | none => initial_state

/-- The function 1 of the nodes of `committed_tree`. -/
def committed_f1 : Device :=
  ⟨true, [], fun reg =>
    if reg = 0xc8 ∨ reg = 0x90 then 3 else if reg = 0xcc ∨ reg = 0x94 then 0x21 else 0⟩

/-- The handles `get_fx_devs` finds on `committed_tree`. -/
def committed_handles : NbState := get_fx_devs_loop committed_tree 8 0 initial_state

/-- The (node, link) that the base and limit words at `reg` decode to in
`domain_read_resources`; `f1` is the function 1 of node 0. -/
def reg_owner (f1 : Device) (reg : Nat) : Nat × Nat :=
  (decode_nodeid reg (f1.pci_config reg) (f1.pci_config (reg + 0x04)),
   decode_link (f1.pci_config (reg + 0x04)))

/-- The register pair at `reg` is held by `(n, l)` alone: a resource keyed to `reg`
exists for link `l` of node `n`, and for no other link of a node that `reg_useable`
scans. -/
def held_by (s : NbState) (reg n l : Nat) : Prop :=
  (probe_at s reg n l).isSome = true ∧
  ∀ n2 l2, n2 < s.fx_devs → l2 < 8 → (n2, l2) ≠ (n, l) → probe_at s reg n2 l2 = none

/-- The allocator activity that can follow `domain_read_resources`: calls of
`amdfam15_find_iopair` and `amdfam15_find_mempair` made for a node with that node's own
function-0 device (as `read_resources` does), and writes through resource pointers that
leave the key of the resource alone (`amdfam15_link_read_bases`, the device core,
`set_resource`). -/
inductive Later : NbState → NbState → Prop
  | refl (s : NbState) : Later s s
  | find_io (s t t' : NbState) (nodeid link : Nat) (res : Option Nat) :
      Later s t → amdfam15_find_iopair t nodeid nodeid link = some (t', res) → Later s t'
  | find_mem (s t t' : NbState) (nodeid link : Nat) (res : Option Nat) :
      Later s t → amdfam15_find_mempair t nodeid nodeid link = some (t', res) → Later s t'
  | write (s t : NbState) (dev index : Nat) (f : Resource → Resource) :
      Later s t → (∀ r, (f r).index = r.index) → Later s (modify_resource t dev index f)

theorem IOINDEX_inj {r r' l l' : Nat} (hr : r < 0xf000) (hr' : r' < 0xf000)
    (h : IOINDEX (0x1000 + r) l = IOINDEX (0x1000 + r') l') : r = r' ∧ l = l' := by
  simp only [IOINDEX, Nat.shiftLeft_eq] at h
  omega

theorem resource_reg_IOINDEX (r l : Nat) (hr : r < 0x1000) :
    resource_reg (IOINDEX (0x1000 + r) l) = r := by
  have h : (0xfff : Nat) = 2 ^ 12 - 1 := by norm_num
  simp only [resource_reg, IOINDEX, Nat.shiftLeft_eq]
  rw [h, Nat.and_pow_two_sub_one_eq_mod]
  omega

theorem find?_new_resource_list_same (rl : List Resource) (index : Nat) :
    (new_resource_list rl index).find? (fun r => decide (r.index = index))
      = some (fresh_resource index) := by
  induction rl with
  | nil => simp [new_resource_list, fresh_resource]
  | cons r rs ih =>
    by_cases h : r.index = index
    · simp [new_resource_list, h, fresh_resource]
    · simp [new_resource_list, h, ih]

theorem find?_new_resource_list_other (rl : List Resource) (index index' : Nat)
    (hne : index' ≠ index) :
    (new_resource_list rl index).find? (fun r => decide (r.index = index'))
      = rl.find? (fun r => decide (r.index = index')) := by
  induction rl with
  | nil => simp [new_resource_list, fresh_resource, Ne.symm hne]
  | cons r rs ih =>
    by_cases h : r.index = index
    · have h' : ¬ r.index = index' := by rw [h]; exact Ne.symm hne
      simp [new_resource_list, h, fresh_resource, h', Ne.symm hne]
    · by_cases h2 : r.index = index'
      · simp only [new_resource_list, if_neg h]
        simp [h2]
      · simp only [new_resource_list, if_neg h]
        simp [h2, ih]

/-! ## What the search of `reg_useable` finds -/

/-- The inner loop either sees no resource on any link it visits, or stops at the
first link that has one. -/
theorem reg_useable_links_spec (d : Device) (reg : Nat) :
    ∀ k link,
      ((∀ j, link ≤ j → j < link + k → probe_resource d (IOINDEX (0x1000 + reg) j) = none) ∧
        reg_useable_links d reg k link = (none, link + k)) ∨
      (∃ l res, link ≤ l ∧ l < link + k ∧
        probe_resource d (IOINDEX (0x1000 + reg) l) = some res ∧
        (∀ j, link ≤ j → j < l → probe_resource d (IOINDEX (0x1000 + reg) j) = none) ∧
        reg_useable_links d reg k link = (some res, l + 1)) := by
  intro k
  induction k with
  | zero =>
    intro link
    left
    exact ⟨fun j h1 h2 => absurd h2 (by omega), rfl⟩
  | succ k ih =>
    intro link
    cases hp : probe_resource d (IOINDEX (0x1000 + reg) link) with
    | some res =>
      right
      refine ⟨link, res, le_refl _, by omega, hp, fun j h1 h2 => absurd h2 (by omega), ?_⟩
      simp only [reg_useable_links, hp]
    | none =>
      have hstep : reg_useable_links d reg (k + 1) link = reg_useable_links d reg k (link + 1) := by
        simp only [reg_useable_links, hp]
      rcases ih (link + 1) with ⟨hall, hres⟩ | ⟨l, res, h1, h2, h3, h4, h5⟩
      · left
        refine ⟨fun j hj1 hj2 => ?_, ?_⟩
        · by_cases hj : j = link
          · rw [hj]; exact hp
          · exact hall j (by omega) (by omega)
        · rw [hstep, hres, Nat.add_assoc, Nat.add_comm 1 k]
      · right
        refine ⟨l, res, by omega, by omega, h3, fun j hj1 hj2 => ?_, ?_⟩
        · by_cases hj : j = link
          · rw [hj]; exact hp
          · exact h4 j (by omega) hj2
        · rw [hstep, h5]

/-- The outer loop either sees no resource keyed to `reg` on any node it visits, or
stops at the first `(node, link)` in scan order that has one. -/
theorem reg_useable_nodes_spec (s : NbState) (reg : Nat) :
    ∀ k nodeid link0,
      ((∀ n l, nodeid ≤ n → n < nodeid + k → l < 8 → probe_at s reg n l = none) ∧
        (reg_useable_nodes s reg k nodeid link0).1 = none) ∨
      (∃ n l res, nodeid ≤ n ∧ n < nodeid + k ∧ l < 8 ∧ probe_at s reg n l = some res ∧
        (∀ n2 l2, nodeid ≤ n2 → l2 < 8 → (n2 < n ∨ (n2 = n ∧ l2 < l)) →
          probe_at s reg n2 l2 = none) ∧
        reg_useable_nodes s reg k nodeid link0 = (some res, n + 1, l + 1)) := by
  intro k
  induction k with
  | zero =>
    intro nodeid link0
    left
    exact ⟨fun n l h1 h2 _ => absurd h2 (by omega), rfl⟩
  | succ k ih =>
    intro nodeid link0
    cases hd : s.f0_dev nodeid with
    | none =>
      have hstep : reg_useable_nodes s reg (k + 1) nodeid link0
          = reg_useable_nodes s reg k (nodeid + 1) link0 := by
        simp only [reg_useable_nodes, hd]
      have hnone : ∀ l, probe_at s reg nodeid l = none := by
        intro l; simp only [probe_at, hd]
      rcases ih (nodeid + 1) link0 with ⟨hall, hres⟩ | ⟨n, l, res, h1, h2, h3, h4, h5, h6⟩
      · left
        refine ⟨fun n l hn1 hn2 hl => ?_, by rw [hstep]; exact hres⟩
        by_cases hn : n = nodeid
        · rw [hn]; exact hnone l
        · exact hall n l (by omega) (by omega) hl
      · right
        refine ⟨n, l, res, by omega, by omega, h3, h4, fun n2 l2 hn2 hl2 hlt => ?_, by rw [hstep, h6]⟩
        by_cases hn : n2 = nodeid
        · rw [hn]; exact hnone l2
        · exact h5 n2 l2 (by omega) hl2 hlt
    | some dev =>
      have hpa : ∀ l, probe_at s reg nodeid l = probe_resource dev (IOINDEX (0x1000 + reg) l) := by
        intro l; simp only [probe_at, hd]
      rcases reg_useable_links_spec dev reg 8 0 with ⟨hall, hres⟩ | ⟨l, res, h1, h2, h3, h4, h5⟩
      · have hstep : reg_useable_nodes s reg (k + 1) nodeid link0
            = reg_useable_nodes s reg k (nodeid + 1) (0 + 8) := by
          simp only [reg_useable_nodes, hd, hres]
        rcases ih (nodeid + 1) (0 + 8) with ⟨hall2, hres2⟩ | ⟨n, l, res, g1, g2, g3, g4, g5, g6⟩
        · left
          refine ⟨fun n l hn1 hn2 hl => ?_, by rw [hstep]; exact hres2⟩
          by_cases hn : n = nodeid
          · rw [hn, hpa]; exact hall l (Nat.zero_le _) (by omega)
          · exact hall2 n l (by omega) (by omega) hl
        · right
          refine ⟨n, l, res, by omega, by omega, g3, g4, fun n2 l2 hn2 hl2 hlt => ?_,
            by rw [hstep, g6]⟩
          by_cases hn : n2 = nodeid
          · rw [hn, hpa]; exact hall l2 (Nat.zero_le _) (by omega)
          · exact g5 n2 l2 (by omega) hl2 hlt
      · right
        refine ⟨nodeid, l, res, le_refl _, by omega, by omega, by rw [hpa]; exact h3,
          fun n2 l2 hn2 hl2 hlt => ?_, ?_⟩
        · rcases hlt with hlt | ⟨heq, hlt⟩
          · omega
          · rw [heq, hpa]; exact h4 l2 (Nat.zero_le _) hlt
        · simp only [reg_useable_nodes, hd, h5]

theorem reg_useable_scan_spec (s : NbState) (reg : Nat) :
    ((∀ n l, n < s.fx_devs → l < 8 → probe_at s reg n l = none) ∧
        (reg_useable_scan s reg).1 = none) ∨
      (∃ n l res, n < s.fx_devs ∧ l < 8 ∧ probe_at s reg n l = some res ∧
        (∀ n2 l2, l2 < 8 → (n2 < n ∨ (n2 = n ∧ l2 < l)) → probe_at s reg n2 l2 = none) ∧
        reg_useable_scan s reg = (some res, n + 1, l + 1)) := by
  rcases reg_useable_nodes_spec s reg s.fx_devs 0 0 with ⟨h1, h2⟩ | ⟨n, l, res, h1, h2, h3, h4, h5, h6⟩
  · left
    exact ⟨fun n l hn hl => h1 n l (Nat.zero_le _) (by omega) hl, h2⟩
  · right
    exact ⟨n, l, res, by omega, h3, h4, fun n2 l2 hl2 hlt => h5 n2 l2 (Nat.zero_le _) hl2 hlt, h6⟩

/-- A register with no resource on any scanned `(node, link)` has an empty search. -/
theorem reg_useable_scan_none (s : NbState) (reg : Nat)
    (h : ∀ n l, n < s.fx_devs → l < 8 → probe_at s reg n l = none) :
    (reg_useable_scan s reg).1 = none := by
  rcases reg_useable_scan_spec s reg with ⟨_, h2⟩ | ⟨n, l, res, h1, h2, h3, _, _⟩
  · exact h2
  · rw [h n l h1 h2] at h3; cases h3

/-- An empty search means no scanned `(node, link)` has a resource keyed to `reg`. -/
theorem probe_at_none_of_scan (s : NbState) (reg : Nat)
    (h : (reg_useable_scan s reg).1 = none) :
    ∀ n l, n < s.fx_devs → l < 8 → probe_at s reg n l = none := by
  rcases reg_useable_scan_spec s reg with ⟨h1, _⟩ | ⟨n, l, res, _, _, _, _, h6⟩
  · exact h1
  · rw [h6] at h; cases h

/-- The search returns the first resource in scan order. -/
theorem reg_useable_scan_some (s : NbState) (reg n l : Nat) (res : Resource)
    (hn : n < s.fx_devs) (hl : l < 8) (hp : probe_at s reg n l = some res)
    (hfirst : ∀ n2 l2, l2 < 8 → (n2 < n ∨ (n2 = n ∧ l2 < l)) → probe_at s reg n2 l2 = none) :
    reg_useable_scan s reg = (some res, n + 1, l + 1) := by
  rcases reg_useable_scan_spec s reg with ⟨h1, _⟩ | ⟨n', l', res', g1, g2, g3, g4, g5⟩
  · rw [h1 n l hn hl] at hp; cases hp
  · have hnn : n' = n := by
      by_contra hne
      rcases Nat.lt_or_gt_of_ne hne with hlt | hgt
      · rw [hfirst n' l' g2 (Or.inl hlt)] at g3; cases g3
      · rw [g4 n l hl (Or.inl hgt)] at hp; cases hp
    subst hnn
    have hll : l' = l := by
      by_contra hne
      rcases Nat.lt_or_gt_of_ne hne with hlt | hgt
      · rw [hfirst n' l' g2 (Or.inr ⟨rfl, hlt⟩)] at g3; cases g3
      · rw [g4 n' l hl (Or.inr ⟨rfl, hgt⟩)] at hp; cases hp
    subst hll
    rw [g3] at hp
    cases hp
    exact g5

/-- A successful search names a scanned `(node, link)`, the resource found there and
the absence of any earlier one. -/
theorem reg_useable_scan_inv (s : NbState) (reg n' l' : Nat) (res : Resource)
    (h : reg_useable_scan s reg = (some res, n', l')) :
    ∃ n l, n' = n + 1 ∧ l' = l + 1 ∧ n < s.fx_devs ∧ l < 8 ∧ probe_at s reg n l = some res ∧
      ∀ n2 l2, l2 < 8 → (n2 < n ∨ (n2 = n ∧ l2 < l)) → probe_at s reg n2 l2 = none := by
  rcases reg_useable_scan_spec s reg with ⟨_, h2⟩ | ⟨n, l, res', g1, g2, g3, g4, g5⟩
  · rw [h] at h2; cases h2
  · rw [h] at g5
    cases g5
    exact ⟨n, l, rfl, rfl, g1, g2, g3, g4⟩

theorem reg_useable_of_scan_none (s : NbState) (reg gn gl : Nat)
    (h : (reg_useable_scan s reg).1 = none) : reg_useable s reg gn gl = 2 := by
  unfold reg_useable
  rcases hs : reg_useable_scan s reg with ⟨r, n, l⟩
  rw [hs] at h
  simp only at h
  subst h
  rfl

theorem reg_useable_of_scan_some (s : NbState) (reg gn gl n l : Nat) (res : Resource)
    (h : reg_useable_scan s reg = (some res, n + 1, l + 1)) :
    reg_useable s reg gn gl = if gl = l ∧ gn = n ∧ res.flags ≤ 1 then 1 else 0 := by
  unfold reg_useable
  rw [h]
  simp only [Nat.add_sub_cancel]

theorem reg_useable_cases (s : NbState) (reg gn gl : Nat) :
    reg_useable s reg gn gl = 0 ∨ reg_useable s reg gn gl = 1 ∨ reg_useable s reg gn gl = 2 := by
  unfold reg_useable
  rcases reg_useable_scan s reg with ⟨_ | res, n, l⟩
  · right; right; rfl
  · simp only
    split <;> simp

/-- Classification 2 is exactly an empty search. -/
theorem scan_none_of_reg_useable_two (s : NbState) (reg gn gl : Nat)
    (h : reg_useable s reg gn gl = 2) : (reg_useable_scan s reg).1 = none := by
  unfold reg_useable at h
  rcases hs : reg_useable_scan s reg with ⟨_ | res, n, l⟩
  · rfl
  · rw [hs] at h
    simp only at h
    split at h <;> omega

/-! ## Effect of `new_resource` on the lookups -/

theorem new_resource_some (s : NbState) (dev index : Nat) (d : Device)
    (hd : s.f0_dev dev = some d) :
    ∃ s', new_resource s dev index = some (s', index) := by
  simp only [new_resource, hd]
  exact ⟨_, rfl⟩

theorem new_resource_fx_devs (s s' : NbState) (dev index p : Nat)
    (h : new_resource s dev index = some (s', p)) : s'.fx_devs = s.fx_devs ∧ p = index := by
  unfold new_resource at h
  cases hd : s.f0_dev dev with
  | none => rw [hd] at h; cases h
  | some d =>
    rw [hd] at h
    simp only [Option.some.injEq, Prod.mk.injEq] at h
    obtain ⟨h1, h2⟩ := h
    subst h1
    exact ⟨rfl, h2.symm⟩

theorem probe_at_new_resource_same (s s' : NbState) (dev reg l p : Nat)
    (h : new_resource s dev (IOINDEX (0x1000 + reg) l) = some (s', p)) :
    probe_at s' reg dev l = some (fresh_resource (IOINDEX (0x1000 + reg) l)) := by
  unfold new_resource at h
  cases hd : s.f0_dev dev with
  | none => rw [hd] at h; cases h
  | some d =>
    rw [hd] at h
    simp only [Option.some.injEq, Prod.mk.injEq] at h
    obtain ⟨h1, _⟩ := h
    subst h1
    simp only [probe_at, Function.update_same, probe_resource]
    exact find?_new_resource_list_same _ _

theorem probe_at_new_resource_other (s s' : NbState) (dev index p reg n l : Nat)
    (h : new_resource s dev index = some (s', p))
    (hne : n ≠ dev ∨ IOINDEX (0x1000 + reg) l ≠ index) :
    probe_at s' reg n l = probe_at s reg n l := by
  unfold new_resource at h
  cases hd : s.f0_dev dev with
  | none => rw [hd] at h; cases h
  | some d =>
    rw [hd] at h
    simp only [Option.some.injEq, Prod.mk.injEq] at h
    obtain ⟨h1, _⟩ := h
    subst h1
    by_cases hn : n = dev
    · subst hn
      rcases hne with hne | hne
      · exact absurd rfl hne
      · simp only [probe_at, Function.update_same, hd, probe_resource]
        exact find?_new_resource_list_other _ _ _ hne
    · simp only [probe_at, Function.update_noteq hn]

/-- States with the same scanned lookups for `reg` classify `reg` alike. -/
theorem reg_useable_congr (s s' : NbState) (reg gn gl : Nat)
    (hfx : s'.fx_devs = s.fx_devs)
    (hp : ∀ n l, n < s.fx_devs → l < 8 → probe_at s' reg n l = probe_at s reg n l) :
    reg_useable s' reg gn gl = reg_useable s reg gn gl := by
  rcases reg_useable_scan_spec s reg with ⟨h1, h2⟩ | ⟨n, l, res, g1, g2, g3, g4, g5⟩
  · rw [reg_useable_of_scan_none s reg gn gl h2]
    apply reg_useable_of_scan_none
    apply reg_useable_scan_none
    intro n l hn hl
    rw [hfx] at hn
    rw [hp n l hn hl]
    exact h1 n l hn hl
  · rw [reg_useable_of_scan_some s reg gn gl n l res g5]
    apply reg_useable_of_scan_some
    apply reg_useable_scan_some s' reg n l res (by rw [hfx]; exact g1) g2
    · rw [hp n l g1 g2]; exact g3
    · intro n2 l2 hl2 hlt
      have hn2 : n2 < s.fx_devs := by
        rcases hlt with hlt | ⟨heq, _⟩
        · omega
        · omega
      rw [hp n2 l2 hn2 hl2]
      exact g4 n2 l2 hl2 hlt

/-! ## The walk over the register offsets -/

/-- An offset classified 1 stops the walk, and the first such offset is the result. -/
theorem find_pair_walk_owned (s : NbState) (n l : Nat) :
    ∀ (pre : List Nat) (w : Nat) (post : List Nat) (free : Nat),
      (∀ r ∈ pre, reg_useable s r n l ≠ 1) → reg_useable s w n l = 1 →
      find_pair_walk s n l (pre ++ w :: post) free = w := by
  intro pre
  induction pre with
  | nil =>
    intro w post free _ hw
    simp only [List.nil_append, find_pair_walk, hw, if_true]
  | cons r rest ih =>
    intro w post free hpre hw
    have hr : reg_useable s r n l ≠ 1 := hpre r (List.mem_cons_self _ _)
    have hrest : ∀ r' ∈ rest, reg_useable s r' n l ≠ 1 :=
      fun r' hr' => hpre r' (List.mem_cons_of_mem _ hr')
    simp only [List.cons_append, find_pair_walk, if_neg hr]
    split
    · exact ih w post r hrest hw
    · exact ih w post free hrest hw

/-- Without an offset classified 1 the walk ends on the last free offset it saw; on
an ascending list that is the highest free offset.  With no free offset the result
is the initial `free_reg`. -/
theorem find_pair_walk_free (s : NbState) (n l : Nat) :
    ∀ (regs : List Nat) (free : Nat),
      regs.Pairwise (· < ·) → (∀ r ∈ regs, reg_useable s r n l ≠ 1) →
      (find_pair_walk s n l regs free = free ∧ ∀ r ∈ regs, reg_useable s r n l ≠ 2) ∨
      (find_pair_walk s n l regs free ∈ regs ∧
        reg_useable s (find_pair_walk s n l regs free) n l = 2 ∧
        ∀ r ∈ regs, reg_useable s r n l = 2 → r ≤ find_pair_walk s n l regs free) := by
  intro regs
  induction regs with
  | nil =>
    intro free _ _
    left
    exact ⟨rfl, fun r hr => absurd hr (List.not_mem_nil r)⟩
  | cons r rest ih =>
    intro free hpw hno
    have hr : reg_useable s r n l ≠ 1 := hno r (List.mem_cons_self _ _)
    have hrest : ∀ r' ∈ rest, reg_useable s r' n l ≠ 1 :=
      fun r' hr' => hno r' (List.mem_cons_of_mem _ hr')
    rw [List.pairwise_cons] at hpw
    obtain ⟨hlt, hpw'⟩ := hpw
    by_cases h2 : reg_useable s r n l > 1
    · have hr2 : reg_useable s r n l = 2 := by
        rcases reg_useable_cases s r n l with h | h | h <;> omega
      have hstep : find_pair_walk s n l (r :: rest) free = find_pair_walk s n l rest r := by
        simp only [find_pair_walk, if_neg hr, if_pos h2]
      rw [hstep]
      right
      rcases ih r hpw' hrest with ⟨he, hnone⟩ | ⟨hm, hc, hmax⟩
      · rw [he]
        refine ⟨List.mem_cons_self _ _, hr2, fun r' hr' hc' => ?_⟩
        rcases List.mem_cons.mp hr' with h | h
        · omega
        · exact absurd hc' (hnone r' h)
      · refine ⟨List.mem_cons_of_mem _ hm, hc, fun r' hr' hc' => ?_⟩
        rcases List.mem_cons.mp hr' with h | h
        · rw [h]; exact Nat.le_of_lt (hlt _ hm)
        · exact hmax r' h hc'
    · have hstep : find_pair_walk s n l (r :: rest) free = find_pair_walk s n l rest free := by
        simp only [find_pair_walk, if_neg hr, if_neg h2]
      have hr0 : reg_useable s r n l ≠ 2 := by omega
      rw [hstep]
      rcases ih free hpw' hrest with ⟨he, hnone⟩ | ⟨hm, hc, hmax⟩
      · left
        refine ⟨he, fun r' hr' => ?_⟩
        rcases List.mem_cons.mp hr' with h | h
        · rw [h]; exact hr0
        · exact hnone r' h
      · right
        refine ⟨List.mem_cons_of_mem _ hm, hc, fun r' hr' hc' => ?_⟩
        rcases List.mem_cons.mp hr' with h | h
        · rw [h] at hc'; exact absurd hc' hr0
        · exact hmax r' h hc'

/-! ## Runs of finder calls -/

theorem amdfam15_find_iopair_eq : amdfam15_find_iopair = find_pair io_regs := rfl

theorem amdfam15_find_mempair_eq : amdfam15_find_mempair = find_pair mem_regs := rfl

theorem new_resource_f0_isSome (s s' : NbState) (dev index p n : Nat)
    (h : new_resource s dev index = some (s', p)) :
    (s'.f0_dev n).isSome = (s.f0_dev n).isSome := by
  unfold new_resource at h
  cases hd : s.f0_dev dev with
  | none => rw [hd] at h; cases h
  | some d =>
    rw [hd] at h
    simp only [Option.some.injEq, Prod.mk.injEq] at h
    obtain ⟨h1, _⟩ := h
    subst h1
    by_cases hn : n = dev
    · subst hn
      simp only [Function.update_same, hd, Option.isSome_some]
    · simp only [Function.update_noteq hn]

theorem exists_mem_not_mem_of_length_lt (regs used : List Nat) (hnd : regs.Nodup)
    (hlen : used.length < regs.length) : ∃ r ∈ regs, r ∉ used := by
  by_contra hcon
  push_neg at hcon
  have hsub : regs ⊆ used := fun r hr => hcon r hr
  have := (List.Nodup.subperm hnd hsub).length_le
  omega

/-- Calls for pairwise distinct, so far unserved `(node, link)` pairs consume pairwise
distinct free offsets as long as the class has offsets left. -/
theorem find_pair_seq_distinct (regs : List Nat) (hreg : ∀ r ∈ regs, r < 0x1000)
    (hpw : regs.Pairwise (· < ·)) :
    ∀ (calls : List (Nat × Nat)) (s : NbState) (used : List Nat) (prev : List (Nat × Nat)),
      (∀ r ∈ regs, r ∉ used → ∀ n l, n < s.fx_devs → l < 8 → probe_at s r n l = none) →
      (∀ r ∈ used, r ∈ regs) →
      (∀ r ∈ used, ∀ n l, (n, l) ∉ prev → reg_useable s r n l = 0) →
      calls.Nodup → (∀ c ∈ calls, c ∉ prev) →
      (∀ c ∈ calls, c.1 < s.fx_devs ∧ c.2 < 8 ∧ (s.f0_dev c.1).isSome = true) →
      used.length + calls.length ≤ regs.length →
      ∃ (s' : NbState) (idxs : List Nat),
        find_pair_seq (find_pair regs) s calls = some (s', idxs.map some) ∧
        idxs.length = calls.length ∧ (idxs.map resource_reg).Nodup ∧
        ∀ i ∈ idxs, resource_reg i ∈ regs ∧ resource_reg i ∉ used := by
  have hnd : regs.Nodup := hpw.imp (fun h => Nat.ne_of_lt h)
  intro calls
  induction calls with
  | nil =>
    intro s used prev _ _ _ _ _ _ _
    exact ⟨s, [], rfl, rfl, List.nodup_nil, fun i hi => absurd hi (List.not_mem_nil i)⟩
  | cons c rest ih =>
    intro s used prev hfree hsub hused hcn hprev hvalid hlen
    obtain ⟨n0, l0⟩ := c
    obtain ⟨hn0, hl0, hdev⟩ := hvalid (n0, l0) (List.mem_cons_self _ _)
    simp only at hn0 hl0 hdev
    have hc_prev : (n0, l0) ∉ prev := hprev _ (List.mem_cons_self _ _)
    rw [List.nodup_cons] at hcn
    obtain ⟨hc_rest, hrest_nd⟩ := hcn
    simp only [List.length_cons] at hlen
    -- classification of every offset for the caller
    have hclass_free : ∀ r ∈ regs, r ∉ used → reg_useable s r n0 l0 = 2 := fun r hr hru =>
      reg_useable_of_scan_none s r n0 l0 (reg_useable_scan_none s r (hfree r hr hru))
    have hno1 : ∀ r ∈ regs, reg_useable s r n0 l0 ≠ 1 := by
      intro r hr
      by_cases hru : r ∈ used
      · rw [hused r hru n0 l0 hc_prev]; omega
      · rw [hclass_free r hr hru]; omega
    obtain ⟨r0, hr0, hr0u⟩ := exists_mem_not_mem_of_length_lt regs used hnd (by omega)
    -- the offset chosen
    have hw : find_pair_walk s n0 l0 regs 0 ∈ regs ∧
        reg_useable s (find_pair_walk s n0 l0 regs 0) n0 l0 = 2 := by
      rcases find_pair_walk_free s n0 l0 regs 0 hpw hno1 with ⟨_, hnone⟩ | ⟨hm, hc, _⟩
      · exact absurd (hclass_free r0 hr0 hr0u) (hnone r0 hr0)
      · exact ⟨hm, hc⟩
    generalize hwdef : find_pair_walk s n0 l0 regs 0 = w at hw
    obtain ⟨hw_mem, hw_free⟩ := hw
    have hw_used : w ∉ used := by
      intro hwu
      rw [hused w hwu n0 l0 hc_prev] at hw_free
      omega
    have hw_lt : w < 0x1000 := hreg w hw_mem
    -- the call itself
    obtain ⟨d0, hd0⟩ := Option.isSome_iff_exists.mp hdev
    obtain ⟨s1, hs1⟩ := new_resource_some s n0 (IOINDEX (0x1000 + w) l0) d0 hd0
    have hfx : s1.fx_devs = s.fx_devs := (new_resource_fx_devs s s1 _ _ _ hs1).1
    have hcall : find_pair regs s n0 n0 l0 = some (s1, some (IOINDEX (0x1000 + w) l0)) := by
      simp only [find_pair, hwdef, hs1]
    -- the search at the chosen offset in the new state
    have hscan : reg_useable_scan s1 w = (some (fresh_resource (IOINDEX (0x1000 + w) l0)),
        n0 + 1, l0 + 1) := by
      apply reg_useable_scan_some s1 w n0 l0 _ (by rw [hfx]; exact hn0) hl0
        (probe_at_new_resource_same s s1 n0 w l0 _ hs1)
      intro n2 l2 hl2 hlt
      have hne : n2 ≠ n0 ∨ IOINDEX (0x1000 + w) l2 ≠ IOINDEX (0x1000 + w) l0 := by
        rcases hlt with hlt | ⟨_, hlt⟩
        · left; omega
        · right
          intro heq
          have := (IOINDEX_inj (by omega) (by omega) heq).2
          omega
      rw [probe_at_new_resource_other s s1 n0 _ _ w n2 l2 hs1 hne]
      apply hfree w hw_mem hw_used n2 l2 _ hl2
      rcases hlt with hlt | ⟨heq, _⟩ <;> omega
    -- the invariant for the remaining calls
    have hfree1 : ∀ r ∈ regs, r ∉ w :: used → ∀ n l, n < s1.fx_devs → l < 8 →
        probe_at s1 r n l = none := by
      intro r hr hru n l hn hl
      have hrw : r ≠ w := fun h => hru (h ▸ List.mem_cons_self _ _)
      have hru' : r ∉ used := fun h => hru (List.mem_cons_of_mem _ h)
      have hne : n ≠ n0 ∨ IOINDEX (0x1000 + r) l ≠ IOINDEX (0x1000 + w) l0 := by
        right
        intro heq
        exact hrw (IOINDEX_inj (by have := hreg r hr; omega) (by omega) heq).1
      rw [probe_at_new_resource_other s s1 n0 _ _ r n l hs1 hne]
      exact hfree r hr hru' n l (by rw [← hfx]; exact hn) hl
    have hused1 : ∀ r ∈ w :: used, ∀ n l, (n, l) ∉ (n0, l0) :: prev →
        reg_useable s1 r n l = 0 := by
      intro r hr n l hnl
      have hnl0 : (n, l) ≠ (n0, l0) := fun h => hnl (h ▸ List.mem_cons_self _ _)
      have hnlp : (n, l) ∉ prev := fun h => hnl (List.mem_cons_of_mem _ h)
      by_cases hrw : r = w
      · subst hrw
        rw [reg_useable_of_scan_some s1 r n l n0 l0 _ hscan]
        have : ¬ (l = l0 ∧ n = n0 ∧ (fresh_resource (IOINDEX (0x1000 + r) l0)).flags ≤ 1) := by
          rintro ⟨h1, h2, _⟩
          exact hnl0 (by rw [h1, h2])
        rw [if_neg this]
      · have hru : r ∈ used := by
          rcases List.mem_cons.mp hr with h | h
          · exact absurd h hrw
          · exact h
        have hcongr : reg_useable s1 r n l = reg_useable s r n l := by
          apply reg_useable_congr s s1 r n l hfx
          intro n' l' _ _
          apply probe_at_new_resource_other s s1 n0 _ _ r n' l' hs1
          right
          intro heq
          have hr_lt : r < 0xf000 := by
            have := hreg r (hsub r hru)
            omega
          exact hrw (IOINDEX_inj hr_lt (by omega) heq).1
        rw [hcongr]
        exact hused r hru n l hnlp
    have hprev1 : ∀ c ∈ rest, c ∉ (n0, l0) :: prev := by
      intro c hc hmem
      rcases List.mem_cons.mp hmem with h | h
      · exact hc_rest (h ▸ hc)
      · exact hprev c (List.mem_cons_of_mem _ hc) h
    have hvalid1 : ∀ c ∈ rest, c.1 < s1.fx_devs ∧ c.2 < 8 ∧ (s1.f0_dev c.1).isSome = true := by
      intro c hc
      obtain ⟨h1, h2, h3⟩ := hvalid c (List.mem_cons_of_mem _ hc)
      refine ⟨by rw [hfx]; exact h1, h2, ?_⟩
      rw [new_resource_f0_isSome s s1 n0 _ _ c.1 hs1]
      exact h3
    have hund : (w :: used).length + rest.length ≤ regs.length := by
      simp only [List.length_cons]; omega
    have hsub1 : ∀ r ∈ w :: used, r ∈ regs := by
      intro r hr
      rcases List.mem_cons.mp hr with h | h
      · rw [h]; exact hw_mem
      · exact hsub r h
    obtain ⟨s', idxs, hrun, hlen', hnd', hmem'⟩ :=
      ih s1 (w :: used) ((n0, l0) :: prev) hfree1 hsub1 hused1 hrest_nd hprev1 hvalid1 hund
    refine ⟨s', IOINDEX (0x1000 + w) l0 :: idxs, ?_, ?_, ?_, ?_⟩
    · simp only [find_pair_seq, hcall, hrun, List.map_cons]
    · simp only [List.length_cons, hlen']
    · simp only [List.map_cons, List.nodup_cons, resource_reg_IOINDEX w l0 hw_lt]
      refine ⟨?_, hnd'⟩
      intro hin
      obtain ⟨i, hi, hiw⟩ := List.mem_map.mp hin
      exact (hmem' i hi).2 (hiw ▸ List.mem_cons_self _ _)
    · intro i hi
      rcases List.mem_cons.mp hi with h | h
      · rw [h, resource_reg_IOINDEX w l0 hw_lt]
        exact ⟨hw_mem, hw_used⟩
      · exact ⟨(hmem' i h).1, fun hu => (hmem' i h).2 (List.mem_cons_of_mem _ hu)⟩

/-! ## C1: distinct offsets for distinct links -/

/-- C1: starting from a state in which no window resource of the class exists on any
scanned node, a run of `amdfam15_find_iopair` calls (respectively
`amdfam15_find_mempair` calls) for pairwise distinct `(node, link)` pairs with
`node < fx_devs`, `link < 8` and `dev` the function-0 device of the node, no longer than
the class capacity (4 I/O offsets, 8 memory offsets), returns a resource at every call,
and the register offsets of the returned resources are pairwise different and lie in
the class range. -/
theorem find_pair_calls_distinct_offsets (s : NbState) (calls : List (Nat × Nat))
    (hdistinct : calls.Nodup)
    (hvalid : ∀ c ∈ calls, c.1 < s.fx_devs ∧ c.2 < 8 ∧ (s.f0_dev c.1).isSome = true) :
    (calls.length ≤ 4 →
      (∀ r ∈ io_regs, ∀ n, n < s.fx_devs → ∀ l, l < 8 → probe_at s r n l = none) →
      ∃ (s' : NbState) (idxs : List Nat),
        find_pair_seq amdfam15_find_iopair s calls = some (s', idxs.map some) ∧
        idxs.length = calls.length ∧ (idxs.map resource_reg).Nodup ∧
        ∀ i ∈ idxs, resource_reg i ∈ io_regs) ∧
    (calls.length ≤ 8 →
      (∀ r ∈ mem_regs, ∀ n, n < s.fx_devs → ∀ l, l < 8 → probe_at s r n l = none) →
      ∃ (s' : NbState) (idxs : List Nat),
        find_pair_seq amdfam15_find_mempair s calls = some (s', idxs.map some) ∧
        idxs.length = calls.length ∧ (idxs.map resource_reg).Nodup ∧
        ∀ i ∈ idxs, resource_reg i ∈ mem_regs) := by
  constructor
  · intro hlen hempty
    obtain ⟨s', idxs, h1, h2, h3, h4⟩ :=
      find_pair_seq_distinct io_regs (by decide) (by decide) calls s [] []
        (fun r hr _ n l hn hl => hempty r hr n hn l hl)
        (fun r hr => absurd hr (List.not_mem_nil r))
        (fun r hr => absurd hr (List.not_mem_nil r))
        hdistinct (fun c _ => List.not_mem_nil c) hvalid
        (by simpa [io_regs] using hlen)
    exact ⟨s', idxs, by rw [amdfam15_find_iopair_eq]; exact h1, h2, h3, fun i hi => (h4 i hi).1⟩
  · intro hlen hempty
    obtain ⟨s', idxs, h1, h2, h3, h4⟩ :=
      find_pair_seq_distinct mem_regs (by decide) (by decide) calls s [] []
        (fun r hr _ n l hn hl => hempty r hr n hn l hl)
        (fun r hr => absurd hr (List.not_mem_nil r))
        (fun r hr => absurd hr (List.not_mem_nil r))
        hdistinct (fun c _ => List.not_mem_nil c) hvalid
        (by simpa [mem_regs] using hlen)
    exact ⟨s', idxs, by rw [amdfam15_find_mempair_eq]; exact h1, h2, h3, fun i hi => (h4 i hi).1⟩

/-- Witness for C1: four calls on the two-node example system. -/
theorem find_pair_calls_distinct_offsets_witness :
    [((0 : Nat), (0 : Nat)), (0, 1), (1, 0), (1, 3)].Nodup ∧
    (∃ (s' : NbState) (idxs : List Nat),
      find_pair_seq amdfam15_find_iopair two_node_state [(0, 0), (0, 1), (1, 0), (1, 3)]
        = some (s', idxs.map some) ∧
      idxs.length = [((0 : Nat), (0 : Nat)), (0, 1), (1, 0), (1, 3)].length ∧
      (idxs.map resource_reg).Nodup ∧ ∀ i ∈ idxs, resource_reg i ∈ io_regs) ∧
    (∃ (s' : NbState) (idxs : List Nat),
      find_pair_seq amdfam15_find_mempair two_node_state [(0, 0), (0, 1), (1, 0), (1, 3)]
        = some (s', idxs.map some) ∧
      idxs.length = [((0 : Nat), (0 : Nat)), (0, 1), (1, 0), (1, 3)].length ∧
      (idxs.map resource_reg).Nodup ∧ ∀ i ∈ idxs, resource_reg i ∈ mem_regs) :=
  ⟨by decide,
   (find_pair_calls_distinct_offsets two_node_state [(0, 0), (0, 1), (1, 0), (1, 3)]
      (by decide) (by decide)).1 (by decide) (by decide),
   (find_pair_calls_distinct_offsets two_node_state [(0, 0), (0, 1), (1, 0), (1, 3)]
      (by decide) (by decide)).2 (by decide) (by decide)⟩

/-! ## C2: which free offset is taken -/

theorem find_pair_free_choice (regs : List Nat) (hreg : ∀ r ∈ regs, r < 0x1000)
    (hpw : regs.Pairwise (· < ·)) (s : NbState) (dev nodeid link : Nat)
    (hdev : (s.f0_dev dev).isSome = true)
    (hno : ∀ r ∈ regs, reg_useable s r nodeid link ≠ 1)
    (hfree : ∃ r ∈ regs, reg_useable s r nodeid link = 2) :
    ∃ (s' : NbState) (idx : Nat), find_pair regs s dev nodeid link = some (s', some idx) ∧
      resource_reg idx ∈ regs ∧ reg_useable s (resource_reg idx) nodeid link = 2 ∧
      ∀ r ∈ regs, reg_useable s r nodeid link = 2 → r ≤ resource_reg idx := by
  obtain ⟨r0, hr0, hr0f⟩ := hfree
  have hw : find_pair_walk s nodeid link regs 0 ∈ regs ∧
      reg_useable s (find_pair_walk s nodeid link regs 0) nodeid link = 2 ∧
      ∀ r ∈ regs, reg_useable s r nodeid link = 2 → r ≤ find_pair_walk s nodeid link regs 0 := by
    rcases find_pair_walk_free s nodeid link regs 0 hpw hno with ⟨_, hnone⟩ | h
    · exact absurd hr0f (hnone r0 hr0)
    · exact h
  generalize hwdef : find_pair_walk s nodeid link regs 0 = w at hw
  obtain ⟨d, hd⟩ := Option.isSome_iff_exists.mp hdev
  obtain ⟨s1, hs1⟩ := new_resource_some s dev (IOINDEX (0x1000 + w) link) d hd
  refine ⟨s1, IOINDEX (0x1000 + w) link, ?_, ?_⟩
  · simp only [find_pair, hwdef, hs1]
  · rw [resource_reg_IOINDEX w link (hreg w hw.1)]
    exact hw

/-- C2, as the claim states it, fails: on the two-node system without window resources
no offset is owned by the caller `(0, 0)`, the lowest free offsets are 0xC0 and 0x80,
and the finders return the resources at 0xD8 and 0xB8. -/
theorem find_pair_lowest_free_counterexample :
    ((∀ r ∈ io_regs, reg_useable two_node_state r 0 0 ≠ 1) ∧
      reg_useable two_node_state 0xc0 0 0 = 2 ∧
      (amdfam15_find_iopair two_node_state 0 0 0).map (fun p => p.2.map resource_reg)
        = some (some 0xd8)) ∧
    ((∀ r ∈ mem_regs, reg_useable two_node_state r 0 0 ≠ 1) ∧
      reg_useable two_node_state 0x80 0 0 = 2 ∧
      (amdfam15_find_mempair two_node_state 0 0 0).map (fun p => p.2.map resource_reg)
        = some (some 0xb8)) := by
  decide

/-- C2 (amended): when no offset of the class range is owned by the calling
`(node, link)` and at least one offset is free, `amdfam15_find_iopair` and
`amdfam15_find_mempair` return the resource at the last free offset met in ascending
order, that is the highest free offset of the range. -/
theorem find_pair_highest_free (s : NbState) (dev nodeid link : Nat)
    (hdev : (s.f0_dev dev).isSome = true) :
    ((∀ r ∈ io_regs, reg_useable s r nodeid link ≠ 1) →
      (∃ r ∈ io_regs, reg_useable s r nodeid link = 2) →
      ∃ (s' : NbState) (idx : Nat),
        amdfam15_find_iopair s dev nodeid link = some (s', some idx) ∧
        resource_reg idx ∈ io_regs ∧ reg_useable s (resource_reg idx) nodeid link = 2 ∧
        ∀ r ∈ io_regs, reg_useable s r nodeid link = 2 → r ≤ resource_reg idx) ∧
    ((∀ r ∈ mem_regs, reg_useable s r nodeid link ≠ 1) →
      (∃ r ∈ mem_regs, reg_useable s r nodeid link = 2) →
      ∃ (s' : NbState) (idx : Nat),
        amdfam15_find_mempair s dev nodeid link = some (s', some idx) ∧
        resource_reg idx ∈ mem_regs ∧ reg_useable s (resource_reg idx) nodeid link = 2 ∧
        ∀ r ∈ mem_regs, reg_useable s r nodeid link = 2 → r ≤ resource_reg idx) := by
  constructor
  · intro hno hfree
    rw [amdfam15_find_iopair_eq]
    exact find_pair_free_choice io_regs (by decide) (by decide) s dev nodeid link hdev hno hfree
  · intro hno hfree
    rw [amdfam15_find_mempair_eq]
    exact find_pair_free_choice mem_regs (by decide) (by decide) s dev nodeid link hdev hno hfree

/-- Witness for C2 (amended): the caller `(0, 0)` on the two-node example system. -/
theorem find_pair_highest_free_witness :
    (∃ (s' : NbState) (idx : Nat),
        amdfam15_find_iopair two_node_state 0 0 0 = some (s', some idx) ∧
        resource_reg idx ∈ io_regs ∧ reg_useable two_node_state (resource_reg idx) 0 0 = 2 ∧
        ∀ r ∈ io_regs, reg_useable two_node_state r 0 0 = 2 → r ≤ resource_reg idx) ∧
    (∃ (s' : NbState) (idx : Nat),
        amdfam15_find_mempair two_node_state 0 0 0 = some (s', some idx) ∧
        resource_reg idx ∈ mem_regs ∧ reg_useable two_node_state (resource_reg idx) 0 0 = 2 ∧
        ∀ r ∈ mem_regs, reg_useable two_node_state r 0 0 = 2 → r ≤ resource_reg idx) :=
  ⟨(find_pair_highest_free two_node_state 0 0 0 (by decide)).1 (by decide) (by decide),
   (find_pair_highest_free two_node_state 0 0 0 (by decide)).2 (by decide) (by decide)⟩

/-! ## C3: a committed pair is found again -/

theorem reg_useable_eq_one_inv (s : NbState) (r n l : Nat) (h : reg_useable s r n l = 1) :
    ∃ res, reg_useable_scan s r = (some res, n + 1, l + 1) ∧ res.flags ≤ 1 := by
  rcases reg_useable_scan_spec s r with ⟨_, h2⟩ | ⟨n', l', res, _, _, _, _, g5⟩
  · rw [reg_useable_of_scan_none s r n l h2] at h
    omega
  · rw [reg_useable_of_scan_some s r n l n' l' res g5] at h
    by_cases hc : l = l' ∧ n = n' ∧ res.flags ≤ 1
    · obtain ⟨h1, h2, h3⟩ := hc
      subst h1 h2
      exact ⟨res, g5, h3⟩
    · rw [if_neg hc] at h
      omega

theorem exists_first_owned (s : NbState) (n l : Nat) :
    ∀ (regs : List Nat), (∃ r ∈ regs, reg_useable s r n l = 1) →
      ∃ pre w post, regs = pre ++ w :: post ∧ (∀ r ∈ pre, reg_useable s r n l ≠ 1) ∧
        reg_useable s w n l = 1 := by
  intro regs
  induction regs with
  | nil =>
    rintro ⟨r, hr, _⟩
    exact absurd hr (List.not_mem_nil r)
  | cons a rest ih =>
    rintro ⟨r, hr, hc⟩
    by_cases ha : reg_useable s a n l = 1
    · exact ⟨[], a, rest, rfl, fun r hr => absurd hr (List.not_mem_nil r), ha⟩
    · have hrest : ∃ r ∈ rest, reg_useable s r n l = 1 := by
        rcases List.mem_cons.mp hr with h | h
        · rw [h] at hc; exact absurd hc ha
        · exact ⟨r, h, hc⟩
      obtain ⟨pre, w, post, h1, h2, h3⟩ := ih hrest
      refine ⟨a :: pre, w, post, by rw [h1]; rfl, fun r hr => ?_, h3⟩
      rcases List.mem_cons.mp hr with h | h
      · rw [h]; exact ha
      · exact h2 r h

/-- C4 (behaviour of the code at the failing input): in the state recovered from
`exhausted_tree` every I/O offset and every memory offset is held by a link of node 0,
so for the caller node 1, link 0 no offset is free and none is its own.  The finders
nevertheless return a resource, the one keyed to register offset 0, and
`amdfam15_link_read_bases` sets a window up on it. -/
theorem find_pair_exhausted_returns_resource (c : DevConsts) :
    (∀ r ∈ io_regs, reg_useable exhausted_state r 1 0 = 0) ∧
    (∀ r ∈ mem_regs, reg_useable exhausted_state r 1 0 = 0) ∧
    (amdfam15_find_iopair exhausted_state 1 1 0).map (fun p => p.2)
      = some (some (IOINDEX 0x1000 0)) ∧
    (amdfam15_find_mempair exhausted_state 1 1 0).map (fun p => p.2)
      = some (some (IOINDEX 0x1000 0)) ∧
    resource_reg (IOINDEX 0x1000 0) = 0 ∧
    (amdfam15_link_read_bases c exhausted_state 1 1 0).bind
      (fun s => (probe_at s 0 1 0).map (fun r => (r.base, r.size, r.limit)))
      = some (0, 0, 0xffffffffff) :=
  ⟨by decide, by decide, by decide, by decide, by decide, rfl⟩

/-! ## C5: the two-node example of the partitioner -/

/-- C5, as the claim states it, fails: for the extents [0, 2 GiB) and [2 GiB, 6 GiB)
with a ceiling of 3 GiB and `bsp_topmem2` of 6 GiB the sizes passed to `ram_resource`
do not sum to 6 GiB, and no region contains the address 640 KiB or the address 3 GiB,
so the regions do not tile [0, 6 GiB). -/
theorem two_extent_regions_counterexample :
    ((set_resources_nodes two_extent_cfg 3145728 (6 * 2 ^ 30) 2 0 0x10).map
        (fun r => r.sizek)).sum ≠ 6 * 1024 * 1024 ∧
    (∀ r ∈ set_resources_nodes two_extent_cfg 3145728 (6 * 2 ^ 30) 2 0 0x10,
      ¬ (r.basek ≤ 640 ∧ 640 < r.basek + r.sizek)) ∧
    (∀ r ∈ set_resources_nodes two_extent_cfg 3145728 (6 * 2 ^ 30) 2 0 0x10,
      ¬ (r.basek ≤ 3145728 ∧ 3145728 < r.basek + r.sizek)) := by
  decide

/-- C5 (amended): for the two-node system with the extents [0, 2 GiB) and
[2 GiB, 6 GiB), a ceiling of 3 GiB and `bsp_topmem2` of 6 GiB, the regions passed to
`ram_resource` are [0, 640 KiB), [768 KiB, 2 GiB), [2 GiB, 3 GiB) and [4 GiB, 6 GiB):
they are in ascending order and do not overlap, node 1 is split at 3 GiB, they cover
[0, 6 GiB) except the legacy window [640 KiB, 768 KiB) and the hole [3 GiB, 4 GiB), and
their sizes sum to 6 GiB - 1 GiB - 128 KiB.  The whole of `domain_set_resources`
yields these calls for `pci_tolm = 0xC0000000`. -/
theorem two_extent_regions :
    set_resources_nodes two_extent_cfg 3145728 (6 * 2 ^ 30) 2 0 0x10
      = [⟨0x10, 0, 640⟩, ⟨0x20, 768, 2 * 1024 * 1024 - 768⟩,
         ⟨0x31, 2 * 1024 * 1024, 1024 * 1024⟩, ⟨0x41, 4 * 1024 * 1024, 2 * 1024 * 1024⟩] ∧
    (set_resources_nodes two_extent_cfg 3145728 (6 * 2 ^ 30) 2 0 0x10).Pairwise
      (fun a b => bases_ordered a b ∧ no_overlap a b) ∧
    ((set_resources_nodes two_extent_cfg 3145728 (6 * 2 ^ 30) 2 0 0x10).map
        (fun r => r.sizek)).sum = 6 * 1024 * 1024 - 1024 * 1024 - 128 ∧
    compute_mmio_basek 0xC0000000 none = 3145728 ∧
    domain_set_resources 0 0xC0000000 (6 * 2 ^ 30) two_extent_state
      = some (set_resources_nodes two_extent_cfg 3145728 (6 * 2 ^ 30) 2 0 0x10) := by
  decide

/-! ## Bounds on the decoded extents -/

theorem node_basek_lt (d : DramBaseMask) : node_basek d < 2 ^ 38 := by
  have h : d.base &&& 0x1fffff00 ≤ 0x1fffff00 := Nat.and_le_right
  simp only [node_basek, Nat.shiftLeft_eq]
  omega

theorem node_limitk_lt (d : DramBaseMask) : node_limitk d < 2 ^ 38 := by
  have h : (((d.mask &&& 0xfffffffe) + 0x000FF) % 2 ^ 32) &&& 0x1fffff00 ≤ 0x1fffff00 :=
    Nat.and_le_right
  simp only [node_limitk, Nat.shiftLeft_eq]
  omega

theorem sub64_eq (a b : Nat) (hb : b ≤ a) (ha : a < 2 ^ 64) : sub64 a b = a - b := by
  unfold sub64
  omega

/-! ## C6: the legacy window carve-out -/

theorem set_resources_region_low (mmio_basek topmem2 i idx limitk : Nat)
    (hlow : 768 < limitk) (hceil : limitk ≤ mmio_basek) (hlt : limitk < 2 ^ 38) :
    set_resources_region mmio_basek topmem2 i idx 0 limitk
      = ([⟨idx ||| i, 0, 640⟩, ⟨(idx + 0x10) ||| i, 768, limitk - 768⟩], idx + 0x10 + 0x10) := by
  have h1 : sub64 limitk 0 = limitk := by rw [sub64_eq limitk 0 (Nat.zero_le _) (by omega)]; rfl
  have h2 : sub64 limitk 768 = limitk - 768 := sub64_eq limitk 768 (by omega) (by omega)
  have hv : (0 : Nat) < 8 * 64 + 8 * 16 ∧ limitk > 8 * 64 + 16 * 16 := by omega
  have hs : ¬ (8 * 64 + 16 * 16 < 4 * 1024 * 1024 ∧ limitk > mmio_basek) := by omega
  simp only [set_resources_region, carve_vga_hole, h1, hv, and_self, if_true,
    split_pci_memory, hs, if_false, List.nil_append, List.singleton_append]
  norm_num [h2]

/-- C6: for an enabled node whose extent is [0, L) with L above 768 KiB and at or below
the low-memory ceiling, the iteration of the node loop of `domain_set_resources` makes
exactly two `ram_resource` calls: [0, 640 KiB), ending at the start of the legacy
window, and [768 KiB, L), starting at its end; the two sizes sum to L - 128 KiB. -/
theorem legacy_window_carve_out (mmio_basek topmem2 i idx : Nat) (d : DramBaseMask)
    (hen : d.mask &&& 1 ≠ 0) (hbase : node_basek d = 0) (hlow : 768 < node_limitk d)
    (hceil : node_limitk d ≤ mmio_basek) :
    (set_resources_node mmio_basek topmem2 i idx d).1
      = [⟨idx ||| i, 0, 640⟩, ⟨(idx + 0x10) ||| i, 768, node_limitk d - 768⟩] ∧
    0 + 640 = 640 ∧ 768 + (node_limitk d - 768) = node_limitk d ∧
    640 + (node_limitk d - 768) = node_limitk d - 128 := by
  refine ⟨?_, rfl, by omega, by omega⟩
  simp only [set_resources_node, if_neg hen, hbase]
  rw [set_resources_region_low mmio_basek topmem2 i idx (node_limitk d) hlow hceil
    (node_limitk_lt d)]

/-- Witness for C6: the extent [0, 1 GiB) under a ceiling of 3 GiB. -/
theorem legacy_window_carve_out_witness :
    (set_resources_node 3145728 (2 ^ 30) 0 0x10 (get_dram_base_mask one_gib_cfg 0)).1
      = [⟨0x10 ||| 0, 0, 640⟩,
         ⟨(0x10 + 0x10) ||| 0, 768, node_limitk (get_dram_base_mask one_gib_cfg 0) - 768⟩] ∧
    0 + 640 = 640 ∧
    768 + (node_limitk (get_dram_base_mask one_gib_cfg 0) - 768)
      = node_limitk (get_dram_base_mask one_gib_cfg 0) ∧
    640 + (node_limitk (get_dram_base_mask one_gib_cfg 0) - 768)
      = node_limitk (get_dram_base_mask one_gib_cfg 0) - 128 :=
  legacy_window_carve_out 3145728 (2 ^ 30) 0 0x10 (get_dram_base_mask one_gib_cfg 0)
    (by decide) (by decide) (by decide) (by decide)

/-! ## C7: the two-node example of the identifier assignment -/

theorem cpu_bus_scan_eq (env : CpuScanEnv) (dev_mc : Device)
    (h : env.pcidev_on_root 0 0 = some dev_mc) :
    cpu_bus_scan env = scan_nodes env (sysconf_node_nums dev_mc)
      (core_max_of env.cpuid_ecx_80000008) ((env.cpuid_eax_1 >>> 20) &&& 0xFF)
      (sysconf_node_nums dev_mc) 0 0 := by
  simp only [cpu_bus_scan, h]

theorem cpu_bus_scan_two_node (m : Nat) :
    cpu_bus_scan (two_node_env m)
      = some (scan_cores 2 4 20 m 3 0 true ++ (scan_cores 2 4 20 m 3 1 true ++ [])) := by
  rw [cpu_bus_scan_eq (two_node_env m) ⟨true, [], fun reg => if reg = 0x60 then 0x10 else 0⟩ rfl]
  have h1 : sysconf_node_nums ⟨true, [], fun reg => if reg = 0x60 then 0x10 else 0⟩ = 2 := by
    decide
  have h2 : core_max_of (two_node_env m).cpuid_ecx_80000008 = 4 := by
    show core_max_of 0x2000 = 4
    decide
  have h3 : ((two_node_env m).cpuid_eax_1 >>> 20) &&& 0xFF = 6 := by
    show ((0x00600000 : Nat) >>> 20) &&& 0xFF = 6
    decide
  rw [h1, h2, h3]
  rfl

theorem lapicid_start_two_node : lapicid_start 2 4 20 = 20 := by decide

theorem apic_id_two_node (modules i j : Nat) (hm : 1 ≤ modules) (hi : i < 2) (hj : j ≤ 3) :
    apic_id 2 4 20 modules 3 i j = if modules = 1 then 20 * (i + 1) + j else 20 + 4 * i + j := by
  unfold apic_id
  rw [lapicid_start_two_node]
  by_cases h1 : modules = 1
  · subst h1
    simp only [Nat.div_one, Nat.mod_one, ne_eq, not_true_eq_false, if_false, if_true]
    omega
  · have h2 : 2 ≤ modules := by omega
    rw [if_neg h1]
    interval_cases i
    · simp only [Nat.zero_div, Nat.zero_mod, ne_eq, not_true_eq_false, if_false]
      omega
    · have hd : 1 / modules = 0 := Nat.div_eq_of_lt (by omega)
      have hmod : 1 % modules = 1 := Nat.mod_eq_of_lt (by omega)
      simp only [hd, hmod, ne_eq, one_ne_zero, not_false_eq_true, if_true]
      omega

/-- C7: for 2 nodes, `core_max = 4`, `siblings = 3` on each node and
`ioapic_count = 20`, and for every module count `modules >= 1`, `cpu_bus_scan` makes
eight `add_cpu_device` calls, their APIC ids are pairwise distinct and none of them
lies in [0, 20). -/
theorem two_node_apic_ids (modules : Nat) (hm : 1 ≤ modules) :
    ∃ calls : List CpuCall, cpu_bus_scan (two_node_env modules) = some calls ∧
      calls.length = 8 ∧ calls.map (fun c => (c.node, c.core))
        = [(0, 0), (0, 1), (0, 2), (0, 3), (1, 0), (1, 1), (1, 2), (1, 3)] ∧
      (calls.map (fun c => c.apic_id)).Nodup ∧ ∀ c ∈ calls, 20 ≤ c.apic_id := by
  refine ⟨_, cpu_bus_scan_two_node modules, rfl, rfl, ?_, ?_⟩
  · have hids : (scan_cores 2 4 20 modules 3 0 true ++
        (scan_cores 2 4 20 modules 3 1 true ++ [])).map (fun (c : CpuCall) => c.apic_id)
        = [apic_id 2 4 20 modules 3 0 0, apic_id 2 4 20 modules 3 0 1,
           apic_id 2 4 20 modules 3 0 2, apic_id 2 4 20 modules 3 0 3,
           apic_id 2 4 20 modules 3 1 0, apic_id 2 4 20 modules 3 1 1,
           apic_id 2 4 20 modules 3 1 2, apic_id 2 4 20 modules 3 1 3] := rfl
    rw [hids]
    simp only [apic_id_two_node modules _ _ hm (show 0 < 2 by omega) (show 0 ≤ 3 by omega),
      apic_id_two_node modules _ _ hm (show 0 < 2 by omega) (show 1 ≤ 3 by omega),
      apic_id_two_node modules _ _ hm (show 0 < 2 by omega) (show 2 ≤ 3 by omega),
      apic_id_two_node modules _ _ hm (show 0 < 2 by omega) (show 3 ≤ 3 by omega),
      apic_id_two_node modules _ _ hm (show 1 < 2 by omega) (show 0 ≤ 3 by omega),
      apic_id_two_node modules _ _ hm (show 1 < 2 by omega) (show 1 ≤ 3 by omega),
      apic_id_two_node modules _ _ hm (show 1 < 2 by omega) (show 2 ≤ 3 by omega),
      apic_id_two_node modules _ _ hm (show 1 < 2 by omega) (show 3 ≤ 3 by omega)]
    by_cases h1 : modules = 1
    · simp only [if_pos h1]; decide
    · simp only [if_neg h1]; decide
  · intro c hc
    simp only [scan_cores, List.append_nil, List.mem_append, List.mem_map, List.mem_range] at hc
    rcases hc with ⟨j, hj, rfl⟩ | ⟨j, hj, rfl⟩
    · show 20 ≤ apic_id 2 4 20 modules 3 0 j
      rw [apic_id_two_node modules 0 j hm (by omega) (by omega)]
      split <;> omega
    · show 20 ≤ apic_id 2 4 20 modules 3 1 j
      rw [apic_id_two_node modules 1 j hm (by omega) (by omega)]
      split <;> omega

/-- Witness for C7: one module and two modules. -/
theorem two_node_apic_ids_witness :
    (∃ calls : List CpuCall, cpu_bus_scan (two_node_env 1) = some calls ∧
      calls.length = 8 ∧ calls.map (fun c => (c.node, c.core))
        = [(0, 0), (0, 1), (0, 2), (0, 3), (1, 0), (1, 1), (1, 2), (1, 3)] ∧
      (calls.map (fun c => c.apic_id)).Nodup ∧ ∀ c ∈ calls, 20 ≤ c.apic_id) ∧
    (∃ calls : List CpuCall, cpu_bus_scan (two_node_env 2) = some calls ∧
      calls.length = 8 ∧ calls.map (fun c => (c.node, c.core))
        = [(0, 0), (0, 1), (0, 2), (0, 3), (1, 0), (1, 1), (1, 2), (1, 3)] ∧
      (calls.map (fun c => c.apic_id)).Nodup ∧ ∀ c ∈ calls, 20 ≤ c.apic_id) :=
  ⟨two_node_apic_ids 1 (by decide), two_node_apic_ids 2 (by decide)⟩

/-! ## C10: the reserved identifier range -/

theorem lapicid_start_ge (node_nums core_max K : Nat) (hcm : 1 ≤ core_max) (hK : 1 ≤ K)
    (hthr : 16 ≤ node_nums * core_max + K) (hov1 : node_nums * core_max + K < 2 ^ 32)
    (hov2 : ((K - 1) / core_max + 1) * core_max < 2 ^ 32) :
    lapicid_start node_nums core_max K = ((K - 1) / core_max + 1) * core_max ∧
      K ≤ lapicid_start node_nums core_max K := by
  have h1 : K - 1 < core_max * ((K - 1) / core_max + 1) := Nat.lt_mul_div_succ (K - 1) hcm
  have h2 : (K - 1) / core_max + 1 ≤ ((K - 1) / core_max + 1) * core_max :=
    Nat.le_mul_of_pos_right _ hcm
  rw [Nat.mul_comm] at h1
  have hthr' : ((node_nums * core_max) % 2 ^ 32 + K) % 2 ^ 32 ≥ 0x10 := by
    rw [Nat.mod_eq_of_lt (by omega : node_nums * core_max < 2 ^ 32),
      Nat.mod_eq_of_lt hov1]
    exact hthr
  have hq : ((K - 1) / core_max) % 2 ^ 32 = (K - 1) / core_max :=
    Nat.mod_eq_of_lt (by omega)
  have hval : lapicid_start node_nums core_max K = ((K - 1) / core_max + 1) * core_max := by
    unfold lapicid_start
    rw [if_pos hthr', hq, Nat.mod_eq_of_lt hov2]
  refine ⟨hval, ?_⟩
  rw [hval]
  omega

/-- Every call made by the node loop of `cpu_bus_scan` is a call of the core loop of
some node. -/
theorem mem_scan_nodes (env : CpuScanEnv) (node_nums core_max family : Nat) :
    ∀ k i siblings calls, scan_nodes env node_nums core_max family k i siblings = some calls →
      ∀ c ∈ calls, ∃ i' sib en, i ≤ i' ∧ i' < i + k ∧
        c ∈ scan_cores node_nums core_max env.ioapic_count env.modules sib i' en := by
  intro k
  induction k with
  | zero =>
    intro i siblings calls h c hc
    simp only [scan_nodes, Option.some.injEq] at h
    subst h
    exact absurd hc (List.not_mem_nil c)
  | succ k ih =>
    intro i siblings calls h c hc
    simp only [scan_nodes] at h
    cases hs : node_siblings env family i siblings with
    | none => rw [hs] at h; cases h
    | some p =>
      obtain ⟨sib, dev⟩ := p
      rw [hs] at h
      simp only at h
      cases hr : scan_nodes env node_nums core_max family k (i + 1) sib with
      | none => rw [hr] at h; cases h
      | some rest =>
        rw [hr] at h
        simp only [Option.some.injEq] at h
        subst h
        rcases List.mem_append.mp hc with hc | hc
        · exact ⟨i, sib, _, le_refl _, by omega, hc⟩
        · obtain ⟨i', sib', en, h1, h2, h3⟩ := ih (i + 1) sib rest hr c hc
          exact ⟨i', sib', en, by omega, by omega, h3⟩

/-- C10: for every node count, `core_max >= 1`, `modules >= 1`, sibling count and
`ioapic_count` K >= 1 with `node_nums * core_max + K >= 16`, and without 32-bit overflow
in the computation, every APIC id that the core loop of `cpu_bus_scan` passes to
`add_cpu_device` for a node `i` is at least K: no identifier lies in 0..K-1. -/
theorem apic_id_not_reserved (node_nums core_max K modules siblings i : Nat)
    (enable_node : Bool) (hcm : 1 ≤ core_max) (_hm : 1 ≤ modules) (hK : 1 ≤ K)
    (hthr : 16 ≤ node_nums * core_max + K) (hov1 : node_nums * core_max + K < 2 ^ 32)
    (hov2 : ((K - 1) / core_max + 1) * core_max * (i / modules + 1) + (2 * siblings + 1)
      < 2 ^ 32) :
    (∀ c ∈ scan_cores node_nums core_max K modules siblings i enable_node, K ≤ c.apic_id) ∧
    ∀ j, j ≤ siblings → K ≤ apic_id node_nums core_max K modules siblings i j := by
  have hpure : ∀ j, j ≤ siblings → K ≤ apic_id node_nums core_max K modules siblings i j := by
    intro j hj
    have ht : ((K - 1) / core_max + 1) * core_max
        ≤ ((K - 1) / core_max + 1) * core_max * (i / modules + 1) :=
      Nat.le_mul_of_pos_right _ (Nat.succ_pos _)
    obtain ⟨hval, hge⟩ := lapicid_start_ge node_nums core_max K hcm hK hthr hov1 (by omega)
    have ht2 : i / modules + 1 ≤ ((K - 1) / core_max + 1) * core_max * (i / modules + 1) :=
      Nat.le_mul_of_pos_left _ (by rw [← hval]; omega)
    unfold apic_id
    rw [hval] at hge ⊢
    rw [Nat.mod_eq_of_lt (by omega : i / modules + 1 < 2 ^ 32)]
    generalize ((K - 1) / core_max + 1) * core_max * (i / modules + 1) = P at *
    generalize ((K - 1) / core_max + 1) * core_max = L at *
    split <;> omega
  refine ⟨?_, hpure⟩
  intro c hc
  simp only [scan_cores, List.mem_map, List.mem_range] at hc
  obtain ⟨j, hj, rfl⟩ := hc
  exact hpure j (by omega)

/-- Witness for C10: 2 nodes, `core_max = 4`, 20 I/O APICs, 2 modules, 3 siblings,
node 1. -/
theorem apic_id_not_reserved_witness :
    (∀ c ∈ scan_cores 2 4 20 2 3 1 true, 20 ≤ c.apic_id) ∧
    ∀ j, j ≤ 3 → 20 ≤ apic_id 2 4 20 2 3 1 j :=
  apic_id_not_reserved 2 4 20 2 3 1 true (by decide) (by decide) (by decide) (by decide)
    (by decide) (by decide)

/-! ## C8: the inferred memory hole -/

/-- Bit 0 of the decoded DRAM base is always clear. -/
theorem dram_base_bit0 (cfg : Nat → Nat) (nodeid : Nat) :
    (get_dram_base_mask cfg nodeid).base &&& 1 = 0 := by
  have hc : Nat.testBit 0xfff80000 11 = false := by decide
  have h : ((get_dram_base_mask cfg nodeid).base).testBit 0 = false := by
    simp only [get_dram_base_mask, Nat.testBit_lor, Nat.testBit_shiftRight, Nat.testBit_and,
      Nat.testBit_shiftLeft]
    simp [hc]
  rw [Nat.and_one_is_mod]
  rw [Nat.testBit_zero] at h
  simpa using h

/-- The second loop of `get_hw_mem_hole_info` skips every node, because it tests bit 0
of `d.base` where the first loop and `domain_set_resources` test bit 0 of `d.mask`. -/
theorem find_inferred_hole_none (cfg : Nat → Nat) :
    ∀ k i limitk_pri, find_inferred_hole cfg k i limitk_pri = none := by
  intro k
  induction k with
  | zero => intro i l; rfl
  | succ k ih =>
    intro i l
    simp only [find_inferred_hole, dram_base_bit0, if_true, ih]

/-- C8 (behaviour of the code at the failing input): on the two-node system with the
extents [0, 1 GiB) and [2 GiB, 3 GiB), both nodes enabled and no hole bit set, node 1's
base is below 4 GiB and differs from node 0's limit, yet `get_hw_mem_hole_info`
reports no hole: `node_id` stays -1 and `hole_startk` stays at the build option, not
at node 0's limit of 1048576 KiB. -/
theorem inferred_hole_not_reported (HW_MEM_HOLE_SIZEK : Nat) :
    (get_dram_base_mask gap_cfg 0).mask &&& 1 = 1 ∧
    (get_dram_base_mask gap_cfg 1).mask &&& 1 = 1 ∧
    gap_cfg 0xf0 &&& 1 = 0 ∧
    node_basek (get_dram_base_mask gap_cfg 0) = 0 ∧
    node_limitk (get_dram_base_mask gap_cfg 0) = 1048576 ∧
    node_basek (get_dram_base_mask gap_cfg 1) = 2097152 ∧
    get_hw_mem_hole_info HW_MEM_HOLE_SIZEK gap_state
      = some { hole_startk := HW_MEM_HOLE_SIZEK, node_id := -1 } :=
  ⟨by decide, by decide, by decide, by decide, by decide, by decide, rfl⟩

/-! ## C9: order and disjointness of the emitted regions -/

theorem set_resources_region_spec (m T i idx b l : Nat) (hm1 : 768 ≤ m) (hm2 : m ≤ 4194304)
    (hbl : b ≤ l) (hl : l < 2 ^ 38) :
    (∀ r ∈ (set_resources_region m T i idx b l).1, b ≤ r.basek ∧ r.basek ≤ l) ∧
    (¬ (b < 4194304 ∧ 4194304 < l) →
      ∀ r ∈ (set_resources_region m T i idx b l).1, r.sizek ≠ 0 → r.basek + r.sizek ≤ l) ∧
    (set_resources_region m T i idx b l).1.Pairwise
      (fun a c => bases_ordered a c ∧ no_overlap a c) := by
  simp only [set_resources_region, carve_vga_hole, split_pci_memory, split_below_mmio, sub64,
    bases_ordered, no_overlap]
  split_ifs <;> dsimp only at * <;>
    simp only [List.nil_append, List.singleton_append, List.cons_append, List.mem_cons,
      List.mem_singleton, List.not_mem_nil, or_false, forall_eq_or_imp, forall_eq,
      List.pairwise_cons, List.Pairwise.nil, and_true, ne_eq, not_and, not_lt, imp_false,
      false_implies, implies_true, true_and, and_imp] <;>
    omega

theorem set_resources_nodes_disabled (cfg : Nat → Nat) (m T : Nat) :
    ∀ k i idx, (∀ j, i ≤ j → j < i + k → (get_dram_base_mask cfg j).mask &&& 1 = 0) →
      set_resources_nodes cfg m T k i idx = [] := by
  intro k
  induction k with
  | zero => intro i idx _; rfl
  | succ k ih =>
    intro i idx h
    have h0 := h i (le_refl _) (by omega)
    simp only [set_resources_nodes, set_resources_node, h0, if_true, List.nil_append]
    exact ih (i + 1) idx (fun j hj1 hj2 => h j (by omega) (by omega))

/-- The node loop keeps the bases in order, and keeps the regions disjoint as long as
(`c`) a node that crosses the 4 GiB line is followed by no enabled node. -/
theorem set_resources_nodes_pairwise (cfg : Nat → Nat) (m T : Nat) (c : Prop)
    (hm1 : 768 ≤ m) (hm2 : m ≤ 4194304) :
    ∀ k i idx lo,
      (∀ j, i ≤ j → j < i + k → (get_dram_base_mask cfg j).mask &&& 1 ≠ 0 →
        node_basek (get_dram_base_mask cfg j) ≤ node_limitk (get_dram_base_mask cfg j)) →
      (∀ j j', i ≤ j → j < j' → j' < i + k → (get_dram_base_mask cfg j).mask &&& 1 ≠ 0 →
        (get_dram_base_mask cfg j').mask &&& 1 ≠ 0 →
        node_limitk (get_dram_base_mask cfg j) ≤ node_basek (get_dram_base_mask cfg j')) →
      (∀ j, i ≤ j → j < i + k → (get_dram_base_mask cfg j).mask &&& 1 ≠ 0 →
        lo ≤ node_basek (get_dram_base_mask cfg j)) →
      (c → ∀ j j', i ≤ j → j < j' → j' < i + k → (get_dram_base_mask cfg j).mask &&& 1 ≠ 0 →
        (get_dram_base_mask cfg j').mask &&& 1 ≠ 0 →
        ¬ (node_basek (get_dram_base_mask cfg j) < 4194304 ∧
            4194304 < node_limitk (get_dram_base_mask cfg j))) →
      (∀ r ∈ set_resources_nodes cfg m T k i idx, lo ≤ r.basek) ∧
      (set_resources_nodes cfg m T k i idx).Pairwise
        (fun a b => bases_ordered a b ∧ (c → no_overlap a b)) := by
  intro k
  induction k with
  | zero =>
    intro i idx lo _ _ _ _
    exact ⟨fun r hr => absurd hr (List.not_mem_nil r), List.Pairwise.nil⟩
  | succ k ih =>
    intro i idx lo hext hasc hlo hcross
    have hext' : ∀ j, i + 1 ≤ j → j < i + 1 + k →
        (get_dram_base_mask cfg j).mask &&& 1 ≠ 0 →
        node_basek (get_dram_base_mask cfg j) ≤ node_limitk (get_dram_base_mask cfg j) :=
      fun j h1 h2 => hext j (by omega) (by omega)
    have hasc' : ∀ j j', i + 1 ≤ j → j < j' → j' < i + 1 + k →
        (get_dram_base_mask cfg j).mask &&& 1 ≠ 0 →
        (get_dram_base_mask cfg j').mask &&& 1 ≠ 0 →
        node_limitk (get_dram_base_mask cfg j) ≤ node_basek (get_dram_base_mask cfg j') :=
      fun j j' h1 h2 h3 => hasc j j' (by omega) h2 (by omega)
    have hcross' : c → ∀ j j', i + 1 ≤ j → j < j' → j' < i + 1 + k →
        (get_dram_base_mask cfg j).mask &&& 1 ≠ 0 →
        (get_dram_base_mask cfg j').mask &&& 1 ≠ 0 →
        ¬ (node_basek (get_dram_base_mask cfg j) < 4194304 ∧
            4194304 < node_limitk (get_dram_base_mask cfg j)) :=
      fun hc j j' h1 h2 h3 => hcross hc j j' (by omega) h2 (by omega)
    by_cases hen : (get_dram_base_mask cfg i).mask &&& 1 = 0
    · -- node i has no memory
      have hstep : set_resources_nodes cfg m T (k + 1) i idx
          = set_resources_nodes cfg m T k (i + 1) idx := by
        simp only [set_resources_nodes, set_resources_node, hen, if_true, List.nil_append]
      rw [hstep]
      exact ih (i + 1) idx lo hext' hasc'
        (fun j h1 h2 => hlo j (by omega) (by omega)) hcross'
    · generalize hb : node_basek (get_dram_base_mask cfg i) = b at *
      generalize hl : node_limitk (get_dram_base_mask cfg i) = l at *
      have hbl : b ≤ l := by
        have := hext i (le_refl _) (by omega) hen
        rw [hb, hl] at this
        exact this
      have hl38 : l < 2 ^ 38 := by rw [← hl]; exact node_limitk_lt _
      have hlob : lo ≤ b := by
        have := hlo i (le_refl _) (by omega) hen
        rw [hb] at this
        exact this
      obtain ⟨hA, hB, hC⟩ := set_resources_region_spec m T i idx b l hm1 hm2 hbl hl38
      have hstep : set_resources_nodes cfg m T (k + 1) i idx
          = (set_resources_region m T i idx b l).1 ++
            set_resources_nodes cfg m T k (i + 1) (set_resources_region m T i idx b l).2 := by
        simp only [set_resources_nodes, set_resources_node, if_neg hen, hb, hl]
      rw [hstep]
      have hlo' : ∀ j, i + 1 ≤ j → j < i + 1 + k →
          (get_dram_base_mask cfg j).mask &&& 1 ≠ 0 →
          l ≤ node_basek (get_dram_base_mask cfg j) := by
        intro j h1 h2 hj
        have := hasc i j (le_refl _) (by omega) (by omega) hen hj
        rw [hl] at this
        exact this
      obtain ⟨hR1, hR2⟩ := ih (i + 1) (set_resources_region m T i idx b l).2 l
        hext' hasc' hlo' hcross'
      refine ⟨?_, ?_⟩
      · intro r hr
        rcases List.mem_append.mp hr with h | h
        · have := (hA r h).1
          omega
        · have := hR1 r h
          omega
      · rw [List.pairwise_append]
        refine ⟨hC.imp (fun h => ⟨h.1, fun _ => h.2⟩), hR2, ?_⟩
        intro a ha r hr
        have ha1 := (hA a ha).2
        have hr1 := hR1 r hr
        refine ⟨by unfold bases_ordered; omega, fun hc => ?_⟩
        by_cases hx : b < 4194304 ∧ 4194304 < l
        · -- a node that crosses 4 GiB has no enabled successor
          have hnone : set_resources_nodes cfg m T k (i + 1)
              (set_resources_region m T i idx b l).2 = [] := by
            apply set_resources_nodes_disabled
            intro j h1 h2
            by_contra hj
            have := hcross hc i j (le_refl _) (by omega) (by omega) hen hj
            rw [hb, hl] at this
            exact this hx
          rw [hnone] at hr
          exact absurd hr (List.not_mem_nil r)
        · unfold no_overlap
          by_cases hz : a.sizek = 0
          · left; exact hz
          · right; right
            have := hB hx a ha hz
            omega

/-- C9, as the claim states it, fails: the extents [0, 5 GiB) and [5 GiB, 6 GiB) are
enabled, disjoint and ascending, the ceiling of 3 GiB lies between 768 KiB and 4 GiB
and `bsp_topmem2` is the highest node limit, yet the region [4 GiB, 6 GiB) emitted for
node 0 overlaps the region [5 GiB, 6 GiB) emitted for node 1. -/
theorem crossing_regions_counterexample :
    (get_dram_base_mask crossing_cfg 0).mask &&& 1 ≠ 0 ∧
    (get_dram_base_mask crossing_cfg 1).mask &&& 1 ≠ 0 ∧
    node_basek (get_dram_base_mask crossing_cfg 0) = 0 ∧
    node_limitk (get_dram_base_mask crossing_cfg 0) = 5 * 1024 * 1024 ∧
    node_basek (get_dram_base_mask crossing_cfg 1) = 5 * 1024 * 1024 ∧
    node_limitk (get_dram_base_mask crossing_cfg 1) = 6 * 1024 * 1024 ∧
    (6 * 2 ^ 30) / 1024 = 6 * 1024 * 1024 ∧
    set_resources_nodes crossing_cfg 3145728 (6 * 2 ^ 30) 2 0 0x10
      = [⟨0x10, 0, 640⟩, ⟨0x20, 768, 3145728 - 768⟩,
         ⟨0x30, 4 * 1024 * 1024, 2 * 1024 * 1024⟩, ⟨0x41, 5 * 1024 * 1024, 1024 * 1024⟩] ∧
    ¬ (set_resources_nodes crossing_cfg 3145728 (6 * 2 ^ 30) 2 0 0x10).Pairwise
        (fun a b => no_overlap a b) := by
  decide

/-- C9 (amended): for every number of nodes and every assignment of enabled node extents
that are pairwise disjoint and ascending by node id, with a ceiling between 768 KiB and
4 GiB and any `bsp_topmem2`, the regions that `domain_set_resources` passes to
`ram_resource` have non-decreasing bases; and no two regions of nonzero size overlap
provided that a node whose extent crosses the 4 GiB line (base below, limit above) is
followed by no other enabled node. -/
theorem set_resources_regions_ordered (cfg : Nat → Nat) (node_nums mmio_basek topmem2 : Nat)
    (hm1 : 768 ≤ mmio_basek) (hm2 : mmio_basek ≤ 4 * 1024 * 1024)
    (hext : ∀ i, i < node_nums → (get_dram_base_mask cfg i).mask &&& 1 ≠ 0 →
      node_basek (get_dram_base_mask cfg i) ≤ node_limitk (get_dram_base_mask cfg i))
    (hasc : ∀ j, j < node_nums → ∀ i, i < j → (get_dram_base_mask cfg i).mask &&& 1 ≠ 0 →
      (get_dram_base_mask cfg j).mask &&& 1 ≠ 0 →
      node_limitk (get_dram_base_mask cfg i) ≤ node_basek (get_dram_base_mask cfg j)) :
    (set_resources_nodes cfg mmio_basek topmem2 node_nums 0 0x10).Pairwise bases_ordered ∧
    ((∀ j, j < node_nums → ∀ i, i < j → (get_dram_base_mask cfg i).mask &&& 1 ≠ 0 →
        (get_dram_base_mask cfg j).mask &&& 1 ≠ 0 →
        ¬ (node_basek (get_dram_base_mask cfg i) < 4 * 1024 * 1024 ∧
            4 * 1024 * 1024 < node_limitk (get_dram_base_mask cfg i))) →
      (set_resources_nodes cfg mmio_basek topmem2 node_nums 0 0x10).Pairwise
        (fun a b => bases_ordered a b ∧ no_overlap a b)) := by
  have hm2' : mmio_basek ≤ 4194304 := by omega
  constructor
  · have h := (set_resources_nodes_pairwise cfg mmio_basek topmem2 False hm1 hm2'
      node_nums 0 0x10 0
      (fun j _ h2 hj => hext j (by omega) hj)
      (fun j j' _ h2 h3 hj hj' => hasc j' (by omega) j h2 hj hj')
      (fun j _ _ _ => Nat.zero_le _)
      (fun hc => absurd hc id)).2
    exact h.imp (fun h => h.1)
  · intro hcross
    have h := (set_resources_nodes_pairwise cfg mmio_basek topmem2 True hm1 hm2'
      node_nums 0 0x10 0
      (fun j _ h2 hj => hext j (by omega) hj)
      (fun j j' _ h2 h3 hj hj' => hasc j' (by omega) j h2 hj hj')
      (fun j _ _ _ => Nat.zero_le _)
      (fun _ j j' _ h2 h3 hj hj' => by
        have := hcross j' (by omega) j h2 hj hj'
        omega)).2
    exact h.imp (fun h => ⟨h.1, h.2 trivial⟩)

/-- Witness for C9 (amended): the extents [0, 2 GiB) and [2 GiB, 6 GiB) under a ceiling
of 3 GiB. -/
theorem set_resources_regions_ordered_witness :
    (set_resources_nodes two_extent_cfg 3145728 (6 * 2 ^ 30) 2 0 0x10).Pairwise bases_ordered ∧
    (set_resources_nodes two_extent_cfg 3145728 (6 * 2 ^ 30) 2 0 0x10).Pairwise
        (fun a b => bases_ordered a b ∧ no_overlap a b) :=
  ⟨(set_resources_regions_ordered two_extent_cfg 2 3145728 (6 * 2 ^ 30) (by decide) (by decide)
      (by decide) (by decide)).1,
   (set_resources_regions_ordered two_extent_cfg 2 3145728 (6 * 2 ^ 30) (by decide) (by decide)
      (by decide) (by decide)).2 (by decide)⟩

/-! ## C11: the start offset of the local APIC ids -/

theorem sysconf_node_nums_le (dev_mc : Device) :
    1 ≤ sysconf_node_nums dev_mc ∧ sysconf_node_nums dev_mc ≤ 8 := by
  have h : (dev_mc.pci_config 0x60 >>> 4) &&& 7 ≤ 7 := Nat.and_le_right
  unfold sysconf_node_nums
  omega

theorem core_max_of_bounds (ecx : Nat) : 1 ≤ core_max_of ecx ∧ core_max_of ecx ≤ 2 ^ 15 := by
  have h : (((ecx &&& 0x0000F000) >>> 12)) &&& 0x000F ≤ 15 := Nat.and_le_right
  unfold core_max_of
  rw [Nat.shiftLeft_eq, Nat.one_mul]
  exact ⟨Nat.one_le_two_pow, Nat.pow_le_pow_right (by decide) h⟩

/-- C11: for every `core_max >= 1` and `ioapic_count` K >= 1 (in the ranges the C
variables have in `cpu_bus_scan`: at most 8 nodes, `core_max` at most 2^15, K a positive
`int`), `lapicid_start` equals `ceil(K / core_max) * core_max`, the least multiple of
`core_max` that is at least K, when `node_nums * core_max + K >= 16`; otherwise it is 0,
and node 0, core `j` receives the identifier `j`. -/
theorem lapicid_start_value (node_nums core_max K : Nat) (hn : node_nums ≤ 8)
    (hcm1 : 1 ≤ core_max) (hcm2 : core_max ≤ 2 ^ 15) (hK1 : 1 ≤ K) (hK2 : K < 2 ^ 31) :
    (16 ≤ node_nums * core_max + K →
      lapicid_start node_nums core_max K = (K + core_max - 1) / core_max * core_max ∧
      core_max ∣ lapicid_start node_nums core_max K ∧
      K ≤ lapicid_start node_nums core_max K ∧
      ∀ M, core_max ∣ M → K ≤ M → lapicid_start node_nums core_max K ≤ M) ∧
    (node_nums * core_max + K < 16 →
      lapicid_start node_nums core_max K = 0 ∧
      ∀ modules siblings j, j < 2 ^ 32 →
        apic_id node_nums core_max K modules siblings 0 j = j) := by
  have hprod : node_nums * core_max ≤ 8 * 2 ^ 15 := Nat.mul_le_mul hn hcm2
  have hdiv : (K - 1) / core_max * core_max ≤ K - 1 := Nat.div_mul_le_self _ _
  have hL : ((K - 1) / core_max + 1) * core_max = (K - 1) / core_max * core_max + core_max := by
    rw [Nat.add_mul, Nat.one_mul]
  constructor
  · intro hthr
    obtain ⟨hval, hge⟩ := lapicid_start_ge node_nums core_max K hcm1 hK1 hthr (by omega)
      (by omega)
    have hceil : (K + core_max - 1) / core_max = (K - 1) / core_max + 1 := by
      have : K + core_max - 1 = (K - 1) + core_max := by omega
      rw [this, Nat.add_div_right _ (by omega : 0 < core_max)]
    refine ⟨by rw [hval, hceil], by rw [hval]; exact Dvd.intro_left _ rfl, hge, ?_⟩
    intro M hdvd hKM
    obtain ⟨t, rfl⟩ := hdvd
    rw [hval]
    have hlt : (K - 1) / core_max < t := by
      rw [Nat.div_lt_iff_lt_mul (by omega : 0 < core_max)]
      rw [Nat.mul_comm]
      omega
    rw [Nat.mul_comm core_max t]
    exact Nat.mul_le_mul_right _ hlt
  · intro hlow
    have hval : lapicid_start node_nums core_max K = 0 := by
      unfold lapicid_start
      rw [Nat.mod_eq_of_lt (by omega : node_nums * core_max < 2 ^ 32),
        Nat.mod_eq_of_lt (by omega : node_nums * core_max + K < 2 ^ 32)]
      rw [if_neg (by omega)]
    refine ⟨hval, fun modules siblings j hj => ?_⟩
    unfold apic_id
    rw [hval]
    simp only [Nat.zero_mul, Nat.zero_mod, ne_eq, not_true_eq_false, if_false, Nat.zero_add]
    exact Nat.mod_eq_of_lt hj

/-- Witness for C11: 2 nodes with `core_max = 4` and 20 I/O APICs (above the
threshold), and 1 node with `core_max = 4` and 1 I/O APIC (below it). -/
theorem lapicid_start_value_witness :
    (lapicid_start 2 4 20 = (20 + 4 - 1) / 4 * 4 ∧ 4 ∣ lapicid_start 2 4 20 ∧
      20 ≤ lapicid_start 2 4 20 ∧ ∀ M, 4 ∣ M → 20 ≤ M → lapicid_start 2 4 20 ≤ M) ∧
    (lapicid_start 1 4 1 = 0 ∧
      ∀ modules siblings j, j < 2 ^ 32 → apic_id 1 4 1 modules siblings 0 j = j) :=
  ⟨(lapicid_start_value 2 4 20 (by decide) (by decide) (by decide) (by decide)
      (by decide)).1 (by decide),
   (lapicid_start_value 1 4 1 (by decide) (by decide) (by decide) (by decide)
      (by decide)).2 (by decide)⟩

/-! ## C12: uniqueness of the identifiers -/

/-- C12, as the claim states it, fails: with 2 nodes, `core_max = 4`, 3 siblings, one
module and one I/O APIC the threshold is not reached, `lapicid_start` is 0, and
`cpu_bus_scan` gives node 0 and node 1 the same identifiers 0..3. -/
theorem apic_ids_duplicate_counterexample :
    (cpu_bus_scan two_node_low_env).map (fun calls => calls.map (fun c => (c.node, c.core, c.apic_id)))
      = some [(0, 0, 0), (0, 1, 1), (0, 2, 2), (0, 3, 3), (1, 0, 0), (1, 1, 1), (1, 2, 2), (1, 3, 3)] ∧
    apic_id 2 4 1 1 3 0 0 = apic_id 2 4 1 1 3 1 0 := by
  decide


theorem apic_id_same_node (node_nums core_max K modules siblings i j j' : Nat)
    (hs : siblings < core_max) (hcm : core_max ≤ 2 ^ 15) (hj : j ≤ siblings)
    (hj' : j' ≤ siblings)
    (h : apic_id node_nums core_max K modules siblings i j
      = apic_id node_nums core_max K modules siblings i j') : j = j' := by
  unfold apic_id at h
  generalize lapicid_start node_nums core_max K * ((i / modules + 1) % 2 ^ 32) = X at h
  split at h <;> omega

theorem apic_id_system_wide (node_nums core_max K modules siblings : Nat)
    (hn : node_nums ≤ 8) (hcm1 : 1 ≤ core_max) (hcm2 : core_max ≤ 2 ^ 15)
    (hs : siblings < core_max) (hK1 : 1 ≤ K) (hK2 : K < 2 ^ 28)
    (hthr : 16 ≤ node_nums * core_max + K)
    (hmod : modules = 1 ∨ (modules = 2 ∧ 2 * (siblings + 1) ≤ lapicid_start node_nums core_max K))
    (i i' j j' : Nat) (hi : i < node_nums) (hi' : i' < node_nums) (hj : j ≤ siblings)
    (hj' : j' ≤ siblings)
    (h : apic_id node_nums core_max K modules siblings i j
      = apic_id node_nums core_max K modules siblings i' j') : i = i' ∧ j = j' := by
  have hprod : node_nums * core_max ≤ 8 * 2 ^ 15 := Nat.mul_le_mul hn hcm2
  have hdiv : (K - 1) / core_max * core_max ≤ K - 1 := Nat.div_mul_le_self _ _
  have hL : ((K - 1) / core_max + 1) * core_max = (K - 1) / core_max * core_max + core_max := by
    rw [Nat.add_mul, Nat.one_mul]
  obtain ⟨hval, hge⟩ := lapicid_start_ge node_nums core_max K hcm1 hK1 hthr (by omega)
    (by omega)
  have hLup : lapicid_start node_nums core_max K ≤ K - 1 + core_max := by omega
  have hLlo : core_max ≤ lapicid_start node_nums core_max K := by
    rw [hval, hL]; omega
  have hLb : lapicid_start node_nums core_max K < 2 ^ 28 + 2 ^ 15 := by omega
  have hLs : siblings + 1 ≤ lapicid_start node_nums core_max K := by omega
  have hsb : siblings < 2 ^ 15 := by omega
  unfold apic_id at h
  generalize lapicid_start node_nums core_max K = L at *
  clear hval hge hLup hLlo hL hdiv hprod hthr hK1 hK2 hs hcm1 hcm2
  have hi8 : i < 8 := by omega
  have hi8' : i' < 8 := by omega
  rcases hmod with hm | ⟨hm, h2⟩
  · subst hm
    simp only [Nat.div_one, Nat.mod_one, ne_eq, not_true_eq_false, if_false] at h
    interval_cases i <;> interval_cases i' <;> norm_num at h <;>
      (try simp (disch := omega) only [Nat.mod_eq_of_lt] at h) <;> omega
  · subst hm
    interval_cases i <;> interval_cases i' <;> norm_num at h <;>
      (try simp (disch := omega) only [Nat.mod_eq_of_lt] at h) <;> omega

/-- C12 (amended): for every node count up to 8, every `modules >= 1`, every `core_max`
(at most 2^15, as the code computes it), every `siblings < core_max` and every
`ioapic_count >= 1`, two different cores of one node never receive the same identifier;
two different (node index, core index) pairs never receive the same identifier when in
addition `node_nums * core_max + ioapic_count >= 16`, `ioapic_count < 2^28`, and either
`modules = 1`, or `modules = 2` and `lapicid_start >= 2 * (siblings + 1)`. -/
theorem apic_ids_unique_amended (node_nums core_max K modules siblings : Nat)
    (hn : node_nums ≤ 8) (_hm : 1 ≤ modules) (hcm1 : 1 ≤ core_max) (hcm2 : core_max ≤ 2 ^ 15)
    (hs : siblings < core_max) (hK1 : 1 ≤ K) :
    (∀ i j j', j ≤ siblings → j' ≤ siblings →
      apic_id node_nums core_max K modules siblings i j
        = apic_id node_nums core_max K modules siblings i j' → j = j') ∧
    (K < 2 ^ 28 → 16 ≤ node_nums * core_max + K →
      (modules = 1 ∨
        (modules = 2 ∧ 2 * (siblings + 1) ≤ lapicid_start node_nums core_max K)) →
      ∀ i i' j j', i < node_nums → i' < node_nums → j ≤ siblings → j' ≤ siblings →
        apic_id node_nums core_max K modules siblings i j
          = apic_id node_nums core_max K modules siblings i' j' → i = i' ∧ j = j') :=
  ⟨fun i j j' hj hj' h =>
      apic_id_same_node node_nums core_max K modules siblings i j j' hs hcm2 hj hj' h,
   fun hK2 hthr hmod i i' j j' hi hi' hj hj' h =>
      apic_id_system_wide node_nums core_max K modules siblings hn hcm1 hcm2 hs hK1 hK2 hthr
        hmod i i' j j' hi hi' hj hj' h⟩

/-- Witness for C12 (amended): 2 nodes, `core_max = 4`, 20 I/O APICs, 2 modules and
3 siblings. -/
theorem apic_ids_unique_amended_witness :
    (∀ i j j', j ≤ 3 → j' ≤ 3 → apic_id 2 4 20 2 3 i j = apic_id 2 4 20 2 3 i j' → j = j') ∧
    (∀ i i' j j', i < 2 → i' < 2 → j ≤ 3 → j' ≤ 3 →
      apic_id 2 4 20 2 3 i j = apic_id 2 4 20 2 3 i' j' → i = i' ∧ j = j') :=
  ⟨(apic_ids_unique_amended 2 4 20 2 3 (by decide) (by decide) (by decide) (by decide)
      (by decide) (by decide)).1,
   (apic_ids_unique_amended 2 4 20 2 3 (by decide) (by decide) (by decide) (by decide)
      (by decide) (by decide)).2 (by decide) (by decide) (Or.inr ⟨rfl, by decide⟩)⟩

/-! ## C13: unknown families -/

theorem scan_nodes_unknown_family (env : CpuScanEnv) (node_nums core_max family : Nat)
    (h1 : family ≠ 1) (h6 : family ≠ 6) :
    ∀ k i siblings, ∃ calls : List CpuCall,
      scan_nodes env node_nums core_max family k i siblings = some calls ∧
      calls.map (fun c => (c.node, c.core)) = (List.range' i k).map (fun n => (n, 0)) ∧
      ∀ c ∈ calls, c.apic_id
        = apic_id node_nums core_max env.ioapic_count env.modules 0 c.node 0 := by
  intro k
  induction k with
  | zero =>
    intro i siblings
    exact ⟨[], rfl, rfl, fun c hc => absurd hc (List.not_mem_nil c)⟩
  | succ k ih =>
    intro i siblings
    obtain ⟨rest, hrest, hmap, hids⟩ := ih (i + 1) 0
    have hs : node_siblings env family i siblings = some (0, env.pcidev_on_root i 0) := by
      simp only [node_siblings, if_neg h1, if_neg h6]
    refine ⟨scan_cores node_nums core_max env.ioapic_count env.modules 0 i
        (match env.pcidev_on_root i 0 with
          | some d => d.enabled
          | none => false) ++ rest, by simp only [scan_nodes, hs, hrest], ?_, ?_⟩
    · simp only [scan_cores, List.map_append, List.map_map, hmap, List.range'_succ,
        List.map_cons]
      rfl
    · intro c hc
      rcases List.mem_append.mp hc with hc | hc
      · simp only [scan_cores, List.mem_map, List.mem_range] at hc
        obtain ⟨j, hj, rfl⟩ := hc
        have : j = 0 := by omega
        subst this
        rfl
      · exact hids c hc

/-- C13: for every extended family value other than 1 and 6, once the node-0 host
bridge is found (otherwise the function halts before the node loop, whatever the
family), `cpu_bus_scan` returns without failing and uses `siblings = 0` for every node:
it makes exactly one `add_cpu_device` call per node, for core index 0. -/
theorem unknown_family_single_core (env : CpuScanEnv) (dev_mc : Device)
    (hmc : env.pcidev_on_root 0 0 = some dev_mc)
    (h1 : (env.cpuid_eax_1 >>> 20) &&& 0xFF ≠ 1) (h6 : (env.cpuid_eax_1 >>> 20) &&& 0xFF ≠ 6) :
    ∃ calls : List CpuCall, cpu_bus_scan env = some calls ∧
      calls.map (fun c => (c.node, c.core))
        = (List.range (sysconf_node_nums dev_mc)).map (fun n => (n, 0)) ∧
      ∀ c ∈ calls, c.apic_id = apic_id (sysconf_node_nums dev_mc)
        (core_max_of env.cpuid_ecx_80000008) env.ioapic_count env.modules 0 c.node 0 := by
  rw [cpu_bus_scan_eq env dev_mc hmc, List.range_eq_range']
  exact scan_nodes_unknown_family env _ _ _ h1 h6 _ 0 0

/-- Witness for C13: the two-node system of extended family 0. -/
theorem unknown_family_single_core_witness :
    ∃ calls : List CpuCall, cpu_bus_scan unknown_family_env = some calls ∧
      calls.map (fun c => (c.node, c.core))
        = (List.range (sysconf_node_nums two_node_bridge)).map (fun n => (n, 0)) ∧
      ∀ c ∈ calls, c.apic_id = apic_id (sysconf_node_nums two_node_bridge)
        (core_max_of unknown_family_env.cpuid_ecx_80000008) unknown_family_env.ioapic_count
        unknown_family_env.modules 0 c.node 0 :=
  unknown_family_single_core unknown_family_env two_node_bridge rfl (by decide) (by decide)

/-! ## C14: what `set_resource` writes -/

theorem f1_write_spec (s : NbState) (i reg value : Nat) (d : Device)
    (hd : s.f1_dev i = some d) :
    ∃ s1, f1_write s i reg value = some s1 ∧ s1.node_nums = s.node_nums ∧
      s1.f0_dev = s.f0_dev ∧
      (∃ d', s1.f1_dev i = some d' ∧
        d'.pci_config = Function.update d.pci_config reg value) ∧
      ∀ j, j ≠ i → s1.f1_dev j = s.f1_dev j := by
  simp only [f1_write, hd]
  exact ⟨_, rfl, rfl, rfl, ⟨_, Function.update_same _ _ _, rfl⟩,
    fun j hj => Function.update_noteq hj _ _⟩

theorem f1_write_nodes_spec (reg value : Nat) :
    ∀ k i (s : NbState), (∀ j, i ≤ j → j < i + k → (s.f1_dev j).isSome = true) →
      ∃ s', f1_write_nodes reg value k i s = some s' ∧
        s'.node_nums = s.node_nums ∧ s'.f0_dev = s.f0_dev ∧
        (∀ j, i ≤ j → j < i + k → ∃ d d', s.f1_dev j = some d ∧ s'.f1_dev j = some d' ∧
          d'.pci_config = Function.update d.pci_config reg value) ∧
        (∀ j, ¬ (i ≤ j ∧ j < i + k) → s'.f1_dev j = s.f1_dev j) := by
  intro k
  induction k with
  | zero =>
    intro i s _
    exact ⟨s, rfl, rfl, rfl, fun j h1 h2 => absurd h2 (by omega), fun j _ => rfl⟩
  | succ k ih =>
    intro i s h
    obtain ⟨d, hd⟩ := Option.isSome_iff_exists.mp (h i (le_refl _) (by omega))
    obtain ⟨s1, hw, hs1n, hs1z, ⟨d1, hd1, hd1c⟩, hs1o⟩ := f1_write_spec s i reg value d hd
    have hsome : ∀ j, i + 1 ≤ j → j < i + 1 + k → (s1.f1_dev j).isSome = true := by
      intro j h1 h2
      rw [hs1o j (by omega)]
      exact h j (by omega) (by omega)
    obtain ⟨s', hrun, hn, hz, hin, hout⟩ := ih (i + 1) s1 hsome
    refine ⟨s', by simp only [f1_write_nodes, hw, hrun], by rw [hn, hs1n], by rw [hz, hs1z],
      ?_, ?_⟩
    · intro j h1 h2
      by_cases hj : j = i
      · subst hj
        exact ⟨d, d1, hd, by rw [hout j (by omega), hd1], hd1c⟩
      · obtain ⟨d0, d', g1, g2, g3⟩ := hin j (by omega) (by omega)
        rw [hs1o j hj] at g1
        exact ⟨d0, d', g1, g2, g3⟩
    · intro j hj
      rw [hout j (by omega), hs1o j (by omega)]

/-- Two passes of the write loop over the same nodes: first `value4` at `reg + 4`, then
`value` at `reg`. -/
theorem f1_write_pair_spec (s : NbState) (reg value value4 n : Nat)
    (hf1 : ∀ i, i < n → (s.f1_dev i).isSome = true) (hn : s.node_nums = n) :
    ∃ s1 s', f1_write_nodes (reg + 4) value4 n 0 s = some s1 ∧ s1.node_nums = n ∧
      f1_write_nodes reg value n 0 s1 = some s' ∧
      s'.node_nums = s.node_nums ∧ s'.f0_dev = s.f0_dev ∧
      (∀ i, i < n → ∃ d0 d1, s.f1_dev i = some d0 ∧ s'.f1_dev i = some d1 ∧
        d1.pci_config reg = value ∧ d1.pci_config (reg + 4) = value4 ∧
        ∀ r, r ≠ reg → r ≠ reg + 4 → d1.pci_config r = d0.pci_config r) ∧
      (∀ i, n ≤ i → s'.f1_dev i = s.f1_dev i) := by
  obtain ⟨s1, h1, h1n, h1z, h1in, h1out⟩ := f1_write_nodes_spec (reg + 4) value4 n 0 s
    (fun j _ hj => hf1 j (by omega))
  have hsome : ∀ j, 0 ≤ j → j < 0 + n → (s1.f1_dev j).isSome = true := by
    intro j _ hj
    obtain ⟨d, d', _, g2, _⟩ := h1in j (Nat.zero_le _) hj
    rw [g2]; rfl
  obtain ⟨s2, h2, h2n, h2z, h2in, h2out⟩ := f1_write_nodes_spec reg value n 0 s1 hsome
  refine ⟨s1, s2, h1, by rw [h1n, hn], h2, by rw [h2n, h1n], by rw [h2z, h1z], ?_, ?_⟩
  · intro i hi
    obtain ⟨d0, d1, g1, g2, g3⟩ := h1in i (Nat.zero_le _) (by omega)
    obtain ⟨e0, e1, k1, k2, k3⟩ := h2in i (Nat.zero_le _) (by omega)
    rw [g2] at k1
    cases k1
    refine ⟨d0, e1, g1, k2, ?_, ?_, ?_⟩
    · rw [k3, Function.update_same]
    · rw [k3, Function.update_noteq (by omega), g3, Function.update_same]
    · intro r hr hr4
      rw [k3, Function.update_noteq hr, g3, Function.update_noteq hr4]
  · intro i hi
    rw [h2out i (by omega), h1out i (by omega)]



theorem lor_eq_zero (p q : Nat) (h : p ||| q = 0) : p = 0 ∧ q = 0 := by
  have hb : ∀ i, (p.testBit i || q.testBit i) = false := by
    intro i
    rw [← Nat.testBit_or, h, Nat.zero_testBit]
  constructor
  · apply Nat.eq_of_testBit_eq
    intro i
    have := hb i
    rw [Nat.zero_testBit]
    cases hp : p.testBit i
    · rfl
    · rw [hp] at this; simp at this
  · apply Nat.eq_of_testBit_eq
    intro i
    have := hb i
    rw [Nat.zero_testBit]
    cases hq : q.testBit i
    · rfl
    · rw [hq] at this; simp at this

theorem modify_resource_frame (s : NbState) (dev index : Nat) (f : Resource → Resource) :
    (modify_resource s dev index f).f1_dev = s.f1_dev ∧
    (modify_resource s dev index f).node_nums = s.node_nums ∧
    ∀ n, ((modify_resource s dev index f).f0_dev n).map (fun d => d.pci_config)
      = (s.f0_dev n).map (fun d => d.pci_config) := by
  unfold modify_resource
  cases hd : s.f0_dev dev with
  | none => exact ⟨rfl, rfl, fun n => rfl⟩
  | some d =>
    refine ⟨rfl, rfl, fun n => ?_⟩
    by_cases hn : n = dev
    · subst hn
      simp only [Function.update_same, hd, Option.map_some']
    · simp only [Function.update_noteq hn]

/-- C14: for a resource of a function-0 device that is assigned, not yet stored, of I/O
or memory type and keyed with `index & 0xffff >= 0x1000`, and with the function-1
handles of all nodes below `node_nums` present, `set_resource` returns, and afterwards
the function-1 register at `reg = index & 0xfff` of every node `i < node_nums` holds one
and the same base word and the register at `reg + 4` one and the same limit word; every
other function-1 register of these nodes, the function 1 of every other node and the
configuration space of every function 0 are as before. -/
theorem set_resource_writes (c : DevConsts) (resource_end : Resource → Nat) (s : NbState)
    (dev index nodeid : Nat) (d : Device) (res : Resource)
    (hd : s.f0_dev dev = some d) (hres : probe_resource d index = some res)
    (hassigned : res.flags &&& c.IORESOURCE_ASSIGNED ≠ 0)
    (hnot_stored : res.flags &&& c.IORESOURCE_STORED = 0)
    (htype : res.flags &&& c.IORESOURCE_IO ≠ 0 ∨ res.flags &&& c.IORESOURCE_MEM ≠ 0)
    (hidx : 0x1000 ≤ res.index &&& 0xffff)
    (hf1 : ∀ i, i < s.node_nums → (s.f1_dev i).isSome = true) :
    ∃ s' base limit, set_resource c resource_end s dev index nodeid = some s' ∧
      (base, limit) =
        (if res.flags &&& c.IORESOURCE_IO ≠ 0 then
          (io_base_word ((res.base >>> 8) % 2 ^ 32),
           io_limit_word nodeid (IOINDEX_LINK res.index) ((resource_end res >>> 8) % 2 ^ 32))
        else
          (mmio_base_word nodeid ((res.base >>> 8) % 2 ^ 32),
           mmio_limit_word nodeid (IOINDEX_LINK res.index)
             ((resource_end res >>> 8) % 2 ^ 32))) ∧
      (∀ i, i < s.node_nums → ∃ d0 d1, s.f1_dev i = some d0 ∧ s'.f1_dev i = some d1 ∧
        d1.pci_config (res.index &&& 0xfff) = base ∧
        d1.pci_config ((res.index &&& 0xfff) + 4) = limit ∧
        ∀ r, r ≠ res.index &&& 0xfff → r ≠ (res.index &&& 0xfff) + 4 →
          d1.pci_config r = d0.pci_config r) ∧
      (∀ i, s.node_nums ≤ i → s'.f1_dev i = s.f1_dev i) ∧
      (∀ n, (s'.f0_dev n).map (fun d => d.pci_config)
        = (s.f0_dev n).map (fun d => d.pci_config)) := by
  have htype' : ¬ res.flags &&& (c.IORESOURCE_MEM ||| c.IORESOURCE_IO) = 0 := by
    intro h0
    rw [Nat.and_or_distrib_left] at h0
    obtain ⟨hm, hi⟩ := lor_eq_zero _ _ h0
    rcases htype with h | h
    · exact h hi
    · exact h hm
  have hidx' : ¬ res.index &&& 0xffff < 0x1000 := by omega
  by_cases hio : res.flags &&& c.IORESOURCE_IO ≠ 0
  · obtain ⟨s0, s1, h0, h0n, h1, h1n, h1z, h1in, h1out⟩ := f1_write_pair_spec s
      (res.index &&& 0xfff)
      (io_base_word ((res.base >>> 8) % 2 ^ 32))
      (io_limit_word nodeid (IOINDEX_LINK res.index) ((resource_end res >>> 8) % 2 ^ 32))
      s.node_nums hf1 rfl
    obtain ⟨m1, m2, m3⟩ := modify_resource_frame s1 dev index
      (fun r => { r with flags := r.flags ||| c.IORESOURCE_STORED })
    refine ⟨modify_resource s1 dev index
        (fun r => { r with flags := r.flags ||| c.IORESOURCE_STORED }),
      io_base_word ((res.base >>> 8) % 2 ^ 32),
      io_limit_word nodeid (IOINDEX_LINK res.index) ((resource_end res >>> 8) % 2 ^ 32),
      ?_, by rw [if_pos hio], ?_, ?_, ?_⟩
    · simp only [set_resource, hd, hres, if_neg hassigned, hnot_stored, ne_eq,
        not_true_eq_false, if_false, if_neg htype', if_neg hidx', if_pos hio, set_io_addr_reg,
        h0, h0n, h1]
    · intro i hi
      rw [m1]
      exact h1in i hi
    · intro i hi
      rw [m1]
      exact h1out i hi
    · intro n
      rw [m3, h1z]
  · have hmem : res.flags &&& c.IORESOURCE_MEM ≠ 0 := by
      rcases htype with h | h
      · exact absurd h hio
      · exact h
    obtain ⟨s0, s1, h0, h0n, h1, h1n, h1z, h1in, h1out⟩ := f1_write_pair_spec s
      (res.index &&& 0xfff)
      (mmio_base_word nodeid ((res.base >>> 8) % 2 ^ 32))
      (mmio_limit_word nodeid (IOINDEX_LINK res.index) ((resource_end res >>> 8) % 2 ^ 32))
      s.node_nums hf1 rfl
    obtain ⟨m1, m2, m3⟩ := modify_resource_frame s1 dev index
      (fun r => { r with flags := r.flags ||| c.IORESOURCE_STORED })
    refine ⟨modify_resource s1 dev index
        (fun r => { r with flags := r.flags ||| c.IORESOURCE_STORED }),
      mmio_base_word nodeid ((res.base >>> 8) % 2 ^ 32),
      mmio_limit_word nodeid (IOINDEX_LINK res.index) ((resource_end res >>> 8) % 2 ^ 32),
      ?_, by rw [if_neg hio], ?_, ?_, ?_⟩
    · simp only [set_resource, hd, hres, if_neg hassigned, hnot_stored, ne_eq,
        not_true_eq_false, if_false, if_neg htype', if_neg hidx', if_neg hio, if_pos hmem,
        set_mmio_addr_reg, h0, h0n, h1]
    · intro i hi
      rw [m1]
      exact h1in i hi
    · intro i hi
      rw [m1]
      exact h1out i hi
    · intro n
      rw [m3, h1z]


/-- Witness for C14: the I/O window of link 1 at 0xC0 on the two-node example state. -/
theorem set_resource_writes_witness :
    ∃ s' base limit,
      set_resource example_consts example_resource_end assigned_state 0
        (IOINDEX (0x1000 + 0xc0) 1) 0 = some s' ∧
      (base, limit) =
        (if assigned_io_window.flags &&& example_consts.IORESOURCE_IO ≠ 0 then
          (io_base_word ((assigned_io_window.base >>> 8) % 2 ^ 32),
           io_limit_word 0 (IOINDEX_LINK assigned_io_window.index)
             ((example_resource_end assigned_io_window >>> 8) % 2 ^ 32))
        else
          (mmio_base_word 0 ((assigned_io_window.base >>> 8) % 2 ^ 32),
           mmio_limit_word 0 (IOINDEX_LINK assigned_io_window.index)
             ((example_resource_end assigned_io_window >>> 8) % 2 ^ 32))) ∧
      (∀ i, i < assigned_state.node_nums → ∃ d0 d1, assigned_state.f1_dev i = some d0 ∧
        s'.f1_dev i = some d1 ∧
        d1.pci_config (assigned_io_window.index &&& 0xfff) = base ∧
        d1.pci_config ((assigned_io_window.index &&& 0xfff) + 4) = limit ∧
        ∀ r, r ≠ assigned_io_window.index &&& 0xfff →
          r ≠ (assigned_io_window.index &&& 0xfff) + 4 →
          d1.pci_config r = d0.pci_config r) ∧
      (∀ i, assigned_state.node_nums ≤ i → s'.f1_dev i = assigned_state.f1_dev i) ∧
      (∀ n, (s'.f0_dev n).map (fun d => d.pci_config)
        = (assigned_state.f0_dev n).map (fun d => d.pci_config)) :=
  set_resource_writes example_consts example_resource_end assigned_state 0
    (IOINDEX (0x1000 + 0xc0) 1) 0 assigned_io_device assigned_io_window
    rfl (by decide) (by decide) (by decide) (Or.inl (by decide)) (by decide) (by decide)

/-! ## C15: round trip of the memory window words -/

theorem lor_land_right (a b c : Nat) : (a ||| b) &&& c = (a &&& c) ||| (b &&& c) := by
  rw [Nat.and_comm, Nat.and_or_distrib_left, Nat.and_comm c a, Nat.and_comm c b]

theorem land_land_eq_zero (m K M : Nat) (h : K &&& M = 0) : (m &&& K) &&& M = 0 := by
  rw [Nat.and_assoc, h, Nat.and_zero]

theorem lor_shiftRight (a b k : Nat) : (a ||| b) >>> k = (a >>> k) ||| (b >>> k) := by
  apply Nat.eq_of_testBit_eq
  intro i
  simp only [Nat.testBit_shiftRight, Nat.testBit_or]

theorem land_shiftRight (a b k : Nat) : (a &&& b) >>> k = (a >>> k) &&& (b >>> k) := by
  apply Nat.eq_of_testBit_eq
  intro i
  simp only [Nat.testBit_shiftRight, Nat.testBit_and]

set_option maxRecDepth 100000 in
theorem node_link_fields :
    ∀ n, n < 64 → ∀ l, l < 8 →
      ((n &&& 0xf) ||| ((l <<< 4) % 2 ^ 32)) &&& 0xf = n &&& 0xf ∧
      (n &&& 0xf) + (n &&& 0x30) = n ∧
      ((3 ||| (n &&& 0x30)) &&& 0x30) = n &&& 0x30 ∧
      (((n &&& 0xf) ||| ((l <<< 4) % 2 ^ 32)) >>> 4) &&& 7 = l := by
  decide

/-- C15: for every node id `n` in 0..63, every link `l` in 0..7 and every `mmio_min`,
`mmio_max`, the base word that `set_mmio_addr_reg` writes has `(base & 3) != 0`, and the
memory-class decoding of `domain_read_resources` (register offsets below 0xC0) yields
`nodeid = n` and `reg_link = l` from the two words. -/
theorem mmio_round_trip (n l mmio_min mmio_max reg : Nat) (hn : n < 64) (hl : l < 8)
    (hreg : reg < 0xc0) :
    mmio_base_word n mmio_min &&& 3 ≠ 0 ∧
    decode_nodeid reg (mmio_base_word n mmio_min) (mmio_limit_word n l mmio_max) = n ∧
    decode_link (mmio_limit_word n l mmio_max) = l := by
  obtain ⟨h1, h2, h3, h4⟩ := node_link_fields n hn l hl
  have hb3 : mmio_base_word n mmio_min &&& 3 = 3 := by
    unfold mmio_base_word
    rw [lor_land_right, lor_land_right, land_land_eq_zero _ _ _ (by decide),
      land_land_eq_zero _ _ _ (by decide)]
    decide
  have hb30 : mmio_base_word n mmio_min &&& 0x30 = n &&& 0x30 := by
    unfold mmio_base_word
    rw [lor_land_right, land_land_eq_zero _ _ _ (by decide), Nat.or_zero, h3]
  have hlf : mmio_limit_word n l mmio_max &&& 0xf = n &&& 0xf := by
    unfold mmio_limit_word
    rw [lor_land_right, land_land_eq_zero _ _ _ (by decide), Nat.or_zero, h1]
  have hll : (mmio_limit_word n l mmio_max >>> 4) &&& 7 = l := by
    unfold mmio_limit_word
    rw [lor_shiftRight, lor_land_right, land_shiftRight, land_land_eq_zero _ _ _ (by decide),
      Nat.or_zero, h4]
  refine ⟨by rw [hb3]; decide, ?_, ?_⟩
  · unfold decode_nodeid
    rw [if_pos hreg, hlf, hb30, h2]
  · unfold decode_link
    exact hll


/-- Witness for C15: node 35, link 5. -/
theorem mmio_round_trip_witness :
    mmio_base_word 35 0x12345678 &&& 3 ≠ 0 ∧
    decode_nodeid 0x80 (mmio_base_word 35 0x12345678) (mmio_limit_word 35 5 0x9abcdef0) = 35 ∧
    decode_link (mmio_limit_word 35 5 0x9abcdef0) = 5 :=
  mmio_round_trip 35 5 0x12345678 0x9abcdef0 0x80 (by decide) (by decide) (by decide)

/-! ## C16: round trip of the I/O window words -/

/-- A value without bits below position 8 has nothing in common with a mask below 2^8. -/
theorem land_eq_zero_of_low_bits (a M : Nat) (hM : M < 2 ^ 8)
    (h : ∀ i, i < 8 → a.testBit i = false) : a &&& M = 0 := by
  apply Nat.eq_of_testBit_eq
  intro i
  rw [Nat.testBit_and, Nat.zero_testBit]
  by_cases hi : i < 8
  · rw [h i hi, Bool.false_and]
  · have : M.testBit i = false :=
      Nat.testBit_lt_two_pow (Nat.lt_of_lt_of_le hM (Nat.pow_le_pow_right (by decide) (by omega)))
    rw [this, Bool.and_false]

theorem io_field_low_bits (x : Nat) :
    (∀ i, i < 8 → ((x &&& 0xf0) <<< (12 - 4)).testBit i = false) ∧
    (∀ i, i < 8 → (((x &&& 0xf0) <<< (12 - 4)) >>> 4).testBit i = false) := by
  constructor
  · intro i hi
    rw [Nat.testBit_shiftLeft]
    simp only [Nat.reduceSub, ge_iff_le, Bool.and_eq_false_imp, decide_eq_true_eq]
    intro h8
    omega
  · intro i hi
    rw [Nat.testBit_shiftRight, Nat.testBit_shiftLeft, Nat.testBit_and]
    by_cases h4 : i < 4
    · simp only [Nat.reduceSub, ge_iff_le, Bool.and_eq_false_imp, decide_eq_true_eq]
      intro h8
      omega
    · have h5 : 4 + i - (12 - 4) < 4 := by omega
      have : Nat.testBit 0xf0 (4 + i - (12 - 4)) = false := by
        interval_cases i <;> decide
      rw [this, Bool.and_false, Bool.and_false]

set_option maxRecDepth 100000 in
theorem io_node_link_fields :
    ∀ n, n < 64 → ∀ l, l < 8 →
      (((n &&& 0xf) ||| ((n &&& 0x30) <<< (8 - 4))) ||| ((l <<< 4) % 2 ^ 32)) &&& 0xf
        = n &&& 0xf ∧
      ((((n &&& 0xf) ||| ((n &&& 0x30) <<< (8 - 4))) ||| ((l <<< 4) % 2 ^ 32)) >>> 4) &&& 7
        = l := by
  decide

/-- What the I/O-class decoding of `domain_read_resources` recovers from the words
`set_io_addr_reg` writes: the link, but only the low four bits of the node id. -/
theorem io_decode (n l io_min io_max reg : Nat) (hn : n < 64) (hl : l < 8)
    (hreg : ¬ reg < 0xc0) :
    io_base_word io_min &&& 3 ≠ 0 ∧
    decode_nodeid reg (io_base_word io_min) (io_limit_word n l io_max) = n &&& 0xf ∧
    decode_link (io_limit_word n l io_max) = l := by
  obtain ⟨h1, h2⟩ := io_node_link_fields n hn l hl
  obtain ⟨hmin1, hmin2⟩ := io_field_low_bits io_min
  obtain ⟨hmax1, hmax2⟩ := io_field_low_bits io_max
  have hb3 : io_base_word io_min &&& 3 = 3 := by
    unfold io_base_word
    rw [lor_land_right, land_eq_zero_of_low_bits _ 3 (by decide) hmin1]
    decide
  have hb30 : (io_base_word io_min >>> 4) &&& 0x30 = 0 := by
    unfold io_base_word
    rw [lor_shiftRight, lor_land_right, land_eq_zero_of_low_bits _ 0x30 (by decide) hmin2]
    decide
  have hlf : io_limit_word n l io_max &&& 0xf = n &&& 0xf := by
    unfold io_limit_word
    rw [lor_land_right, land_eq_zero_of_low_bits _ 0xf (by decide) hmax1, Nat.or_zero, h1]
  have hll : (io_limit_word n l io_max >>> 4) &&& 7 = l := by
    unfold io_limit_word
    rw [lor_shiftRight, lor_land_right, land_eq_zero_of_low_bits _ 7 (by decide) hmax2,
      Nat.or_zero, h2]
  refine ⟨by rw [hb3]; decide, ?_, ?_⟩
  · unfold decode_nodeid
    rw [if_neg hreg, hlf, hb30, Nat.add_zero]
  · unfold decode_link
    exact hll


/-- C16 (behaviour of the code at the failing input): for node 16, link 0 the words
written by `set_io_addr_reg` decode, in the I/O class of `domain_read_resources`, to
node 0.  `set_io_addr_reg` stores bits 5:4 of the node id in bits 9:8 of the limit
word, the decoder looks for them in bits 9:8 of the base word; the memory pair of
functions round trips the same node id. -/
theorem io_round_trip_loses_node_bits :
    io_base_word 0 &&& 3 ≠ 0 ∧
    decode_nodeid 0xc0 (io_base_word 0) (io_limit_word 16 0 0) = 0 ∧
    decode_link (io_limit_word 16 0 0) = 0 ∧
    io_limit_word 16 0 0 = 0x100 ∧ io_base_word 0 = 3 ∧
    decode_nodeid 0x80 (mmio_base_word 16 0) (mmio_limit_word 16 0 0) = 16 := by
  decide

/-! ## C19: the handle lookup -/


theorem get_fx_devs_loop_spec (gnp : Nat → Nat → Option Device) :
    ∀ k i (s : NbState),
      (∀ j, i ≤ j → j < i + k →
        (get_fx_devs_loop gnp k i s).f0_dev j = gnp j 0 ∧
        (get_fx_devs_loop gnp k i s).f1_dev j = gnp j 1) ∧
      (∀ j, ¬ (i ≤ j ∧ j < i + k) →
        (get_fx_devs_loop gnp k i s).f0_dev j = s.f0_dev j ∧
        (get_fx_devs_loop gnp k i s).f1_dev j = s.f1_dev j) ∧
      (((∀ j, i ≤ j → j < i + k → ¬ both_handles gnp j) ∧
          (get_fx_devs_loop gnp k i s).fx_devs = s.fx_devs) ∨
        (∃ j, i ≤ j ∧ j < i + k ∧ both_handles gnp j ∧
          (get_fx_devs_loop gnp k i s).fx_devs = j + 1 ∧
          ∀ j', j < j' → j' < i + k → ¬ both_handles gnp j')) := by
  intro k
  induction k with
  | zero =>
    intro i s
    refine ⟨fun j h1 h2 => absurd h2 (by omega), fun j _ => ⟨rfl, rfl⟩, Or.inl ⟨?_, rfl⟩⟩
    intro j h1 h2
    omega
  | succ k ih =>
    intro i s
    by_cases hboth : (gnp i 0).isSome = true ∧ (gnp i 1).isSome = true
    · simp only [get_fx_devs_loop, hboth, and_self, if_true]
      obtain ⟨hin, hout, hfx⟩ := ih (i + 1)
        { node_nums := s.node_nums, sblink := s.sblink, fx_devs := i + 1,
          f0_dev := Function.update s.f0_dev i (gnp i 0),
          f1_dev := Function.update s.f1_dev i (gnp i 1) }
      refine ⟨?_, ?_, Or.inr ?_⟩
      · intro j h1 h2
        by_cases hj : j = i
        · subst hj
          obtain ⟨g1, g2⟩ := hout j (by omega)
          rw [g1, g2]
          simp only [Function.update_same, and_self]
        · exact hin j (by omega) (by omega)
      · intro j hj
        obtain ⟨g1, g2⟩ := hout j (by omega)
        rw [g1, g2]
        simp only [Function.update_noteq (show j ≠ i by omega), and_self]
      · rcases hfx with ⟨hnone, hval⟩ | ⟨j, h1, h2, h3, h4, h5⟩
        · refine ⟨i, le_refl _, by omega, hboth, hval, fun j' g1 g2 => hnone j' (by omega) (by omega)⟩
        · exact ⟨j, by omega, by omega, h3, h4, fun j' g1 g2 => h5 j' g1 (by omega)⟩
    · simp only [get_fx_devs_loop, hboth, if_false]
      obtain ⟨hin, hout, hfx⟩ := ih (i + 1)
        { node_nums := s.node_nums, sblink := s.sblink, fx_devs := s.fx_devs,
          f0_dev := Function.update s.f0_dev i (gnp i 0),
          f1_dev := Function.update s.f1_dev i (gnp i 1) }
      refine ⟨?_, ?_, ?_⟩
      · intro j h1 h2
        by_cases hj : j = i
        · subst hj
          obtain ⟨g1, g2⟩ := hout j (by omega)
          rw [g1, g2]
          simp only [Function.update_same, and_self]
        · exact hin j (by omega) (by omega)
      · intro j hj
        obtain ⟨g1, g2⟩ := hout j (by omega)
        rw [g1, g2]
        simp only [Function.update_noteq (show j ≠ i by omega), and_self]
      · rcases hfx with ⟨hnone, hval⟩ | ⟨j, h1, h2, h3, h4, h5⟩
        · refine Or.inl ⟨fun j g1 g2 => ?_, hval⟩
          by_cases hj : j = i
          · subst hj; exact hboth
          · exact hnone j (by omega) (by omega)
        · exact Or.inr ⟨j, by omega, by omega, h3, h4, fun j' g1 g2 => h5 j' g1 (by omega)⟩



/-- C19: with a handle array of at least one entry, `get_fx_devs` halts (`die`) if and
only if node 0's function-0 handle or node 0's function-1 handle is missing; otherwise
it returns with `fx_devs = i + 1` for the largest `i < MAX_NODE_NUMS` whose function-0
and function-1 handles both exist, so `fx_devs >= 1`, and with the handle arrays filled
from the device tree. -/
theorem get_fx_devs_halts_iff (MAX_NODE_NUMS : Nat) (gnp : Nat → Nat → Option Device)
    (s : NbState) (hmax : 1 ≤ MAX_NODE_NUMS) :
    (get_fx_devs MAX_NODE_NUMS gnp s = none ↔
      ((gnp 0 0).isNone = true ∨ (gnp 0 1).isNone = true)) ∧
    ((gnp 0 0).isSome = true → (gnp 0 1).isSome = true →
      ∃ s' i, get_fx_devs MAX_NODE_NUMS gnp s = some s' ∧ i < MAX_NODE_NUMS ∧
        s'.fx_devs = i + 1 ∧ both_handles gnp i ∧
        (∀ j, i < j → j < MAX_NODE_NUMS → ¬ both_handles gnp j) ∧ 1 ≤ s'.fx_devs ∧
        ∀ j, j < MAX_NODE_NUMS → s'.f0_dev j = gnp j 0 ∧ s'.f1_dev j = gnp j 1) := by
  obtain ⟨hin, _, hfx⟩ := get_fx_devs_loop_spec gnp MAX_NODE_NUMS 0 s
  obtain ⟨h00, h01⟩ := hin 0 (le_refl _) (by omega)
  have hdef : get_fx_devs MAX_NODE_NUMS gnp s =
      if (gnp 0 1).isNone = true ∨ (gnp 0 0).isNone = true ∨
          (get_fx_devs_loop gnp MAX_NODE_NUMS 0 s).fx_devs = 0 then none
      else some (get_fx_devs_loop gnp MAX_NODE_NUMS 0 s) := by
    simp only [get_fx_devs, h00, h01]
  constructor
  · constructor
    · intro hnone
      rw [hdef] at hnone
      by_cases hc : (gnp 0 1).isNone = true ∨ (gnp 0 0).isNone = true ∨
          (get_fx_devs_loop gnp MAX_NODE_NUMS 0 s).fx_devs = 0
      · rcases hc with h | h | h
        · exact Or.inr h
        · exact Or.inl h
        · rcases hfx with ⟨hno, _⟩ | ⟨j, _, _, _, hj, _⟩
          · have hnb := hno 0 (le_refl _) (by omega)
            unfold both_handles at hnb
            cases h0 : gnp 0 0 with
            | none => left; rfl
            | some d0 =>
              cases h1 : gnp 0 1 with
              | none => right; rfl
              | some d1 =>
                rw [h0, h1] at hnb
                exact absurd ⟨rfl, rfl⟩ hnb
          · omega
      · rw [if_neg hc] at hnone
        cases hnone
    · intro h
      rw [hdef, if_pos]
      rcases h with h | h
      · exact Or.inr (Or.inl h)
      · exact Or.inl h
  · intro h0 h1
    rcases hfx with ⟨hno, _⟩ | ⟨j, _, hj2, hj3, hj4, hj5⟩
    · exact absurd ⟨h0, h1⟩ (hno 0 (le_refl _) (by omega))
    · refine ⟨get_fx_devs_loop gnp MAX_NODE_NUMS 0 s, j, ?_, by omega, hj4, hj3,
        fun j' g1 g2 => hj5 j' g1 (by omega), by omega,
        fun j' g => hin j' (Nat.zero_le _) (by omega)⟩
      rw [hdef, if_neg]
      rintro (h | h | h)
      · rw [Option.isNone_iff_eq_none] at h
        rw [h] at h1
        cases h1
      · rw [Option.isNone_iff_eq_none] at h
        rw [h] at h0
        cases h0
      · omega


/-- Witness for C19: the two-node example tree and an array of 8 handles. -/
theorem get_fx_devs_halts_iff_witness :
    (get_fx_devs 8 committed_tree initial_state = none ↔
      ((committed_tree 0 0).isNone = true ∨ (committed_tree 0 1).isNone = true)) ∧
    ∃ s' i, get_fx_devs 8 committed_tree initial_state = some s' ∧ i < 8 ∧
      s'.fx_devs = i + 1 ∧ both_handles committed_tree i ∧
      (∀ j, i < j → j < 8 → ¬ both_handles committed_tree j) ∧ 1 ≤ s'.fx_devs ∧
      ∀ j, j < 8 → s'.f0_dev j = committed_tree j 0 ∧ s'.f1_dev j = committed_tree j 1 :=
  ⟨(get_fx_devs_halts_iff 8 committed_tree initial_state (by decide)).1,
   (get_fx_devs_halts_iff 8 committed_tree initial_state (by decide)).2 (by decide)
     (by decide)⟩

/-! ## C20: the regions of a node that crosses the 4 GiB line -/

/-- The `ram_resource` calls of one iteration for an extent that starts at or below the
ceiling and below 4 GiB and ends above both. -/
theorem set_resources_region_crossing (m T i idx b l : Nat) (hm1 : 768 ≤ m)
    (hm2 : m ≤ 4194304) (hbm : b ≤ m) (hb4 : b < 4194304) (hml : m < l) (h4g : 4194304 < l)
    (hl : l < 2 ^ 38) :
    (640 ≤ b → b < m → (set_resources_region m T i idx b l).1
      = [⟨idx ||| i, b, m - b⟩,
         ⟨(idx + 0x10) ||| i, 4194304, sub64 (T / 1024) 4194304⟩]) ∧
    (640 ≤ b → b = m → (set_resources_region m T i idx b l).1
      = [⟨idx ||| i, 4194304, sub64 (T / 1024) 4194304⟩]) ∧
    (b < 640 → 768 < m → (set_resources_region m T i idx b l).1
      = [⟨idx ||| i, b, 640 - b⟩, ⟨(idx + 0x10) ||| i, 768, m - 768⟩,
         ⟨(idx + 0x10 + 0x10) ||| i, 4194304, sub64 (T / 1024) 4194304⟩]) ∧
    (b < 640 → m = 768 → (set_resources_region m T i idx b l).1
      = [⟨idx ||| i, b, 640 - b⟩,
         ⟨(idx + 0x10) ||| i, 4194304, sub64 (T / 1024) 4194304⟩]) := by
  simp only [set_resources_region, carve_vga_hole, split_pci_memory, split_below_mmio]
  have hs1 : sub64 l b = l - b := sub64_eq l b (by omega) (by omega)
  have hs2 : sub64 l 768 = l - 768 := sub64_eq l 768 (by omega) (by omega)
  refine ⟨?_, ?_, ?_, ?_⟩
  · intro h1 h2
    have e1 : sub64 (l - b) ((m - b) % 2 ^ 32) = l - m := by
      rw [Nat.mod_eq_of_lt (by omega), sub64_eq _ _ (by omega) (by omega)]; omega
    split_ifs <;> dsimp only at * <;>
      simp only [hs1, hs2, e1, Nat.mod_eq_of_lt (show m - b < 2 ^ 32 by omega)] at * <;>
      first | omega | rfl
  · intro h1 h2
    subst h2
    split_ifs <;> dsimp only at * <;>
      simp only [hs1, hs2, Nat.sub_self, Nat.zero_mod] at * <;>
      first | omega | rfl
  · intro h1 h2
    have e1 : sub64 (l - 768) ((m - 768) % 2 ^ 32) = l - m := by
      rw [Nat.mod_eq_of_lt (by omega), sub64_eq _ _ (by omega) (by omega)]; omega
    split_ifs <;> dsimp only at * <;>
      simp only [hs1, hs2, e1, Nat.mod_eq_of_lt (show m - 768 < 2 ^ 32 by omega)] at * <;>
      first | omega | rfl
  · intro h1 h2
    subst h2
    split_ifs <;> dsimp only at * <;>
      simp only [hs1, hs2, Nat.sub_self, Nat.zero_mod] at * <;>
      first | omega | rfl

/-- The node loop over `a + b` nodes is the loop over the first `a` nodes followed by
the loop over the remaining `b`, entered with the value of `idx` reached so far. -/
theorem set_resources_nodes_split (cfg : Nat → Nat) (m T : Nat) :
    ∀ a b i idx, ∃ idx', set_resources_nodes cfg m T (a + b) i idx
      = set_resources_nodes cfg m T a i idx ++ set_resources_nodes cfg m T b (i + a) idx' := by
  intro a
  induction a with
  | zero => intro b i idx; exact ⟨idx, by simp [set_resources_nodes]⟩
  | succ a ih =>
    intro b i idx
    obtain ⟨idx', h⟩ := ih b (i + 1)
      (set_resources_node m T i idx (get_dram_base_mask cfg i)).2
    refine ⟨idx', ?_⟩
    have e : a + 1 + b = (a + b) + 1 := by omega
    rw [e]
    simp only [set_resources_nodes, h, List.append_assoc]
    have e2 : i + 1 + a = i + (a + 1) := by omega
    rw [e2]

/-- C20, as the claim states it, fails in two ways.  The single enabled node [0, 6 GiB)
under a ceiling of 3 GiB satisfies the conditions, yet the part below the ceiling is
emitted as [0, 640 KiB) and [768 KiB, 3 GiB): no region [0, 3 GiB) is emitted.  And the
single enabled node [4 GiB, 6 GiB) under a ceiling of 4 GiB with `bsp_topmem2` at 8 GiB
satisfies the conditions, yet its only region has the size 2 GiB taken from the node's
limit, not `bsp_topmem2()/1024 - 4194304` = 4 GiB. -/
theorem crossing_node_counterexample :
    (get_dram_base_mask six_gib_cfg 0).mask &&& 1 ≠ 0 ∧
    node_basek (get_dram_base_mask six_gib_cfg 0) = 0 ∧
    node_limitk (get_dram_base_mask six_gib_cfg 0) = 6 * 1024 * 1024 ∧
    set_resources_nodes six_gib_cfg 3145728 (6 * 2 ^ 30) 1 0 0x10
      = [⟨0x10, 0, 640⟩, ⟨0x20, 768, 3145728 - 768⟩,
         ⟨0x30, 4 * 1024 * 1024, 2 * 1024 * 1024⟩] ∧
    (∀ r ∈ set_resources_nodes six_gib_cfg 3145728 (6 * 2 ^ 30) 1 0 0x10,
      ¬ (r.basek = 0 ∧ r.sizek = 3145728)) ∧
    (get_dram_base_mask high_node_cfg 0).mask &&& 1 ≠ 0 ∧
    node_basek (get_dram_base_mask high_node_cfg 0) = 4 * 1024 * 1024 ∧
    node_limitk (get_dram_base_mask high_node_cfg 0) = 6 * 1024 * 1024 ∧
    (8 * 2 ^ 30) / 1024 - 4194304 = 4 * 1024 * 1024 ∧
    set_resources_nodes high_node_cfg 4194304 (8 * 2 ^ 30) 1 0 0x10
      = [⟨0x10, 4 * 1024 * 1024, 2 * 1024 * 1024⟩] := by
  decide

/-- C20 (amended): for every enabled node `i` whose extent satisfies
basek <= ceiling < limitk, basek < 4 GiB and limitk > 4 GiB (768 KiB <= ceiling <= 4 GiB),
the calls of `domain_set_resources` are those of the nodes before `i`, then the regions
of node `i`, then those of the nodes after it, and the regions of node `i` are: below
the ceiling, [basek, 640 KiB) and (when the ceiling exceeds 768 KiB) [768 KiB, ceiling)
if basek < 640 KiB, else [basek, ceiling) if it is non-empty, else nothing; no region in
[ceiling, 4 GiB); and last a region whose base is 4194304 KiB and whose size is
`bsp_topmem2()/1024 - 4194304` in 64-bit unsigned arithmetic, whatever the node's limit. -/
theorem crossing_node_regions (cfg : Nat → Nat) (node_nums mmio_basek topmem2 i : Nat)
    (hi : i < node_nums)
    (hen : (get_dram_base_mask cfg i).mask &&& 1 ≠ 0)
    (hm1 : 768 ≤ mmio_basek) (hm2 : mmio_basek ≤ 4 * 1024 * 1024)
    (hbm : node_basek (get_dram_base_mask cfg i) ≤ mmio_basek)
    (hb4 : node_basek (get_dram_base_mask cfg i) < 4 * 1024 * 1024)
    (hml : mmio_basek < node_limitk (get_dram_base_mask cfg i))
    (h4g : 4 * 1024 * 1024 < node_limitk (get_dram_base_mask cfg i)) :
    ∃ idx idx' idx_last : Nat, ∃ below : List RamResource,
      set_resources_nodes cfg mmio_basek topmem2 node_nums 0 0x10
        = set_resources_nodes cfg mmio_basek topmem2 i 0 0x10
          ++ (below ++ [⟨idx_last ||| i, 4194304, sub64 (topmem2 / 1024) 4194304⟩])
          ++ set_resources_nodes cfg mmio_basek topmem2 (node_nums - i - 1) (i + 1) idx' ∧
      below.map (fun r => (r.index, r.basek, r.sizek))
        = (if node_basek (get_dram_base_mask cfg i) < 640 then
            (idx ||| i, node_basek (get_dram_base_mask cfg i),
              640 - node_basek (get_dram_base_mask cfg i)) ::
            (if 768 < mmio_basek then [((idx + 0x10) ||| i, 768, mmio_basek - 768)] else [])
          else if node_basek (get_dram_base_mask cfg i) < mmio_basek then
            [(idx ||| i, node_basek (get_dram_base_mask cfg i),
              mmio_basek - node_basek (get_dram_base_mask cfg i))]
          else []) ∧
      (4194304 ≤ topmem2 / 1024 → topmem2 < 2 ^ 64 →
        sub64 (topmem2 / 1024) 4194304 = topmem2 / 1024 - 4194304) := by
  obtain ⟨idx1, h1⟩ := set_resources_nodes_split cfg mmio_basek topmem2 i (node_nums - i) 0 0x10
  have e1 : i + (node_nums - i) = node_nums := by omega
  have e2 : node_nums - i = (node_nums - i - 1) + 1 := by omega
  rw [e1, e2] at h1
  simp only [set_resources_nodes, set_resources_node, if_neg hen, Nat.zero_add] at h1
  generalize hb : node_basek (get_dram_base_mask cfg i) = b at *
  have hl38 := node_limitk_lt (get_dram_base_mask cfg i)
  generalize hl : node_limitk (get_dram_base_mask cfg i) = l at *
  obtain ⟨c1, c2, c3, c4⟩ := set_resources_region_crossing mmio_basek topmem2 i idx1 b l hm1
    (by omega) hbm (by omega) hml (by omega) hl38
  have hsub : 4194304 ≤ topmem2 / 1024 → topmem2 < 2 ^ 64 →
      sub64 (topmem2 / 1024) 4194304 = topmem2 / 1024 - 4194304 := by
    intro ha hb
    exact sub64_eq _ _ ha (by omega)
  by_cases hb640 : b < 640
  · by_cases hm768 : 768 < mmio_basek
    · refine ⟨idx1, (set_resources_region mmio_basek topmem2 i idx1 b l).2, idx1 + 0x10 + 0x10,
        [⟨idx1 ||| i, b, 640 - b⟩, ⟨(idx1 + 0x10) ||| i, 768, mmio_basek - 768⟩], ?_, ?_, hsub⟩
      · rw [h1, c3 hb640 hm768]
        simp only [List.append_assoc, List.cons_append, List.nil_append]
      · simp [hb640, hm768]
    · have hm : mmio_basek = 768 := by omega
      refine ⟨idx1, (set_resources_region mmio_basek topmem2 i idx1 b l).2, idx1 + 0x10, [⟨idx1 ||| i, b, 640 - b⟩], ?_, ?_, hsub⟩
      · rw [h1, c4 hb640 hm]
        simp only [List.append_assoc, List.cons_append, List.nil_append]
      · simp [hb640, hm768]
  · by_cases hbm' : b < mmio_basek
    · refine ⟨idx1, (set_resources_region mmio_basek topmem2 i idx1 b l).2, idx1 + 0x10, [⟨idx1 ||| i, b, mmio_basek - b⟩], ?_, ?_, hsub⟩
      · rw [h1, c1 (by omega) hbm']
        simp only [List.append_assoc, List.cons_append, List.nil_append]
      · simp [hb640, hbm']
    · refine ⟨idx1, (set_resources_region mmio_basek topmem2 i idx1 b l).2, idx1, [], ?_, ?_, hsub⟩
      · rw [h1, c2 (by omega) (by omega)]
        simp only [List.append_assoc, List.cons_append, List.nil_append]
      · simp [hb640, hbm']

/-- Witness for C20 (amended): the node [0, 6 GiB) under a ceiling of 3 GiB. -/
theorem crossing_node_regions_witness :
    ∃ idx idx' idx_last : Nat, ∃ below : List RamResource,
      set_resources_nodes six_gib_cfg 3145728 (6 * 2 ^ 30) 1 0 0x10
        = set_resources_nodes six_gib_cfg 3145728 (6 * 2 ^ 30) 0 0 0x10
          ++ (below ++ [⟨idx_last ||| 0, 4194304, sub64 ((6 * 2 ^ 30) / 1024) 4194304⟩])
          ++ set_resources_nodes six_gib_cfg 3145728 (6 * 2 ^ 30) (1 - 0 - 1) (0 + 1) idx' ∧
      below.map (fun r => (r.index, r.basek, r.sizek))
        = (if node_basek (get_dram_base_mask six_gib_cfg 0) < 640 then
            (idx ||| 0, node_basek (get_dram_base_mask six_gib_cfg 0),
              640 - node_basek (get_dram_base_mask six_gib_cfg 0)) ::
            (if 768 < 3145728 then [((idx + 0x10) ||| 0, 768, 3145728 - 768)] else [])
          else if node_basek (get_dram_base_mask six_gib_cfg 0) < 3145728 then
            [(idx ||| 0, node_basek (get_dram_base_mask six_gib_cfg 0),
              3145728 - node_basek (get_dram_base_mask six_gib_cfg 0))]
          else []) ∧
      (4194304 ≤ (6 * 2 ^ 30) / 1024 → (6 * 2 ^ 30) < 2 ^ 64 →
        sub64 ((6 * 2 ^ 30) / 1024) 4194304 = (6 * 2 ^ 30) / 1024 - 4194304) :=
  crossing_node_regions six_gib_cfg 1 3145728 (6 * 2 ^ 30) 0 (by decide) (by decide)
    (by decide) (by decide) (by decide) (by decide) (by decide) (by decide)

/-! ## C17: `add_more_links` extends the link list -/

theorem last_link_nil (mem : Nat → Bus) (fuel : Nat) (last : Option Nat) :
    last_link mem fuel none last = some last := by
  cases fuel <;> rfl

theorem last_link_chain (mem : Nat → Bus) (x : Nat) :
    ∀ (pre : List Nat) (fuel : Nat) (p last : Option Nat),
      IsChain mem p (pre ++ [x]) → (pre ++ [x]).length ≤ fuel →
      last_link mem fuel p last = some (some x) := by
  intro pre
  induction pre with
  | nil =>
    intro fuel p last hc hf
    simp only [List.nil_append, IsChain] at hc
    obtain ⟨rfl, h2⟩ := hc
    cases fuel with
    | zero => simp at hf
    | succ f => simp only [last_link, h2, last_link_nil]
  | cons y pre ih =>
    intro fuel p last hc hf
    simp only [List.cons_append, IsChain] at hc
    obtain ⟨rfl, h2⟩ := hc
    cases fuel with
    | zero => simp at hf
    | succ f =>
      simp only [last_link]
      exact ih f _ _ h2 (by simpa using hf)

theorem chain_congr (mem mem1 : Nat → Bus) :
    ∀ (l : List Nat) (p : Option Nat), (∀ q ∈ l, (mem1 q).next = (mem q).next) →
      IsChain mem p l → IsChain mem1 p l := by
  intro l
  induction l with
  | nil => intro p _ h; exact h
  | cons a rest ih =>
    intro p hq h
    simp only [IsChain] at h ⊢
    refine ⟨h.1, ?_⟩
    rw [hq a (List.mem_cons_self _ _)]
    exact ih _ (fun q hq1 => hq q (List.mem_cons_of_mem _ hq1)) h.2

theorem chain_unique (mem : Nat → Bus) :
    ∀ (l1 l2 : List Nat) (p : Option Nat), IsChain mem p l1 → IsChain mem p l2 → l1 = l2 := by
  intro l1
  induction l1 with
  | nil =>
    intro l2 p h1 h2
    cases l2 with
    | nil => rfl
    | cons b r =>
      simp only [IsChain] at h1 h2
      rw [h1] at h2
      exact absurd h2.1 (by simp)
  | cons a rest ih =>
    intro l2 p h1 h2
    cases l2 with
    | nil =>
      simp only [IsChain] at h1 h2
      rw [h2] at h1
      exact absurd h1.1 (by simp)
    | cons b r =>
      simp only [IsChain] at h1 h2
      have hab : a = b := by
        have := h1.1.symm.trans h2.1
        exact Option.some.inj this
      subst hab
      rw [ih r _ h1.2 h2.2]

theorem chain_tail (mem : Nat → Bus) (a : Nat) :
    ∀ (l : List Nat) (p : Option Nat), IsChain mem p l → a ∈ l →
      ∃ post, post.length < l.length ∧ IsChain mem (mem a).next post := by
  intro l
  induction l with
  | nil => intro p _ h; exact absurd h (List.not_mem_nil a)
  | cons b rest ih =>
    intro p hc ha
    simp only [IsChain] at hc
    rcases List.mem_cons.mp ha with h | h
    · subst h
      exact ⟨rest, by simp, hc.2⟩
    · obtain ⟨post, h1, h2⟩ := ih _ hc.2 h
      exact ⟨post, by simp only [List.length_cons]; omega, h2⟩

theorem chain_nodup (mem : Nat → Bus) :
    ∀ (l : List Nat) (p : Option Nat), IsChain mem p l → l.Nodup := by
  intro l
  induction l with
  | nil => intro p _; exact List.nodup_nil
  | cons a rest ih =>
    intro p hc
    simp only [IsChain] at hc
    rw [List.nodup_cons]
    refine ⟨?_, ih _ hc.2⟩
    intro ha
    obtain ⟨post, h1, h2⟩ := chain_tail mem a rest _ hc.2 ha
    have := chain_unique mem _ _ _ h2 hc.2
    rw [this] at h1
    exact absurd h1 (lt_irrefl _)

theorem chain_snoc_append (mem mem1 : Nat → Bus) (x : Nat) (rest : List Nat) :
    ∀ (pre : List Nat) (p : Option Nat), IsChain mem p (pre ++ [x]) →
      (∀ q ∈ pre, (mem1 q).next = (mem q).next) →
      IsChain mem1 (mem1 x).next rest → IsChain mem1 p (pre ++ x :: rest) := by
  intro pre
  induction pre with
  | nil =>
    intro p hc _ hr
    simp only [List.nil_append, IsChain] at hc ⊢
    exact ⟨hc.1, hr⟩
  | cons y pre ih =>
    intro p hc hq hr
    simp only [List.cons_append, IsChain] at hc ⊢
    refine ⟨hc.1, ?_⟩
    rw [hq y (List.mem_cons_self _ _)]
    exact ih _ hc.2 (fun q hq1 => hq q (List.mem_cons_of_mem _ hq1)) hr

theorem chain_range (mem : Nat → Bus) :
    ∀ (k a : Nat), (∀ q, a ≤ q → q < a + k →
        (mem q).next = if q + 1 < a + k then some (q + 1) else none) →
      IsChain mem (if 0 < k then some a else none) (List.range' a k) := by
  intro k
  induction k with
  | zero => intro a _; simp [IsChain]
  | succ k ih =>
    intro a h
    simp only [List.range', IsChain, Nat.succ_pos, if_true, true_and]
    have h0 := h a (le_refl _) (by omega)
    rw [h0]
    have := ih (a + 1) (fun q h1 h2 => by
      rw [h q (by omega) (by omega)]
      have e : a + 1 + k = a + (k + 1) := by omega
      rw [e])
    have e : (a + 1 < a + (k + 1)) = (0 < k) := by
      apply propext; constructor <;> intro h <;> omega
    simp only [e]
    exact this

theorem fill_links_spec (w dev : Nat) :
    ∀ (k s a : Nat) (last : Option Nat) (mem : Nat → Bus),
      fill_links w dev k s (some a) last mem
        = some (if 0 < k then some (a + k - 1) else last,
            fun q => if a ≤ q ∧ q < a + k then
              { mem q with link_num := (s + (q - a)) % 2 ^ w, dev := some dev
                           next := some (q + 1) }
            else mem q) := by
  intro k
  induction k with
  | zero =>
    intro s a last mem
    simp only [fill_links, lt_irrefl, if_false, Nat.add_zero]
    congr 2
    funext q
    rw [if_neg (by omega)]
  | succ k ih =>
    intro s a last mem
    simp only [fill_links, ih, Nat.succ_pos, if_true]
    congr 2
    · split_ifs <;> congr 1 <;> omega
    · funext q
      simp only [store]
      by_cases h1 : q = a
      · subst h1
        simp
      · have e : (a ≤ q ∧ q < a + (k + 1)) ↔ (a + 1 ≤ q ∧ q < a + 1 + k) := by omega
        simp only [e, h1, if_false]
        split_ifs
        · have e1 : s + 1 + (q - (a + 1)) = s + (q - a) := by omega
          rw [e1]
        · rfl

theorem chain_last_next (mem : Nat → Bus) (x : Nat) :
    ∀ (pre : List Nat) (p : Option Nat), IsChain mem p (pre ++ [x]) → (mem x).next = none := by
  intro pre
  induction pre with
  | nil => intro p h; simp only [List.nil_append, IsChain] at h; exact h.2
  | cons y pre ih => intro p h; simp only [List.cons_append, IsChain] at h; exact ih _ h.2

/-- The outcome for a device without links when the allocation succeeds. -/
theorem add_more_links_empty (w fuel a dev total_links : Nat) (h : LinkHeap)
    (hl : h.link_list = none) (htot1 : 1 ≤ total_links) :
    add_more_links w fuel (some a) dev total_links h
      = .done ⟨some a, fun q => if a ≤ q ∧ q < a + total_links then
          ⟨(q - a) % 2 ^ w, some dev, none,
            if q + 1 < a + total_links then some (q + 1) else none⟩
        else h.mem q⟩ := by
  simp only [add_more_links, hl, last_link_nil, finish_links, fill_links_spec, Nat.sub_zero,
    if_pos (show 0 < total_links by omega)]
  congr 2
  funext q
  simp only [store, memset_links, zero_bus, Nat.zero_add]
  by_cases h2 : a ≤ q ∧ q < a + total_links
  · by_cases h1 : q + 1 < a + total_links
    · rw [if_neg (show ¬ q = a + total_links - 1 by omega)]
      simp only [h1, h2, if_true, and_self]
    · rw [if_pos (show q = a + total_links - 1 by omega)]
      have h3 : a ≤ a + total_links - 1 ∧ a + total_links - 1 < a + total_links := by omega
      have e : a + total_links - 1 - a = q - a := by omega
      simp only [h1, h2, h3, if_true, if_false, and_self, e]
  · rw [if_neg (show ¬ q = a + total_links - 1 by omega)]
    simp only [h2, if_false]

/-- The outcome for a device whose last link number is `total_links` or more. -/
theorem add_more_links_keep (w fuel dev total_links x : Nat) (malloc_result : Option Nat)
    (h : LinkHeap) (hlast : last_link h.mem fuel h.link_list none = some (some x))
    (hm : total_links ≤ (h.mem x).link_num) (hm31 : (h.mem x).link_num < 2 ^ 31) :
    add_more_links w fuel malloc_result dev total_links h
      = .done ⟨h.link_list, store h.mem x { h.mem x with next := none }⟩ := by
  have e1 : (h.mem x).link_num % 2 ^ 32 = (h.mem x).link_num := Nat.mod_eq_of_lt (by omega)
  have e2 : ¬ (0 < (total_links + 2 ^ 32 - (h.mem x).link_num) % 2 ^ 32 ∧
      (total_links + 2 ^ 32 - (h.mem x).link_num) % 2 ^ 32 < 2 ^ 31) := by
    omega
  have e3 : total_links - ((h.mem x).link_num + 1) = 0 := by omega
  simp only [add_more_links, hlast, e1, e2, if_false, finish_links, e3, fill_links]

/-- The outcome for a device whose last link number is below `total_links` when the
allocation succeeds at a block that does not hold the last link. -/
theorem add_more_links_grow (w fuel dev total_links x a : Nat) (h : LinkHeap)
    (hlast : last_link h.mem fuel h.link_list none = some (some x))
    (hm : (h.mem x).link_num < total_links) (htot : total_links < 2 ^ 31)
    (hx : x < a ∨ a + (total_links - (h.mem x).link_num) ≤ x) :
    add_more_links w fuel (some a) dev total_links h
      = .done ⟨h.link_list, fun q =>
          if q = x then
            { h.mem x with
              next := if (h.mem x).link_num + 1 < total_links then some a else none }
          else if a ≤ q ∧ q < a + (total_links - ((h.mem x).link_num + 1)) then
            ⟨((h.mem x).link_num + 1 + (q - a)) % 2 ^ w, some dev, none,
              if q + 1 < a + (total_links - ((h.mem x).link_num + 1)) then some (q + 1)
              else none⟩
          else if q = a + (total_links - ((h.mem x).link_num + 1)) then zero_bus
          else h.mem q⟩ := by
  generalize hmm : (h.mem x).link_num = m at *
  have e1 : m % 2 ^ 32 = m := Nat.mod_eq_of_lt (by omega)
  have e2 : (total_links + 2 ^ 32 - m) % 2 ^ 32 = total_links - m := by omega
  have e3 : 0 < total_links - m ∧ total_links - m < 2 ^ 31 := by omega
  simp only [add_more_links, hlast, hmm, e1, e2, e3, and_self, if_true, finish_links,
    fill_links_spec]
  by_cases hk : 0 < total_links - (m + 1)
  · simp only [hk, if_true]
    congr 2
    funext q
    by_cases h1 : q = x
    · simp (disch := omega) only [store, memset_links, zero_bus, if_pos, if_neg, h1]
      simp only [if_true, hmm]
    · by_cases h2 : a ≤ q ∧ q < a + (total_links - (m + 1))
      · by_cases h3 : q + 1 < a + (total_links - (m + 1))
        · simp (disch := omega) only [store, memset_links, zero_bus, if_pos, if_neg]
        · simp (disch := omega) only [store, memset_links, zero_bus, if_pos, if_neg]
          have e4 : a + (total_links - (m + 1)) - 1 - a = q - a := by omega
          rw [e4]
      · by_cases h3 : q = a + (total_links - (m + 1))
        · simp (disch := omega) only [store, memset_links, zero_bus, if_pos, if_neg]
        · simp (disch := omega) only [store, memset_links, zero_bus, if_pos, if_neg]
  · simp only [hk, if_false]
    congr 2
    funext q
    by_cases h1 : q = x
    · simp (disch := omega) only [store, memset_links, zero_bus, if_pos, if_neg, h1]
      simp only [if_true, hmm]
    · by_cases h3 : q = a + (total_links - (m + 1))
      · simp (disch := omega) only [store, memset_links, zero_bus, if_pos, if_neg]
      · simp (disch := omega) only [store, memset_links, zero_bus, if_pos, if_neg]

theorem getD_range (a k j : Nat) (hj : j < k) : (List.range' a k).getD j 0 = a + j := by
  simp [List.getD_eq_getElem?_getD, List.getElem?_range', hj]

theorem getD_append_left (l1 l2 : List Nat) (j : Nat) (hj : j < l1.length) :
    (l1 ++ l2).getD j 0 = l1.getD j 0 := by
  simp [List.getD_eq_getElem?_getD, List.getElem?_append_left hj]

theorem getD_append_right (l1 l2 : List Nat) (j : Nat) (hj : l1.length ≤ j) :
    (l1 ++ l2).getD j 0 = l2.getD (j - l1.length) 0 := by
  simp [List.getD_eq_getElem?_getD, List.getElem?_append_right hj]

theorem mem_getD (l : List Nat) (j : Nat) (hj : j < l.length) : l.getD j 0 ∈ l := by
  rw [List.getD_eq_getElem l 0 hj]
  exact List.getElem_mem hj

/-- C17: for every device whose link list `addrs` holds the link numbers 0..n-1 in
order (n >= 0) and every `total_links` >= 1 (below 2^31, with n at most 2^31: the range
of the `int` counters of the function; and at most 2^`LINK_NUM_BITS`, so that the
`link_num` field holds the numbers), when the allocation, if one is made, succeeds at
a block that holds none of the existing links, `add_more_links` returns with a
null-terminated list `addrs ++ new` of max(n, total) entries whose first n entries are
the original cells in their order with `link_num`, `dev` and `children` unchanged, the
entry at position k has `link_num` k, every appended entry has `dev` set to the device
and no children; and when n >= total nothing is appended and no original cell
changes. -/
theorem add_more_links_extends (LINK_NUM_BITS fuel : Nat) (malloc_result : Option Nat)
    (dev total_links : Nat) (h : LinkHeap) (addrs : List Nat)
    (hchain : IsChain h.mem h.link_list addrs)
    (hnum : ∀ k, k < addrs.length → (h.mem (addrs.getD k 0)).link_num = k)
    (hfuel : addrs.length ≤ fuel) (hlen : addrs.length ≤ 2 ^ 31)
    (htot1 : 1 ≤ total_links) (htot : total_links < 2 ^ 31)
    (hbits : total_links ≤ 2 ^ LINK_NUM_BITS)
    (hok : addrs.length ≤ total_links → malloc_result ≠ none)
    (hfresh : ∀ a, malloc_result = some a → ∀ p ∈ addrs,
      p < a ∨ a + (total_links + 1 - addrs.length) ≤ p) :
    ∃ (h1 : LinkHeap) (new : List Nat),
      add_more_links LINK_NUM_BITS fuel malloc_result dev total_links h = .done h1 ∧
      IsChain h1.mem h1.link_list (addrs ++ new) ∧
      (addrs ++ new).length = max addrs.length total_links ∧
      (∀ k, k < (addrs ++ new).length → (h1.mem ((addrs ++ new).getD k 0)).link_num = k) ∧
      (∀ p ∈ addrs, (h1.mem p).link_num = (h.mem p).link_num ∧
        (h1.mem p).dev = (h.mem p).dev ∧ (h1.mem p).children = (h.mem p).children) ∧
      (∀ p ∈ new, (h1.mem p).dev = some dev ∧ (h1.mem p).children = none) ∧
      (total_links ≤ addrs.length →
        new = [] ∧ h1.link_list = h.link_list ∧ ∀ p ∈ addrs, h1.mem p = h.mem p) := by
  rcases List.eq_nil_or_concat addrs with rfl | ⟨pre, x, hpx⟩
  · -- the device has no links
    simp only [IsChain] at hchain
    obtain ⟨a, ha⟩ := Option.ne_none_iff_exists'.mp (hok (Nat.zero_le _))
    subst ha
    refine ⟨_, List.range' a total_links, add_more_links_empty LINK_NUM_BITS fuel a dev
      total_links h hchain htot1, ?_, ?_, ?_, ?_, ?_, ?_⟩
    · have hc := chain_range (fun q => if a ≤ q ∧ q < a + total_links then
          (⟨(q - a) % 2 ^ LINK_NUM_BITS, some dev, none,
            if q + 1 < a + total_links then some (q + 1) else none⟩ : Bus)
        else h.mem q) total_links a (fun q h1 h2 => by
          simp only [h1, h2, and_self, if_true])
      rw [if_pos (by omega)] at hc
      exact hc
    · simp
    · intro k hk
      simp only [List.nil_append, List.length_range'] at hk ⊢
      rw [getD_range a total_links k hk]
      rw [if_pos (by omega)]
      simp only [Nat.add_sub_cancel_left]
      exact Nat.mod_eq_of_lt (by omega)
    · intro p hp
      exact absurd hp (List.not_mem_nil p)
    · intro p hp
      rw [List.mem_range'_1] at hp
      simp only [hp, and_self, if_true]
    · intro hle
      simp at hle
      omega
  · -- the device has links, the last one is `x`
    rw [List.concat_eq_append] at hpx
    subst hpx
    have hnd := chain_nodup h.mem _ _ hchain
    have hxpre : x ∉ pre := by
      intro hx
      rw [List.nodup_append] at hnd
      exact hnd.2.2 hx (List.mem_singleton_self x) 
    have hxnum : (h.mem x).link_num = pre.length := by
      have := hnum pre.length (by simp)
      rw [getD_append_right pre [x] pre.length (le_refl _)] at this
      simpa using this
    have hlast := last_link_chain h.mem x pre fuel h.link_list none hchain hfuel
    have hxnext := chain_last_next h.mem x pre _ hchain
    simp only [List.length_append, List.length_singleton] at hlen hok hfresh hfuel
    by_cases hcase : total_links ≤ pre.length
    · -- more links than asked for
      have hmem : ∀ q, store h.mem x { h.mem x with next := none } q = h.mem q := by
        intro q
        simp only [store]
        split_ifs with hq
        · subst hq
          rw [← hxnext]
        · rfl
      refine ⟨_, [], add_more_links_keep LINK_NUM_BITS fuel dev total_links x malloc_result h hlast
        (by omega) (by omega), ?_, ?_, ?_, ?_, ?_, ?_⟩
      · rw [List.append_nil]
        exact chain_congr h.mem _ _ _ (fun q _ => by dsimp only; rw [hmem q]) hchain
      · simp only [List.append_nil, List.length_append, List.length_singleton]
        omega
      · intro k hk
        simp only [List.append_nil] at hk ⊢
        rw [hmem]
        exact hnum k hk
      · intro p _
        simp only [hmem, and_self]
      · intro p hp
        exact absurd hp (List.not_mem_nil p)
      · intro _
        exact ⟨rfl, rfl, fun p _ => hmem p⟩
    · -- room for more links
      obtain ⟨a, ha⟩ := Option.ne_none_iff_exists'.mp (hok (by omega))
      subst ha
      have hfr : ∀ p ∈ pre ++ [x], p < a ∨ a + (total_links - pre.length) ≤ p := by
        intro p hp
        have := hfresh a rfl p hp
        omega
      have hxfr := hfr x (by simp)
      have hgrow := add_more_links_grow LINK_NUM_BITS fuel dev total_links x a h hlast
        (by omega) htot
        (by omega)
      rw [hxnum] at hgrow
      generalize hmf : (fun q =>
          if q = x then
            ({ h.mem x with
              next := if pre.length + 1 < total_links then some a else none } : Bus)
          else if a ≤ q ∧ q < a + (total_links - (pre.length + 1)) then
            ⟨(pre.length + 1 + (q - a)) % 2 ^ LINK_NUM_BITS, some dev, none,
              if q + 1 < a + (total_links - (pre.length + 1)) then some (q + 1)
              else none⟩
          else if q = a + (total_links - (pre.length + 1)) then zero_bus
          else h.mem q) = memf at hgrow
      have hfx : memf x = { h.mem x with
          next := if pre.length + 1 < total_links then some a else none } := by
        rw [← hmf]
        simp only [if_true]
      have hfold : ∀ p ∈ pre, memf p = h.mem p := by
        intro p hp
        have h1 : p ≠ x := fun e => hxpre (e ▸ hp)
        have h2 := hfr p (List.mem_append_left _ hp)
        rw [← hmf]
        simp (disch := omega) only [h1, if_false, if_neg]
      have hfnew : ∀ q, a ≤ q → q < a + (total_links - (pre.length + 1)) →
          memf q = ⟨(pre.length + 1 + (q - a)) % 2 ^ LINK_NUM_BITS, some dev, none,
            if q + 1 < a + (total_links - (pre.length + 1)) then some (q + 1) else none⟩ := by
        intro q h1 h2
        rw [← hmf]
        simp (disch := omega) only [if_pos, if_neg]
      refine ⟨_, List.range' a (total_links - (pre.length + 1)), hgrow, ?_, ?_, ?_, ?_, ?_, ?_⟩
      · rw [List.append_assoc, List.singleton_append]
        refine chain_snoc_append h.mem memf x _ pre _ hchain
          (fun q hq => by rw [hfold q hq]) ?_
        have hc := chain_range memf (total_links - (pre.length + 1)) a (fun q h1 h2 => by
          rw [hfnew q h1 h2])
        rw [hfx]
        have e : (pre.length + 1 < total_links) = (0 < total_links - (pre.length + 1)) := by
          apply propext; constructor <;> intro h <;> omega
        simp only [e]
        exact hc
      · simp only [List.length_append, List.length_singleton, List.length_range']
        omega
      · intro k hk
        simp only [List.length_append, List.length_singleton, List.length_range'] at hk
        dsimp only
        by_cases hk1 : k < pre.length
        · rw [getD_append_left _ _ k (by simp; omega)]
          have hin : (pre ++ [x]).getD k 0 ∈ pre := by
            rw [getD_append_left pre [x] k hk1]
            exact mem_getD pre k hk1
          rw [hfold _ hin]
          exact hnum k (by simp; omega)
        · by_cases hk2 : k = pre.length
          · rw [getD_append_left _ _ k (by simp; omega),
              getD_append_right pre [x] k (by omega)]
            subst hk2
            simp only [Nat.sub_self, List.getD_cons_zero]
            rw [hfx]
            exact hxnum
          · rw [getD_append_right _ _ k (by simp; omega)]
            simp only [List.length_append, List.length_singleton]
            rw [getD_range _ _ _ (by omega), hfnew _ (by omega) (by omega)]
            dsimp only
            rw [Nat.mod_eq_of_lt (by omega)]
            omega
      · intro p hp
        dsimp only
        rcases List.mem_append.mp hp with h1 | h1
        · rw [hfold p h1]
          exact ⟨rfl, rfl, rfl⟩
        · rw [List.mem_singleton] at h1
          subst h1
          rw [hfx]
          exact ⟨rfl, rfl, rfl⟩
      · intro p hp
        rw [List.mem_range'_1] at hp
        dsimp only
        rw [hfnew p hp.1 hp.2]
        exact ⟨rfl, rfl⟩
      · intro hle
        simp only [List.length_append, List.length_singleton] at hle
        have e : total_links - (pre.length + 1) = 0 := by omega
        refine ⟨by rw [e]; rfl, rfl, ?_⟩
        intro p hp
        dsimp only
        rcases List.mem_append.mp hp with h1 | h1
        · exact hfold p h1
        · rw [List.mem_singleton] at h1
          subst h1
          rw [hfx, if_neg (by omega), ← hxnext]

/-- Witness for C17: a device with one link, extended to four links. -/
theorem add_more_links_extends_witness :
    ∃ (h1 : LinkHeap) (new : List Nat),
      add_more_links 8 1 (some 20) 7 4 one_link_heap = .done h1 ∧
      IsChain h1.mem h1.link_list ([10] ++ new) ∧
      ([10] ++ new).length = max [10].length 4 ∧
      (∀ k, k < ([10] ++ new).length → (h1.mem (([10] ++ new).getD k 0)).link_num = k) ∧
      (∀ p ∈ [10], (h1.mem p).link_num = (one_link_heap.mem p).link_num ∧
        (h1.mem p).dev = (one_link_heap.mem p).dev ∧
        (h1.mem p).children = (one_link_heap.mem p).children) ∧
      (∀ p ∈ new, (h1.mem p).dev = some 7 ∧ (h1.mem p).children = none) ∧
      (4 ≤ [10].length →
        new = [] ∧ h1.link_list = one_link_heap.link_list ∧
          ∀ p ∈ [10], h1.mem p = one_link_heap.mem p) :=
  add_more_links_extends 8 1 (some 20) 7 4 one_link_heap [10] (by decide)
    (fun k hk => by
      have e : k = 0 := by simpa using hk
      subst e
      rfl)
    (by decide) (by decide) (by decide) (by decide) (by decide) (fun _ => by decide)
    (fun a ha p hp => by
      cases ha
      rw [List.mem_singleton] at hp
      subst hp
      decide)

/-! ## C18: a failed allocation -/

/-- C18 fails for a device without links: with a null result of `malloc` and an empty
link list, for every `total_links`, `add_more_links` does not reach `die` but writes
through the null pointer (`memset`, or `last->next = NULL` when `total_links` is 0).
With a device that has a link, the same failed allocation does end in `die`. -/
theorem add_more_links_null_write :
    (∀ (LINK_NUM_BITS fuel dev total_links : Nat) (mem : Nat → Bus),
      add_more_links LINK_NUM_BITS fuel none dev total_links ⟨none, mem⟩ = .null_access) ∧
    add_more_links 8 1 none 7 4 one_link_heap = .die := by
  refine ⟨fun LINK_NUM_BITS fuel dev total_links mem => ?_, rfl⟩
  simp only [add_more_links, last_link_nil]

/-! ## C21: the low-memory ceiling -/

theorem land_round_64m (x : Nat) (hx : x < 2 ^ 32) : x &&& 0xffff0000 = x / 65536 * 65536 := by
  have e : x / 65536 * 65536 = (x >>> 16) <<< 16 := by
    rw [Nat.shiftLeft_eq, Nat.shiftRight_eq_div_pow]
  rw [e]
  apply Nat.eq_of_testBit_eq
  intro i
  rw [Nat.testBit_and, Nat.testBit_shiftLeft, Nat.testBit_shiftRight]
  by_cases h16 : 16 ≤ i
  · have e2 : 16 + (i - 16) = i := by omega
    rw [e2]
    by_cases h32 : i < 32
    · have hb : Nat.testBit 0xffff0000 i = true := by
        interval_cases i <;> decide
      simp [h16, hb]
    · have hz : Nat.testBit x i = false :=
        Nat.testBit_lt_two_pow (lt_of_lt_of_le hx (Nat.pow_le_pow_right (by decide) (by omega)))
      simp [hz]
  · have hb : Nat.testBit 0xffff0000 i = false := by
      interval_cases i <;> decide
    simp [h16, hb]

/-- C21: for every 32-bit `pci_tolm` and every hole descriptor, the ceiling
`mmio_basek` of `domain_set_resources` is `R`, the value `pci_tolm >> 10` rounded down
to a multiple of 65536 KiB, when no hole is reported (no descriptor, or `node_id` -1),
and `min(R, hole_startk)` when one is; `R` is a multiple of 65536 within 65536 below
`pci_tolm >> 10`, and dropping the intermediate mask (multiples of 64 KiB) leaves the
result as it is. -/
theorem compute_mmio_basek_value (pci_tolm : Nat) (hp : pci_tolm < 2 ^ 32)
    (mem_hole : Option HwMemHoleInfo) :
    compute_mmio_basek pci_tolm mem_hole = mmio_basek_spec pci_tolm mem_hole ∧
    65536 ∣ (pci_tolm >>> 10) / 65536 * 65536 ∧
    (pci_tolm >>> 10) / 65536 * 65536 ≤ pci_tolm >>> 10 ∧
    pci_tolm >>> 10 < (pci_tolm >>> 10) / 65536 * 65536 + 65536 ∧
    ((pci_tolm >>> 10) &&& 0xffffffc0) &&& 0xffff0000 = (pci_tolm >>> 10) &&& 0xffff0000 := by
  have hx : pci_tolm >>> 10 < 2 ^ 32 := by
    rw [Nat.shiftRight_eq_div_pow]
    exact lt_of_le_of_lt (Nat.div_le_self _ _) hp
  have e1 : ((pci_tolm >>> 10) &&& 0xffffffc0) &&& 0xffff0000 = (pci_tolm >>> 10) &&& 0xffff0000 := by
    rw [Nat.and_assoc]
    rfl
  have e2 := land_round_64m _ hx
  refine ⟨?_, Nat.dvd_mul_left _ _, Nat.div_mul_le_self _ _, ?_, e1⟩
  · unfold compute_mmio_basek mmio_basek_spec
    simp only [e1, e2]
    cases mem_hole with
    | none => rfl
    | some h =>
      simp only
      split_ifs with h1 h2 h3
      · rw [Nat.min_def, if_neg (by omega)]
      · exact absurd h1.1 h2
      · rw [Nat.min_def, if_pos (by omega)]
      · rfl
  · have := Nat.lt_div_mul_add (a := pci_tolm >>> 10) (b := 65536) (by decide)
    exact this

/-- Witness for C21: `pci_tolm` 0xE0000000 and a hole reported at 3 GiB. -/
theorem compute_mmio_basek_value_witness :
    compute_mmio_basek 0xe0000000 (some ⟨0x300000, 0⟩)
      = mmio_basek_spec 0xe0000000 (some ⟨0x300000, 0⟩) ∧
    65536 ∣ (0xe0000000 >>> 10) / 65536 * 65536 ∧
    (0xe0000000 >>> 10) / 65536 * 65536 ≤ 0xe0000000 >>> 10 ∧
    0xe0000000 >>> 10 < (0xe0000000 >>> 10) / 65536 * 65536 + 65536 ∧
    ((0xe0000000 >>> 10) &&& 0xffffffc0) &&& 0xffff0000 = (0xe0000000 >>> 10) &&& 0xffff0000 :=
  compute_mmio_basek_value 0xe0000000 (by decide) (some ⟨0x300000, 0⟩)

/-! ## C29: the previous sleep state -/

theorem land_lor_eq_zero (a p q : Nat) :
    a &&& (p ||| q) = 0 ↔ a &&& p = 0 ∧ a &&& q = 0 := by
  rw [Nat.and_or_distrib_left]
  constructor
  · exact lor_eq_zero _ _
  · rintro ⟨h1, h2⟩
    rw [h1, h2]
    rfl

/-- C29: for every value of `gen_pmcon_a`, every input `prev_sleep_state` and every
value of the register `S3_PWRGATE_POL` (whatever the header constants are),
`soc_prev_sleep_state` returns `ACPI_S5` if `gen_pmcon_a` has `PWR_FLR` or `SUS_PWR_FLR`
set and the input otherwise; so two values of `S3_PWRGATE_POL`, deep S3 enabled or not,
give the same result. -/
theorem soc_prev_sleep_state_spec (c : PmcConsts) (s3_pwrgate_pol s3_pwrgate_pol2 gen_pmcon_a : Nat)
    (prev_sleep_state : Int) :
    soc_prev_sleep_state c s3_pwrgate_pol gen_pmcon_a prev_sleep_state
      = prev_sleep_state_spec c gen_pmcon_a prev_sleep_state ∧
    soc_prev_sleep_state c s3_pwrgate_pol gen_pmcon_a prev_sleep_state
      = soc_prev_sleep_state c s3_pwrgate_pol2 gen_pmcon_a prev_sleep_state := by
  have key : ∀ pol, soc_prev_sleep_state c pol gen_pmcon_a prev_sleep_state
      = prev_sleep_state_spec c gen_pmcon_a prev_sleep_state := by
    intro pol
    unfold soc_prev_sleep_state prev_sleep_state_spec
    by_cases h : gen_pmcon_a &&& (c.PWR_FLR ||| c.SUS_PWR_FLR) = 0
    · obtain ⟨h1, h2⟩ := (land_lor_eq_zero _ _ _).mp h
      simp only [h, h1, h2, ne_eq, not_true_eq_false, if_false, or_self, ite_self,
        apply_ite (fun m => gen_pmcon_a &&& m)]
    · have h3 : gen_pmcon_a &&& c.PWR_FLR ≠ 0 ∨ gen_pmcon_a &&& c.SUS_PWR_FLR ≠ 0 := by
        by_contra hc
        push_neg at hc
        exact h ((land_lor_eq_zero _ _ _).mpr hc)
      simp only [ne_eq, h, not_false_eq_true, if_true, h3, ite_self]
  exact ⟨key _, (key _).trans (key _).symm⟩

/-! ## C30: `map_oprom_vendev` -/

/-- C30: for every `vendev`, `map_oprom_vendev` returns 0x10021304 when
0x10021300 <= vendev <= 0x1002131F and vendev != 0x10021308, and `vendev` itself in
every other case; applying it twice gives the same as applying it once. -/
theorem map_oprom_vendev_spec (vendev : Nat) :
    map_oprom_vendev vendev
      = (if 0x10021300 ≤ vendev ∧ vendev ≤ 0x1002131F ∧ vendev ≠ 0x10021308 then 0x10021304
         else vendev) ∧
    map_oprom_vendev 0x10021308 = 0x10021308 ∧
    map_oprom_vendev (map_oprom_vendev vendev) = map_oprom_vendev vendev := by
  refine ⟨?_, by decide, ?_⟩
  · unfold map_oprom_vendev
    split_ifs <;> first | rfl | omega
  · unfold map_oprom_vendev
    split_ifs <;> rfl

/-! ## C27: the low bits of the decoded DRAM base and mask -/

/-- Masking a value below `2^w` with a constant whose bits below `w` are exactly those
from `k` upwards rounds the value down to a multiple of `2^k`. -/
theorem land_high_mask (M k w x : Nat) (hM : ∀ i, i < w → M.testBit i = decide (k ≤ i))
    (hx : x < 2 ^ w) : x &&& M = x / 2 ^ k * 2 ^ k := by
  have e : x / 2 ^ k * 2 ^ k = (x >>> k) <<< k := by
    rw [Nat.shiftLeft_eq, Nat.shiftRight_eq_div_pow]
  rw [e]
  apply Nat.eq_of_testBit_eq
  intro i
  rw [Nat.testBit_and, Nat.testBit_shiftLeft, Nat.testBit_shiftRight]
  by_cases hw : i < w
  · rw [hM i hw]
    by_cases hk : k ≤ i
    · have e2 : k + (i - k) = i := by omega
      simp [hk, e2]
    · simp [hk]
  · have hz : Nat.testBit x i = false :=
      Nat.testBit_lt_two_pow (lt_of_lt_of_le hx (Nat.pow_le_pow_right (by decide) (by omega)))
    by_cases hk : k ≤ i
    · have e2 : k + (i - k) = i := by omega
      simp [hz, e2]
    · simp [hk, hz]

theorem dram_mask_lt (cfg : Nat → Nat) (nodeid : Nat) :
    (get_dram_base_mask cfg nodeid).mask < 2 ^ 29 := by
  simp only [get_dram_base_mask]
  have h1 : (cfg (0x44 + (nodeid <<< 3)) &&& 0xfff80000) >>> (8 + 3) < 2 ^ 29 := by
    have : cfg (0x44 + (nodeid <<< 3)) &&& 0xfff80000 ≤ 0xfff80000 := Nat.and_le_right
    rw [Nat.shiftRight_eq_div_pow]
    omega
  have h2 : (cfg (0x144 + (nodeid <<< 3)) &&& 0xff) <<< 21 < 2 ^ 29 := by
    have : cfg (0x144 + (nodeid <<< 3)) &&& 0xff ≤ 0xff := Nat.and_le_right
    rw [Nat.shiftLeft_eq]
    omega
  have h3 : cfg (0x40 + (nodeid <<< 3)) &&& 1 < 2 ^ 29 := by
    have : cfg (0x40 + (nodeid <<< 3)) &&& 1 ≤ 1 := Nat.and_le_right
    omega
  exact Nat.or_lt_two_pow (Nat.or_lt_two_pow h1 h2) h3

theorem testBit_fff80000 (j : Nat) (hj : j < 19) : Nat.testBit 0xfff80000 j = false := by
  interval_cases j <;> decide

theorem testBit_one_succ (j : Nat) (hj : 1 ≤ j) : Nat.testBit 1 j = false :=
  Nat.testBit_lt_two_pow (Nat.one_lt_two_pow (by omega))

theorem dram_mask_low_byte (cfg : Nat → Nat) (nodeid : Nat) :
    (get_dram_base_mask cfg nodeid).mask &&& 0xff = cfg (0x40 + (nodeid <<< 3)) &&& 1 := by
  apply Nat.eq_of_testBit_eq
  intro i
  simp only [get_dram_base_mask, Nat.testBit_and, Nat.testBit_or, Nat.testBit_shiftRight,
    Nat.testBit_shiftLeft]
  by_cases h8 : i < 8
  · have hc := testBit_fff80000 (8 + 3 + i) (by omega)
    have h21 : ¬ i ≥ 21 := by omega
    have hff : Nat.testBit 0xff i = true := by interval_cases i <;> decide
    simp only [hc, h21, hff, decide_False, Bool.and_false, Bool.false_and, Bool.or_false,
      Bool.false_or, Bool.and_true]
  · have hb : Nat.testBit 0xff i = false :=
      Nat.testBit_lt_two_pow (lt_of_lt_of_le (by decide : 0xff < 2 ^ 8)
        (Nat.pow_le_pow_right (by decide) (by omega)))
    have h1 := testBit_one_succ i (by omega)
    simp only [hb, h1, Bool.and_false]

theorem dram_base_low_byte (cfg : Nat → Nat) (nodeid : Nat) :
    (get_dram_base_mask cfg nodeid).base &&& 0xff = 0 := by
  apply land_eq_zero_of_low_bits _ _ (by decide)
  intro i hi
  simp only [get_dram_base_mask, Nat.testBit_or, Nat.testBit_and, Nat.testBit_shiftRight,
    Nat.testBit_shiftLeft]
  have hc := testBit_fff80000 (8 + 3 + i) (by omega)
  have h21 : ¬ i ≥ 21 := by omega
  simp only [hc, h21, decide_False, Bool.and_false, Bool.false_and, Bool.or_false]

/-- C27: for all register contents, the base that `get_dram_base_mask` returns has
bits 0..7 clear and the mask has bits 1..7 clear, bit 0 of the mask being bit 0 of
register `0x40 + 8*node`; hence the limit computation
`((mask & ~1) + 0xFF) & 0x1fffff00` equals `mask & 0x1fffff00`, also inside
`node_limitk`, and `base & 1` is 0 for every node. -/
theorem dram_base_mask_low_bits (cfg : Nat → Nat) (nodeid : Nat) :
    (get_dram_base_mask cfg nodeid).base &&& 0xff = 0 ∧
    (get_dram_base_mask cfg nodeid).mask &&& 0xfe = 0 ∧
    (get_dram_base_mask cfg nodeid).mask &&& 1 = cfg (0x40 + (nodeid <<< 3)) &&& 1 ∧
    ((((get_dram_base_mask cfg nodeid).mask &&& 0xfffffffe) + 0x000FF) % 2 ^ 32) &&& 0x1fffff00
      = (get_dram_base_mask cfg nodeid).mask &&& 0x1fffff00 ∧
    node_limitk (get_dram_base_mask cfg nodeid)
      = ((get_dram_base_mask cfg nodeid).mask &&& 0x1fffff00) <<< 9 ∧
    (get_dram_base_mask cfg nodeid).base &&& 1 = 0 := by
  have hlt := dram_mask_lt cfg nodeid
  have hlow := dram_mask_low_byte cfg nodeid
  simp only [node_limitk]
  generalize (get_dram_base_mask cfg nodeid).mask = m at hlt hlow ⊢
  have hbit : cfg (0x40 + (nodeid <<< 3)) &&& 1 ≤ 1 := Nat.and_le_right
  have hmod : m % 256 = cfg (0x40 + (nodeid <<< 3)) &&& 1 := by
    rw [← hlow]
    exact (Nat.and_pow_two_sub_one_eq_mod m 8).symm
  have e1 : m &&& 0xfffffffe = m / 2 ^ 1 * 2 ^ 1 :=
    land_high_mask 0xfffffffe 1 32 m (fun i hi => by interval_cases i <;> decide) (by omega)
  have e2 : ∀ x, x < 2 ^ 29 → x &&& 0x1fffff00 = x / 2 ^ 8 * 2 ^ 8 := fun x hx =>
    land_high_mask 0x1fffff00 8 29 x (fun i hi => by interval_cases i <;> decide) hx
  have e3 : m &&& 1 = m % 2 := Nat.and_one_is_mod m
  have e4 : m &&& 0xfe = 0 := by
    have h : m &&& 0xfe = (m &&& 0xff) &&& 0xfe := by
      rw [Nat.and_assoc]
      rfl
    rw [h, hlow, Nat.and_assoc, show (1 &&& 254 : Nat) = 0 from rfl, Nat.and_zero]
  have hlimit : (((m &&& 0xfffffffe) + 0x000FF) % 2 ^ 32) &&& 0x1fffff00 = m &&& 0x1fffff00 := by
    rw [e1, Nat.mod_eq_of_lt (by omega), e2 _ (by omega), e2 m hlt]
    omega
  refine ⟨dram_base_low_byte cfg nodeid, e4, ?_, hlimit, ?_, dram_base_bit0 cfg nodeid⟩
  · rw [e3, ← hmod]
    omega
  · rw [hlimit]

/-! ## C23: the offset the finders choose -/

theorem io_regs_sorted : io_regs.Pairwise (· < ·) := by decide

theorem mem_regs_sorted : mem_regs.Pairwise (· < ·) := by decide

/-- The choice of the walk over an ascending list of offsets. -/
theorem find_pair_walk_choice (s : NbState) (n l : Nat) (regs : List Nat)
    (hpw : regs.Pairwise (· < ·)) :
    (∀ x ∈ regs, reg_useable s x n l = 1 →
      find_pair_walk s n l regs 0 ∈ regs ∧
      reg_useable s (find_pair_walk s n l regs 0) n l = 1 ∧
      find_pair_walk s n l regs 0 ≤ x) ∧
    ((∀ x ∈ regs, reg_useable s x n l ≠ 1) → ∀ x ∈ regs, reg_useable s x n l = 2 →
      find_pair_walk s n l regs 0 ∈ regs ∧
      reg_useable s (find_pair_walk s n l regs 0) n l = 2 ∧
      x ≤ find_pair_walk s n l regs 0) ∧
    ((∀ x ∈ regs, reg_useable s x n l = 0) → find_pair_walk s n l regs 0 = 0) := by
  refine ⟨?_, ?_, ?_⟩
  · intro x hx h1
    obtain ⟨pre, w, post, he, hpre, hw⟩ := exists_first_owned s n l regs ⟨x, hx, h1⟩
    have hwalk := find_pair_walk_owned s n l pre w post 0 hpre hw
    rw [← he] at hwalk
    rw [hwalk]
    refine ⟨by rw [he]; simp, hw, ?_⟩
    -- `x` is not in `pre`, so it is `w` or comes after it
    rw [he] at hx hpw
    rcases List.mem_append.mp hx with hx1 | hx1
    · exact absurd h1 (hpre x hx1)
    · rcases List.mem_cons.mp hx1 with hx2 | hx2
      · omega
      · have := (List.pairwise_cons.mp (List.pairwise_append.mp hpw).2.1).1 x hx2
        omega
  · intro hno x hx h2
    rcases find_pair_walk_free s n l regs 0 hpw hno with ⟨_, hnone⟩ | ⟨hm, hr, hmax⟩
    · exact absurd h2 (hnone x hx)
    · exact ⟨hm, hr, hmax x hx h2⟩
  · intro h0
    rcases find_pair_walk_free s n l regs 0 hpw
      (fun x hx => by rw [h0 x hx]; decide) with ⟨hfree, _⟩ | ⟨hm, hr, _⟩
    · exact hfree
    · rw [h0 _ hm] at hr
      exact absurd hr (by decide)

/-- C23: in every resource state, with R the offsets 0xC0..0xD8 for
`amdfam15_find_iopair` and 0x80..0xB8 for `amdfam15_find_mempair`, the resource the
finder returns is keyed to the offset `r` chosen as follows: if `reg_useable` classifies
some offset of R as 1, `r` is the lowest such offset; otherwise, if it classifies some
offset as 2, `r` is the highest such offset; otherwise (all offsets classified 0) `r`
is 0. -/
theorem find_pair_offset_choice (s : NbState) (dev n l : Nat) :
    ((amdfam15_find_iopair s dev n l).map (fun p => p.2)
        = (new_resource s dev (IOINDEX (0x1000 + iopair_reg s n l) l)).map
            (fun _ => some (IOINDEX (0x1000 + iopair_reg s n l) l)) ∧
      (∀ x ∈ io_regs, reg_useable s x n l = 1 →
        iopair_reg s n l ∈ io_regs ∧ reg_useable s (iopair_reg s n l) n l = 1 ∧
        iopair_reg s n l ≤ x) ∧
      ((∀ x ∈ io_regs, reg_useable s x n l ≠ 1) → ∀ x ∈ io_regs, reg_useable s x n l = 2 →
        iopair_reg s n l ∈ io_regs ∧ reg_useable s (iopair_reg s n l) n l = 2 ∧
        x ≤ iopair_reg s n l) ∧
      ((∀ x ∈ io_regs, reg_useable s x n l = 0) → iopair_reg s n l = 0)) ∧
    ((amdfam15_find_mempair s dev n l).map (fun p => p.2)
        = (new_resource s dev (IOINDEX (0x1000 + mempair_reg s n l) l)).map
            (fun _ => some (IOINDEX (0x1000 + mempair_reg s n l) l)) ∧
      (∀ x ∈ mem_regs, reg_useable s x n l = 1 →
        mempair_reg s n l ∈ mem_regs ∧ reg_useable s (mempair_reg s n l) n l = 1 ∧
        mempair_reg s n l ≤ x) ∧
      ((∀ x ∈ mem_regs, reg_useable s x n l ≠ 1) → ∀ x ∈ mem_regs, reg_useable s x n l = 2 →
        mempair_reg s n l ∈ mem_regs ∧ reg_useable s (mempair_reg s n l) n l = 2 ∧
        x ≤ mempair_reg s n l) ∧
      ((∀ x ∈ mem_regs, reg_useable s x n l = 0) → mempair_reg s n l = 0)) := by
  refine ⟨⟨?_, find_pair_walk_choice s n l io_regs io_regs_sorted⟩,
    ⟨?_, find_pair_walk_choice s n l mem_regs mem_regs_sorted⟩⟩
  · unfold amdfam15_find_iopair new_resource
    cases s.f0_dev dev <;> rfl
  · unfold amdfam15_find_mempair new_resource
    cases s.f0_dev dev <;> rfl

/-- Witness for C23: in the state recovered from `committed_tree`, node 1, link 2 owns
the I/O pair 0xC8 and the memory pair 0x90, and node 0, link 0 owns nothing: its finders
take the highest free offsets 0xD8 and 0xB8. -/
theorem find_pair_offset_choice_witness :
    iopair_reg recovered_state 1 2 = 0xc8 ∧ mempair_reg recovered_state 1 2 = 0x90 ∧
    iopair_reg recovered_state 0 0 = 0xd8 ∧ mempair_reg recovered_state 0 0 = 0xb8 ∧
    iopair_reg exhausted_state 1 0 = 0 ∧ mempair_reg exhausted_state 1 0 = 0 :=
  ⟨Nat.le_antisymm
      ((find_pair_offset_choice recovered_state 1 1 2).1.2.1 0xc8 (by decide) (by decide)).2.2
      (by decide),
    Nat.le_antisymm
      ((find_pair_offset_choice recovered_state 1 1 2).2.2.1 0x90 (by decide) (by decide)).2.2
      (by decide),
    Nat.le_antisymm (by decide)
      ((find_pair_offset_choice recovered_state 0 0 0).1.2.2.1 (by decide) 0xd8 (by decide)
        (by decide)).2.2,
    Nat.le_antisymm (by decide)
      ((find_pair_offset_choice recovered_state 0 0 0).2.2.2.1 (by decide) 0xb8 (by decide)
        (by decide)).2.2,
    (find_pair_offset_choice exhausted_state 1 1 0).1.2.2.2 (by decide),
    (find_pair_offset_choice exhausted_state 1 1 0).2.2.2.2 (by decide)⟩

/-! ## C28: the sibling count of family 15h -/

theorem node_siblings_family15 (env : CpuScanEnv) (i siblings : Nat) :
    ∃ dev, node_siblings env 6 i siblings
      = some (family15_node_siblings env i siblings, dev) := by
  unfold node_siblings family15_node_siblings
  rw [if_neg (by decide), if_pos rfl]
  cases env.pcidev_on_root i 5 with
  | none => exact ⟨none, rfl⟩
  | some d =>
    by_cases he : d.enabled = true
    · exact ⟨some d, by simp only [he, if_true]⟩
    · exact ⟨some d, by simp only [he, if_false]; rfl⟩

theorem scan_nodes_family15 (env : CpuScanEnv) (node_nums core_max : Nat) :
    ∀ k i siblings, siblings = (if i = 0 then 0 else family15_siblings env (i - 1)) →
      ∃ calls : List CpuCall,
        scan_nodes env node_nums core_max 6 k i siblings = some calls ∧
        calls.map (fun c => (c.node, c.core))
          = (List.range' i k).flatMap (fun n =>
              (List.range (family15_siblings env n + 1)).map (fun j => (n, j))) := by
  intro k
  induction k with
  | zero =>
    intro i siblings _
    exact ⟨[], rfl, rfl⟩
  | succ k ih =>
    intro i siblings hs
    obtain ⟨dev, hdev⟩ := node_siblings_family15 env i siblings
    have hsib : family15_node_siblings env i siblings = family15_siblings env i := by
      cases i with
      | zero => rw [hs]; rfl
      | succ j => rw [hs]; rfl
    rw [hsib] at hdev
    obtain ⟨rest, hrest, hmap⟩ := ih (i + 1) (family15_siblings env i) (by simp)
    cases dev with
    | none =>
      refine ⟨scan_cores node_nums core_max env.ioapic_count env.modules
          (family15_siblings env i) i false ++ rest,
        by simp only [scan_nodes, hdev, hrest], ?_⟩
      simp only [scan_cores, List.map_append, List.map_map, hmap, List.range'_succ,
        List.flatMap_cons]
      rfl
    | some d =>
      refine ⟨scan_cores node_nums core_max env.ioapic_count env.modules
          (family15_siblings env i) i d.enabled ++ rest,
        by simp only [scan_nodes, hdev, hrest], ?_⟩
      simp only [scan_cores, List.map_append, List.map_map, hmap, List.range'_succ,
        List.flatMap_cons]
      rfl

theorem filter_node_cores (S : Nat → Nat) (i : Nat) :
    ∀ k a, (((List.range' a k).flatMap (fun n =>
        (List.range (S n + 1)).map (fun j => (n, j)))).filter
          (fun p => decide (p.1 = i))).map (fun p => p.2)
      = if a ≤ i ∧ i < a + k then List.range (S i + 1) else [] := by
  intro k
  induction k with
  | zero =>
    intro a
    rw [if_neg (by omega)]
    rfl
  | succ k ih =>
    intro a
    rw [List.range'_succ, List.flatMap_cons, List.filter_append, List.map_append, ih (a + 1)]
    by_cases ha : a = i
    · subst ha
      rw [if_neg (by omega), if_pos (by omega), List.append_nil, List.filter_map,
        List.map_map]
      have hf : List.filter ((fun p : Nat × Nat => decide (p.1 = a)) ∘ fun j => (a, j))
          (List.range (S a + 1)) = List.range (S a + 1) := by
        apply List.filter_eq_self.mpr
        intro j _
        simp
      rw [hf]
      exact List.map_id _
    · have hf : List.filter (fun p : Nat × Nat => decide (p.1 = i))
          (List.map (fun j => (a, j)) (List.range (S a + 1))) = [] := by
        apply List.filter_eq_nil_iff.mpr
        intro p hp
        obtain ⟨j, _, rfl⟩ := List.mem_map.mp hp
        simp [ha]
      rw [hf, List.map_nil, List.nil_append]
      by_cases hi : a + 1 ≤ i ∧ i < a + 1 + k
      · rw [if_pos hi, if_pos (by omega)]
      · rw [if_neg hi, if_neg (by omega)]

/-- C28: in `cpu_bus_scan` with extended family 6 (the node-0 host bridge being
found), the scan returns, and the calls it makes are, node by node in ascending order,
the cores `0..siblings(i)` of node `i`, where `siblings(i)` is the low byte of register
0x84 of node `i`'s function 5 when that device exists and is enabled, and otherwise the
count used for node `i - 1` (0 for node 0): node `i` gets that count plus one calls. -/
theorem family15_sibling_carry (env : CpuScanEnv) (dev_mc : Device)
    (hmc : env.pcidev_on_root 0 0 = some dev_mc)
    (h6 : (env.cpuid_eax_1 >>> 20) &&& 0xFF = 6) :
    ∃ calls : List CpuCall, cpu_bus_scan env = some calls ∧
      calls.map (fun c => (c.node, c.core))
        = (List.range (sysconf_node_nums dev_mc)).flatMap (fun i =>
            (List.range (family15_siblings env i + 1)).map (fun j => (i, j))) ∧
      ∀ i, i < sysconf_node_nums dev_mc →
        ((calls.filter (fun c => decide (c.node = i))).map (fun c => c.core)
          = List.range (family15_siblings env i + 1)) := by
  obtain ⟨calls, h1, h2⟩ := scan_nodes_family15 env (sysconf_node_nums dev_mc)
    (core_max_of env.cpuid_ecx_80000008) (sysconf_node_nums dev_mc) 0 0 rfl
  refine ⟨calls, by rw [cpu_bus_scan_eq env dev_mc hmc, h6]; exact h1, ?_, ?_⟩
  · rw [h2, List.range_eq_range']
  · intro i hi
    have hf := filter_node_cores (family15_siblings env) i (sysconf_node_nums dev_mc) 0
    rw [if_pos (by omega), ← h2, List.filter_map, List.map_map] at hf
    exact hf

/-- Witness for C28: three nodes, of which node 1 has a disabled function 5 and node 2
has none. -/
theorem family15_sibling_carry_witness :
    ∃ calls : List CpuCall, cpu_bus_scan carry_env = some calls ∧
      calls.map (fun c => (c.node, c.core))
        = (List.range (sysconf_node_nums
              ⟨true, [], fun reg => if reg = 0x60 then 0x20 else 0⟩)).flatMap (fun i =>
            (List.range (family15_siblings carry_env i + 1)).map (fun j => (i, j))) ∧
      ∀ i, i < sysconf_node_nums ⟨true, [], fun reg => if reg = 0x60 then 0x20 else 0⟩ →
        ((calls.filter (fun c => decide (c.node = i))).map (fun c => c.core)
          = List.range (family15_siblings carry_env i + 1)) :=
  family15_sibling_carry carry_env ⟨true, [], fun reg => if reg = 0x60 then 0x20 else 0⟩
    rfl (by decide)

/-! ## C24: no region in the MMIO hole or the legacy window -/

theorem land_1fffff00_shift (x : Nat) : 2 ^ 17 ∣ (x &&& 0x1fffff00) <<< 9 := by
  have h0 : (x &&& 0x1fffff00) &&& 0xff = 0 := land_land_eq_zero x _ _ (by decide)
  have h1 : (x &&& 0x1fffff00) % 2 ^ 8 = 0 := by
    rw [← Nat.and_pow_two_sub_one_eq_mod]
    exact h0
  rw [Nat.shiftLeft_eq]
  obtain ⟨q, hq⟩ := Nat.dvd_of_mod_eq_zero h1
  rw [hq]
  exact ⟨q, by ring⟩

/-- The decoded base and limit of a node are multiples of 2^17 KiB. -/
theorem node_extent_granular (d : DramBaseMask) :
    2 ^ 17 ∣ node_basek d ∧ 2 ^ 17 ∣ node_limitk d :=
  ⟨land_1fffff00_shift _, land_1fffff00_shift _⟩

theorem set_resources_region_clear (m T i idx b l : Nat) (hm1 : 768 ≤ m) (hm2 : m ≤ 4194304)
    (hbl : b ≤ l) (hl : l < 2 ^ 38) (hb : b = 0 ∨ 768 ≤ b) (hl0 : l = 0 ∨ 768 < l) :
    ∀ r ∈ (set_resources_region m T i idx b l).1,
      ¬ region_meets r m 4194304 ∧ ¬ region_meets r 640 768 := by
  have hs2 : 768 ≤ l → sub64 l (8 * 64 + 16 * 16) = l - 768 := fun h =>
    sub64_eq l 768 h (by omega)
  simp only [set_resources_region, carve_vga_hole, split_pci_memory, split_below_mmio,
    region_meets]
  split_ifs <;> dsimp only at * <;>
    simp (disch := omega) only [sub64_eq, hs2, Nat.mod_eq_of_lt, List.nil_append,
      List.singleton_append, List.cons_append, List.mem_cons,
      List.mem_singleton, List.not_mem_nil, or_false, forall_eq_or_imp, forall_eq,
      ne_eq, not_and, not_lt, and_imp, not_true_eq_false, false_implies, implies_true,
      and_self, and_true, true_and] at * <;>
    omega

theorem mem_set_resources_nodes (cfg : Nat → Nat) (m T : Nat) :
    ∀ k i idx, ∀ r ∈ set_resources_nodes cfg m T k i idx,
      ∃ j idx', i ≤ j ∧ j < i + k ∧ (get_dram_base_mask cfg j).mask &&& 1 ≠ 0 ∧
        r ∈ (set_resources_region m T j idx' (node_basek (get_dram_base_mask cfg j))
          (node_limitk (get_dram_base_mask cfg j))).1 := by
  intro k
  induction k with
  | zero => intro i idx r hr; exact absurd hr (List.not_mem_nil r)
  | succ k ih =>
    intro i idx r hr
    simp only [set_resources_nodes, List.mem_append] at hr
    rcases hr with hr | hr
    · by_cases hen : (get_dram_base_mask cfg i).mask &&& 1 = 0
      · simp only [set_resources_node, hen, if_true] at hr
        exact absurd hr (List.not_mem_nil r)
      · simp only [set_resources_node, if_neg hen] at hr
        exact ⟨i, idx, le_refl _, by omega, hen, hr⟩
    · obtain ⟨j, idx', h1, h2, h3, h4⟩ := ih _ _ r hr
      exact ⟨j, idx', by omega, by omega, h3, h4⟩

/-- C24: for every number of nodes whose enabled extents satisfy basek <= limitk, every
ceiling `mmio_basek` with 768 KiB <= mmio_basek <= 4 GiB and every `bsp_topmem2`, no
region of nonzero size that `domain_set_resources` passes to `ram_resource` meets
[mmio_basek, 4 GiB), and none meets the legacy window [640 KiB, 768 KiB). -/
theorem no_region_in_holes (cfg : Nat → Nat) (node_nums mmio_basek topmem2 : Nat)
    (hm1 : 768 ≤ mmio_basek) (hm2 : mmio_basek ≤ 4 * 1024 * 1024)
    (hext : ∀ i, i < node_nums → (get_dram_base_mask cfg i).mask &&& 1 ≠ 0 →
      node_basek (get_dram_base_mask cfg i) ≤ node_limitk (get_dram_base_mask cfg i)) :
    ∀ r ∈ set_resources_nodes cfg mmio_basek topmem2 node_nums 0 0x10,
      ¬ region_meets r mmio_basek (4 * 1024 * 1024) ∧ ¬ region_meets r 640 768 := by
  intro r hr
  obtain ⟨j, idx, _, hj, hen, hmem⟩ := mem_set_resources_nodes cfg mmio_basek topmem2 _ _ _ r hr
  obtain ⟨⟨qb, hqb⟩, ⟨ql, hql⟩⟩ := node_extent_granular (get_dram_base_mask cfg j)
  have hbl := hext j (by omega) hen
  have hl38 := node_limitk_lt (get_dram_base_mask cfg j)
  exact set_resources_region_clear mmio_basek topmem2 j idx _ _ hm1 (by omega) hbl hl38
    (by omega) (by omega) r hmem

/-- Witness for C24: the extents [0, 2 GiB) and [2 GiB, 6 GiB) under a ceiling of
3 GiB. -/
theorem no_region_in_holes_witness :
    (768 ≤ 3145728 ∧ 3145728 ≤ 4 * 1024 * 1024) ∧
    ∀ r ∈ set_resources_nodes two_extent_cfg 3145728 (6 * 2 ^ 30) 2 0 0x10,
      ¬ region_meets r 3145728 (4 * 1024 * 1024) ∧ ¬ region_meets r 640 768 :=
  ⟨by decide,
    no_region_in_holes two_extent_cfg 2 3145728 (6 * 2 ^ 30) (by decide) (by decide)
      (by decide)⟩

/-! ## C25: the registers `set_resource` writes for an exhausted class -/

/-- C25 (behaviour of the code at the failing input): in the state recovered from
`exhausted_tree` no I/O offset and no memory offset is usable for node 1, link 0, and
both finders return the resource keyed to register offset 0.  Once such a window is
set up and assigned, `set_resource` writes its base word to offset 0x00 and its limit
word to offset 0x04 of the function 1 of every node, outside 0xC0..0xDC and 0x80..0xBC;
the window registers themselves stay as they were. -/
theorem set_resource_exhausted_offsets :
    (∀ r ∈ io_regs, reg_useable exhausted_two_node_state r 1 0 = 0) ∧
    (∀ r ∈ mem_regs, reg_useable exhausted_two_node_state r 1 0 = 0) ∧
    (amdfam15_find_iopair exhausted_two_node_state 1 1 0).map (fun p => p.2)
      = some (some (IOINDEX 0x1000 0)) ∧
    (amdfam15_find_mempair exhausted_two_node_state 1 1 0).map (fun p => p.2)
      = some (some (IOINDEX 0x1000 0)) ∧
    IOINDEX 0x1000 0 &&& 0xfff = 0 ∧
    f1_regs exhausted_two_node_state 0 [0x00, 0x04] = some [0, 0] ∧
    exhausted_io_store.bind (fun s => f1_regs s 0 [0x00, 0x04]) = some [0x1003, 0x1001] ∧
    exhausted_io_store.bind (fun s => f1_regs s 1 [0x00, 0x04]) = some [0x1003, 0x1001] ∧
    exhausted_io_store.bind (fun s => f1_regs s 0 (window_regs ++ window_regs.map (· + 4)))
      = f1_regs exhausted_two_node_state 0 (window_regs ++ window_regs.map (· + 4)) ∧
    exhausted_mem_store.bind (fun s => f1_regs s 0 [0x00, 0x04]) = some [0xe00003, 0xe00f01] ∧
    exhausted_mem_store.bind (fun s => f1_regs s 0 (window_regs ++ window_regs.map (· + 4)))
      = f1_regs exhausted_two_node_state 0 (window_regs ++ window_regs.map (· + 4)) := by
  refine ⟨by decide, by decide, by decide, by decide, by decide, by decide, by decide,
    by decide, by decide, by decide, by decide⟩

/-! ## C26: the two memory windows of a link -/

theorem link_read_bases_resources_state (c : DevConsts) (s : NbState) (dev nodeid link : Nat) :
    (link_read_bases_resources c s dev nodeid link).map (fun p => p.1)
      = amdfam15_link_read_bases c s dev nodeid link := by
  unfold link_read_bases_resources amdfam15_link_read_bases
  cases amdfam15_find_iopair s dev nodeid link with
  | none => rfl
  | some p1 =>
    obtain ⟨s1, r1⟩ := p1
    dsimp only
    cases amdfam15_find_mempair (setup_window s1 dev r1 (Nat.log2 c.HT_IO_HOST_ALIGN) 0xffff
      (c.IORESOURCE_IO ||| c.IORESOURCE_BRIDGE)) dev nodeid link with
    | none => rfl
    | some p2 =>
      obtain ⟨s3, r2⟩ := p2
      dsimp only
      cases amdfam15_find_mempair (setup_window s3 dev r2 (Nat.log2 c.HT_MEM_HOST_ALIGN)
        0xffffffffff ((c.IORESOURCE_MEM ||| c.IORESOURCE_PREFETCH) ||| c.IORESOURCE_BRIDGE))
        dev nodeid link with
      | none => rfl
      | some p3 => rfl

/-- C26 (behaviour of the code at the failing input): in the state recovered from
`exhausted_tree`, where no memory offset is usable for node 1, link 0, the two
`amdfam15_find_mempair` calls of one `amdfam15_link_read_bases` return one and the same
resource, keyed to register offset 0, and the second set-up overwrites the first: the
resource ends up without the prefetch flag.  On the state recovered from
`committed_tree` the same call for node 0, link 0 obtains two different offsets, 0xB8
and 0xB0. -/
theorem mempair_same_resource_when_exhausted :
    (link_read_bases_resources example_consts exhausted_state 1 1 0).map (fun p => p.2.2)
      = some (some (IOINDEX 0x1000 0), some (IOINDEX 0x1000 0)) ∧
    (amdfam15_link_read_bases example_consts exhausted_state 1 1 0).bind
        (fun s => (probe_at s 0 1 0).map (fun r => r.flags))
      = some (example_consts.IORESOURCE_MEM ||| example_consts.IORESOURCE_BRIDGE) ∧
    (example_consts.IORESOURCE_MEM ||| example_consts.IORESOURCE_BRIDGE)
      &&& example_consts.IORESOURCE_PREFETCH = 0 ∧
    (link_read_bases_resources example_consts recovered_state 0 0 0).map (fun p => p.2.2)
      = some (some (IOINDEX (0x1000 + 0xb8) 0), some (IOINDEX (0x1000 + 0xb0) 0)) := by
  refine ⟨by decide, by decide, by decide, by decide⟩

/-! ## C22: recovered reservations and later searches -/

/-- Looking a key up after a write through a resource pointer that keeps the key. -/
theorem find?_modify_resource_list (f : Resource → Resource) (hf : ∀ r, (f r).index = r.index)
    (index k : Nat) :
    ∀ rl : List Resource,
      (modify_resource_list f rl index).find? (fun r => decide (r.index = k))
        = if k = index then (rl.find? (fun r => decide (r.index = k))).map f
          else rl.find? (fun r => decide (r.index = k)) := by
  intro rl
  induction rl with
  | nil => simp [modify_resource_list]
  | cons r rs ih =>
    by_cases hr : r.index = index
    · by_cases hk : k = index
      · subst hk
        simp [modify_resource_list, hr, hf]
      · have h1 : ¬ r.index = k := by omega
        have h2 : ¬ (f r).index = k := by rw [hf]; exact h1
        simp only [modify_resource_list, if_pos hr, List.find?_cons, h1, h2, decide_False,
          if_neg hk]
    · by_cases hk : k = index
      · subst hk
        rw [if_pos rfl] at ih ⊢
        simp only [modify_resource_list, if_neg hr, if_false, List.find?_cons, hr, decide_False, ih]
      · by_cases h1 : r.index = k
        · simp [modify_resource_list, hr, hk, h1]
        · simp only [modify_resource_list, if_neg hr, List.find?_cons, h1, decide_False, ih,
            if_neg hk]

theorem probe_at_modify_resource (s : NbState) (dev index : Nat) (f : Resource → Resource)
    (hf : ∀ r, (f r).index = r.index) (reg n l : Nat) :
    probe_at (modify_resource s dev index f) reg n l
      = if n = dev ∧ IOINDEX (0x1000 + reg) l = index then (probe_at s reg n l).map f
        else probe_at s reg n l := by
  unfold modify_resource
  cases hd : s.f0_dev dev with
  | none =>
    simp only
    split_ifs with h
    · obtain ⟨h1, _⟩ := h
      subst h1
      simp only [probe_at, hd, Option.map_none']
    · rfl
  | some d =>
    simp only
    by_cases hn : n = dev
    · subst hn
      simp only [probe_at, Function.update_same, hd, probe_resource, true_and]
      exact find?_modify_resource_list f hf index _ _
    · simp only [probe_at, Function.update_noteq hn, hn, false_and, if_false]

theorem modify_resource_fx (s : NbState) (dev index : Nat) (f : Resource → Resource) :
    (modify_resource s dev index f).fx_devs = s.fx_devs ∧
    (modify_resource s dev index f).f1_dev = s.f1_dev ∧
    ∀ n, ((modify_resource s dev index f).f0_dev n).isSome = (s.f0_dev n).isSome := by
  unfold modify_resource
  cases hd : s.f0_dev dev with
  | none => exact ⟨rfl, rfl, fun n => rfl⟩
  | some d =>
    refine ⟨rfl, rfl, fun n => ?_⟩
    by_cases hn : n = dev
    · subst hn
      simp only [Function.update_same, hd, Option.isSome_some]
    · simp only [Function.update_noteq hn]

theorem new_resource_f1 (s s' : NbState) (dev index p : Nat)
    (h : new_resource s dev index = some (s', p)) : s'.f1_dev = s.f1_dev := by
  unfold new_resource at h
  cases hd : s.f0_dev dev with
  | none => rw [hd] at h; cases h
  | some d =>
    rw [hd] at h
    simp only [Option.some.injEq, Prod.mk.injEq] at h
    obtain ⟨h1, _⟩ := h
    subst h1
    rfl

theorem f1_read_config32_ready (MAX : Nat) (gnp : Nat → Nat → Option Device) (s : NbState)
    (f1 : Device) (hfx : s.fx_devs ≠ 0) (hf1 : s.f1_dev 0 = some f1) (reg : Nat) :
    f1_read_config32 MAX gnp s reg = some (s, f1.pci_config reg) := by
  simp only [f1_read_config32, if_neg hfx, hf1]

theorem domain_read_resources_step_spec (MAX : Nat) (gnp : Nat → Nat → Option Device)
    (s : NbState) (f1 : Device) (reg : Nat) (hreg : reg < 0xf000)
    (hfx : s.fx_devs ≠ 0) (hf1 : s.f1_dev 0 = some f1) :
    ∃ s2, domain_read_resources_step MAX gnp s reg = some s2 ∧
      s2.fx_devs = s.fx_devs ∧ s2.f1_dev = s.f1_dev ∧
      (∀ j, (s2.f0_dev j).isSome = (s.f0_dev j).isSome) ∧
      (∀ reg' n2 l2, reg' < 0xf000 → reg' ≠ reg →
        probe_at s2 reg' n2 l2 = probe_at s reg' n2 l2) ∧
      (f1.pci_config reg &&& 3 ≠ 0 → (s.f0_dev (reg_owner f1 reg).1).isSome = true →
        (∃ r, probe_at s2 reg (reg_owner f1 reg).1 (reg_owner f1 reg).2 = some r ∧
          r.flags = 1) ∧
        ∀ n2 l2, (n2, l2) ≠ reg_owner f1 reg →
          probe_at s2 reg n2 l2 = probe_at s reg n2 l2) := by
  have hr1 := f1_read_config32_ready MAX gnp s f1 hfx hf1
  by_cases hb : f1.pci_config reg &&& 3 ≠ 0
  · cases hd : s.f0_dev (reg_owner f1 reg).1 with
    | none =>
      refine ⟨s, ?_, rfl, rfl, fun _ => rfl, fun _ _ _ _ _ => rfl, fun _ h => ?_⟩
      · simp only [domain_read_resources_step, hr1]
        rw [if_pos hb]
        simp only [reg_owner] at hd
        simp only [hd]
      · cases h
    | some d =>
      obtain ⟨s3, h3⟩ := new_resource_some s (reg_owner f1 reg).1
        (IOINDEX (0x1000 + reg) (reg_owner f1 reg).2) d hd
      have hfx3 := (new_resource_fx_devs _ _ _ _ _ h3).1
      have hf13 := new_resource_f1 _ _ _ _ _ h3
      have hflag : ∀ r : Resource, ({ r with flags := 1 } : Resource).index = r.index :=
        fun _ => rfl
      obtain ⟨m1, m2, m3⟩ := modify_resource_fx s3 (reg_owner f1 reg).1
        (IOINDEX (0x1000 + reg) (reg_owner f1 reg).2) (fun r => { r with flags := 1 })
      refine ⟨modify_resource s3 (reg_owner f1 reg).1
        (IOINDEX (0x1000 + reg) (reg_owner f1 reg).2) (fun r => { r with flags := 1 }),
        ?_, by rw [m1, hfx3], by rw [m2, hf13], ?_, ?_, ?_⟩
      · simp only [domain_read_resources_step, hr1]
        rw [if_pos hb]
        simp only [reg_owner] at hd h3
        simp only [hd, h3, reg_owner]
      · intro j
        rw [m3 j, new_resource_f0_isSome _ _ _ _ _ j h3]
      · intro reg' n2 l2 hreg' hne
        have hkey : IOINDEX (0x1000 + reg') l2 ≠ IOINDEX (0x1000 + reg) (reg_owner f1 reg).2 :=
          fun e => hne (IOINDEX_inj hreg' hreg e).1
        rw [probe_at_modify_resource _ _ _ _ hflag, if_neg (fun h => hkey h.2)]
        exact probe_at_new_resource_other _ _ _ _ _ _ _ _ h3 (Or.inr hkey)
      · intro _ _
        refine ⟨⟨{ fresh_resource (IOINDEX (0x1000 + reg) (reg_owner f1 reg).2) with
            flags := 1 }, ?_, rfl⟩, ?_⟩
        · rw [probe_at_modify_resource _ _ _ _ hflag, if_pos ⟨rfl, rfl⟩,
            probe_at_new_resource_same _ _ _ _ _ _ h3]
          rfl
        · intro n2 l2 hne
          have hne2 : n2 ≠ (reg_owner f1 reg).1 ∨
              IOINDEX (0x1000 + reg) l2 ≠ IOINDEX (0x1000 + reg) (reg_owner f1 reg).2 := by
            by_cases hn : n2 = (reg_owner f1 reg).1
            · right
              intro e
              exact hne (Prod.ext hn (IOINDEX_inj hreg hreg e).2)
            · exact Or.inl hn
          rw [probe_at_modify_resource _ _ _ _ hflag, if_neg (by
            rintro ⟨h1, h2⟩
            rcases hne2 with h | h
            · exact h h1
            · exact h h2)]
          exact probe_at_new_resource_other _ _ _ _ _ _ _ _ h3 hne2
  · refine ⟨s, ?_, rfl, rfl, fun _ => rfl, fun _ _ _ _ _ => rfl, fun h _ => absurd h hb⟩
    simp only [domain_read_resources_step, hr1]
    rw [if_neg hb]

theorem domain_read_resources_loop_spec (MAX : Nat) (gnp : Nat → Nat → Option Device)
    (f1 : Device) :
    ∀ (regs : List Nat) (s : NbState), regs.Nodup → (∀ r ∈ regs, r < 0xf000) →
      s.fx_devs ≠ 0 → s.f1_dev 0 = some f1 →
      ∃ s', domain_read_resources_loop MAX gnp s regs = some s' ∧
        s'.fx_devs = s.fx_devs ∧ s'.f1_dev = s.f1_dev ∧
        (∀ j, (s'.f0_dev j).isSome = (s.f0_dev j).isSome) ∧
        (∀ reg' n2 l2, reg' < 0xf000 → reg' ∉ regs →
          probe_at s' reg' n2 l2 = probe_at s reg' n2 l2) ∧
        (∀ reg ∈ regs, f1.pci_config reg &&& 3 ≠ 0 →
          (s.f0_dev (reg_owner f1 reg).1).isSome = true →
          (∃ r, probe_at s' reg (reg_owner f1 reg).1 (reg_owner f1 reg).2 = some r ∧
            r.flags = 1) ∧
          ∀ n2 l2, (n2, l2) ≠ reg_owner f1 reg →
            probe_at s' reg n2 l2 = probe_at s reg n2 l2) := by
  intro regs
  induction regs with
  | nil =>
    intro s _ _ _ _
    exact ⟨s, rfl, rfl, rfl, fun _ => rfl, fun _ _ _ _ _ => rfl,
      fun reg h => absurd h (List.not_mem_nil reg)⟩
  | cons reg rest ih =>
    intro s hnd hlt hfx hf1
    obtain ⟨s2, h2, g1, g2, g3, g4, g5⟩ := domain_read_resources_step_spec MAX gnp s f1 reg
      (hlt reg (List.mem_cons_self _ _)) hfx hf1
    obtain ⟨s', h', k1, k2, k3, k4, k5⟩ := ih s2 (List.nodup_cons.mp hnd).2
      (fun r hr => hlt r (List.mem_cons_of_mem _ hr)) (by rw [g1]; exact hfx)
      (by rw [g2]; exact hf1)
    have hnotin := (List.nodup_cons.mp hnd).1
    refine ⟨s', by simp only [domain_read_resources_loop, h2, h'], by rw [k1, g1],
      by rw [k2, g2], fun j => by rw [k3 j, g3 j], ?_, ?_⟩
    · intro reg' n2 l2 hreg' hni
      rw [k4 reg' n2 l2 hreg' (fun h => hni (List.mem_cons_of_mem _ h)),
        g4 reg' n2 l2 hreg' (fun h => hni (h ▸ List.mem_cons_self _ _))]
    · intro r hr hb hd
      rcases List.mem_cons.mp hr with h | h
      · subst h
        obtain ⟨⟨res, p1, p2⟩, p3⟩ := g5 hb hd
        have hr0 := hlt r (List.mem_cons_self _ _)
        refine ⟨⟨res, by rw [k4 r _ _ hr0 hnotin]; exact p1, p2⟩, fun n2 l2 hne => ?_⟩
        rw [k4 r _ _ hr0 hnotin]
        exact p3 n2 l2 hne
      · have hne : r ≠ reg := fun e => hnotin (e ▸ h)
        have hr0 := hlt r (List.mem_cons_of_mem _ h)
        obtain ⟨q1, q2⟩ := k5 r h hb (by rw [g3]; exact hd)
        refine ⟨q1, fun n2 l2 hn => ?_⟩
        rw [q2 n2 l2 hn]
        exact g4 r n2 l2 hr0 hne

theorem find_pair_walk_result (s : NbState) (n l : Nat) :
    ∀ (regs : List Nat) (free : Nat),
      find_pair_walk s n l regs free = free ∨
      (find_pair_walk s n l regs free ∈ regs ∧
        reg_useable s (find_pair_walk s n l regs free) n l ≠ 0) := by
  intro regs
  induction regs with
  | nil => intro free; exact Or.inl rfl
  | cons reg rest ih =>
    intro free
    simp only [find_pair_walk]
    by_cases h1 : reg_useable s reg n l = 1
    · rw [if_pos h1]
      exact Or.inr ⟨List.mem_cons_self _ _, by rw [h1]; decide⟩
    · rw [if_neg h1]
      by_cases h2 : reg_useable s reg n l > 1
      · rw [if_pos h2]
        rcases ih reg with h | ⟨h, h'⟩
        · rw [h]
          exact Or.inr ⟨List.mem_cons_self _ _, by omega⟩
        · exact Or.inr ⟨List.mem_cons_of_mem _ h, h'⟩
      · rw [if_neg h2]
        rcases ih free with h | ⟨h, h'⟩
        · exact Or.inl h
        · exact Or.inr ⟨List.mem_cons_of_mem _ h, h'⟩

theorem held_by_not_usable (s : NbState) (reg n l n' l' : Nat) (h : held_by s reg n l)
    (hn : n < s.fx_devs) (hl : l < 8) (hne : (n', l') ≠ (n, l)) :
    reg_useable s reg n' l' = 0 := by
  obtain ⟨h1, h2⟩ := h
  obtain ⟨res, hres⟩ := Option.isSome_iff_exists.mp h1
  have hscan := reg_useable_scan_some s reg n l res hn hl hres (fun n2 l2 hl2 hlt =>
    h2 n2 l2 (by omega) hl2 (by
      intro e
      simp only [Prod.mk.injEq] at e
      omega))
  rw [reg_useable_of_scan_some s reg n' l' n l res hscan, if_neg]
  rintro ⟨e1, e2, _⟩
  exact hne (by rw [e1, e2])

theorem find_pair_avoids_held (regs : List Nat) (hregs : ∀ r ∈ regs, r < 0x1000)
    (s : NbState) (reg n l n' l' : Nat) (h : held_by s reg n l) (hn : n < s.fx_devs)
    (hl : l < 8) (hreg0 : reg ≠ 0) (hne : (n', l') ≠ (n, l))
    (hdev : (s.f0_dev n').isSome = true) :
    ∃ s' idx, find_pair regs s n' n' l' = some (s', some idx) ∧ resource_reg idx ≠ reg := by
  obtain ⟨d, hd⟩ := Option.isSome_iff_exists.mp hdev
  obtain ⟨s', hs'⟩ := new_resource_some s n'
    (IOINDEX (0x1000 + find_pair_walk s n' l' regs 0) l') d hd
  refine ⟨s', IOINDEX (0x1000 + find_pair_walk s n' l' regs 0) l',
    by simp only [find_pair, hs'], ?_⟩
  have h0 := held_by_not_usable s reg n l n' l' h hn hl hne
  rcases find_pair_walk_result s n' l' regs 0 with hw | ⟨hw, hw'⟩
  · rw [hw, resource_reg_IOINDEX _ _ (by decide)]
    exact fun e => hreg0 e.symm
  · rw [resource_reg_IOINDEX _ _ (hregs _ hw)]
    intro e
    rw [e] at hw'
    exact hw' h0

theorem find_pair_keeps_held (regs : List Nat) (hregs : ∀ r ∈ regs, r < 0x1000)
    (s s' : NbState) (reg n l n' l' : Nat) (res : Option Nat) (h : held_by s reg n l)
    (hn : n < s.fx_devs) (hl : l < 8) (hreg0 : reg ≠ 0) (hreg : reg < 0xf000)
    (hfind : find_pair regs s n' n' l' = some (s', res)) :
    held_by s' reg n l ∧ s'.fx_devs = s.fx_devs := by
  unfold find_pair at hfind
  cases hnr : new_resource s n' (IOINDEX (0x1000 + find_pair_walk s n' l' regs 0) l') with
  | none => rw [hnr] at hfind; cases hfind
  | some p =>
    obtain ⟨s2, idx⟩ := p
    rw [hnr] at hfind
    simp only [Option.some.injEq, Prod.mk.injEq] at hfind
    obtain ⟨e1, _⟩ := hfind
    subst e1
    have hfx := (new_resource_fx_devs _ _ _ _ _ hnr).1
    have hw : find_pair_walk s n' l' regs 0 < 0xf000 := by
      rcases find_pair_walk_result s n' l' regs 0 with hw | ⟨hw, _⟩
      · rw [hw]; decide
      · have := hregs _ hw
        omega
    refine ⟨⟨?_, ?_⟩, hfx⟩
    · by_cases hsame : n = n' ∧
          IOINDEX (0x1000 + reg) l = IOINDEX (0x1000 + find_pair_walk s n' l' regs 0) l'
      · obtain ⟨e1, e2⟩ := hsame
        subst e1
        rw [← e2] at hnr
        rw [probe_at_new_resource_same _ _ _ _ _ _ hnr]
        rfl
      · rw [probe_at_new_resource_other _ _ _ _ _ _ _ _ hnr (by
          by_contra hc
          push_neg at hc
          exact hsame hc)]
        exact h.1
    · intro n2 l2 hn2 hl2 hne2
      rw [hfx] at hn2
      have hold := h.2 n2 l2 hn2 hl2 hne2
      rw [probe_at_new_resource_other _ _ _ _ _ _ _ _ hnr ?_]
      · exact hold
      · by_cases hnn : n2 = n'
        · right
          intro e
          obtain ⟨er, el⟩ := IOINDEX_inj hreg hw e
          -- the call is made for `(n2, l2)`, which is not the holder, at the offset `reg`
          subst hnn
          subst el
          have h0 := held_by_not_usable s reg n l n2 l2 h hn hl hne2
          rcases find_pair_walk_result s n2 l2 regs 0 with hw0 | ⟨_, hw'⟩
          · rw [hw0] at er
            exact hreg0 er
          · rw [← er] at hw'
            exact hw' h0
        · exact Or.inl hnn

theorem write_keeps_held (s : NbState) (dev index : Nat) (f : Resource → Resource)
    (hf : ∀ r, (f r).index = r.index) (reg n l : Nat) (h : held_by s reg n l) :
    held_by (modify_resource s dev index f) reg n l ∧
      (modify_resource s dev index f).fx_devs = s.fx_devs := by
  have hfx := (modify_resource_fx s dev index f).1
  refine ⟨⟨?_, ?_⟩, hfx⟩
  · rw [probe_at_modify_resource s dev index f hf]
    split_ifs
    · rw [Option.isSome_map']
      exact h.1
    · exact h.1
  · intro n2 l2 hn2 hl2 hne
    rw [hfx] at hn2
    rw [probe_at_modify_resource s dev index f hf, h.2 n2 l2 hn2 hl2 hne]
    split_ifs <;> rfl

theorem later_keeps_held (s t : NbState) (reg n l : Nat) (hlater : Later s t)
    (h : held_by s reg n l) (hn : n < s.fx_devs) (hl : l < 8) (hreg0 : reg ≠ 0)
    (hreg : reg < 0xf000) :
    held_by t reg n l ∧ t.fx_devs = s.fx_devs := by
  induction hlater with
  | refl => exact ⟨h, rfl⟩
  | find_io t t' nodeid link res _ hfind ih =>
    rw [amdfam15_find_iopair_eq] at hfind
    obtain ⟨i1, i2⟩ := ih
    obtain ⟨k1, k2⟩ := find_pair_keeps_held io_regs (by decide) t t' reg n l nodeid link res
      i1 (by rw [i2]; exact hn) hl hreg0 hreg hfind
    exact ⟨k1, by rw [k2, i2]⟩
  | find_mem t t' nodeid link res _ hfind ih =>
    rw [amdfam15_find_mempair_eq] at hfind
    obtain ⟨i1, i2⟩ := ih
    obtain ⟨k1, k2⟩ := find_pair_keeps_held mem_regs (by decide) t t' reg n l nodeid link res
      i1 (by rw [i2]; exact hn) hl hreg0 hreg hfind
    exact ⟨k1, by rw [k2, i2]⟩
  | write t dev index f _ hf ih =>
    obtain ⟨i1, i2⟩ := ih
    obtain ⟨k1, k2⟩ := write_keeps_held t dev index f hf reg n l i1
    exact ⟨k1, by rw [k2, i2]⟩

/-- C22, as the claim states it, fails for a node that has a function-0 handle but
lies outside the range `reg_useable` scans: on `partial_node_tree` (`fx_devs` = 2) the
I/O pair 0xD8 has `(base & 3) != 0` and decodes to node 2, link 0, node 2 has a
function-0 handle and the reservation with flags 1 exists at 0xD8; yet the next
`amdfam15_find_iopair` call for node 0, link 0 returns a resource at offset 0xD8. -/
theorem reservation_outside_scan_counterexample :
    partial_node_state.fx_devs = 2 ∧
    (partial_node_state.f1_dev 0).map (fun d => d.pci_config 0xd8 &&& 3) = some 3 ∧
    (partial_node_state.f1_dev 0).map (fun d => reg_owner d 0xd8) = some (2, 0) ∧
    (partial_node_state.f0_dev 2).isSome = true ∧
    (probe_at partial_node_state 0xd8 2 0).map (fun r => r.flags) = some 1 ∧
    (amdfam15_find_iopair partial_node_state 0 0 0).map (fun p => p.2.map resource_reg)
      = some (some 0xd8) := by
  refine ⟨by decide, by decide, by decide, by decide, by decide, by decide⟩

/-- C22 (amended): let `get_fx_devs` succeed with state `s1`, `f1` being the function 1
of node 0, and let no function-0 device that `reg_useable` scans carry a resource keyed
to a window offset yet.  Then `domain_read_resources` returns, and for every offset of
0x80..0xD8 (step 8) whose base word has `(base & 3) != 0` and whose decoded node has a
function-0 handle, a reservation with flags 1 exists at that offset for the decoded
(node, link); and if the decoded node is below `fx_devs`, then after any later allocator
activity every `amdfam15_find_iopair` / `amdfam15_find_mempair` call made for a
different (node, link) with a function-0 handle returns a resource whose register
offset is not that offset. -/
theorem recovered_reservations (MAX_NODE_NUMS : Nat) (gnp : Nat → Nat → Option Device)
    (s s1 : NbState) (f1 : Device)
    (hfx : get_fx_devs MAX_NODE_NUMS gnp s = some s1) (hf1 : s1.f1_dev 0 = some f1)
    (hclean : ∀ reg ∈ window_regs, ∀ n, n < s1.fx_devs → ∀ l, l < 8 →
      probe_at s1 reg n l = none) :
    ∃ s', domain_read_resources MAX_NODE_NUMS gnp s = some s' ∧
      ∀ reg ∈ window_regs, f1.pci_config reg &&& 3 ≠ 0 →
        (s1.f0_dev (reg_owner f1 reg).1).isSome = true →
        (∃ r, probe_at s' reg (reg_owner f1 reg).1 (reg_owner f1 reg).2 = some r ∧
          r.flags = 1) ∧
        ((reg_owner f1 reg).1 < s1.fx_devs →
          ∀ t, Later s' t → ∀ n' l', (n', l') ≠ reg_owner f1 reg →
            (t.f0_dev n').isSome = true →
            (∃ t' idx, amdfam15_find_iopair t n' n' l' = some (t', some idx) ∧
              resource_reg idx ≠ reg) ∧
            (∃ t' idx, amdfam15_find_mempair t n' n' l' = some (t', some idx) ∧
              resource_reg idx ≠ reg)) := by
  have hfx0 : s1.fx_devs ≠ 0 := by
    unfold get_fx_devs at hfx
    simp only at hfx
    split_ifs at hfx with hc
    simp only [Option.some.injEq] at hfx
    subst hfx
    exact fun e => hc (Or.inr (Or.inr e))
  obtain ⟨s', h', k1, _, _, _, k5⟩ := domain_read_resources_loop_spec MAX_NODE_NUMS gnp f1
    window_regs s1 (by decide) (by decide) hfx0 hf1
  refine ⟨s', by simp only [domain_read_resources, hfx, h'], ?_⟩
  intro reg hreg hb hd
  obtain ⟨⟨r, p1, p2⟩, p3⟩ := k5 reg hreg hb hd
  refine ⟨⟨r, p1, p2⟩, ?_⟩
  intro hn t hlater n' l' hne hdev
  have hl : (reg_owner f1 reg).2 < 8 := by
    have : (f1.pci_config (reg + 0x04) >>> 4) &&& 7 ≤ 7 := Nat.and_le_right
    show (f1.pci_config (reg + 0x04) >>> 4) &&& 7 < 8
    omega
  have hreg0 : reg ≠ 0 := by
    intro e
    rw [e] at hreg
    exact absurd hreg (by decide)
  have hregf : reg < 0xf000 := by
    have : ∀ x ∈ window_regs, x < 0xf000 := by decide
    exact this reg hreg
  have hheld : held_by s' reg (reg_owner f1 reg).1 (reg_owner f1 reg).2 := by
    refine ⟨by rw [p1]; rfl, ?_⟩
    intro n2 l2 hn2 hl2 hne2
    rw [k1] at hn2
    rw [p3 n2 l2 hne2]
    exact hclean reg hreg n2 hn2 l2 hl2
  obtain ⟨hh, hfxt⟩ := later_keeps_held s' t reg _ _ hlater hheld (by rw [k1]; exact hn) hl
    hreg0 hregf
  have hnt : (reg_owner f1 reg).1 < t.fx_devs := by rw [hfxt, k1]; exact hn
  constructor
  · rw [amdfam15_find_iopair_eq]
    exact find_pair_avoids_held io_regs (by decide) t reg _ _ n' l' hh hnt hl hreg0 hne hdev
  · rw [amdfam15_find_mempair_eq]
    exact find_pair_avoids_held mem_regs (by decide) t reg _ _ n' l' hh hnt hl hreg0 hne hdev

/-- Witness for C22 (amended): the device tree `committed_tree`, whose pairs 0xC8 and
0x90 are committed to node 1, link 2. -/
theorem recovered_reservations_witness :
    ∃ s', domain_read_resources 8 committed_tree initial_state = some s' ∧
      ∀ reg ∈ window_regs, committed_f1.pci_config reg &&& 3 ≠ 0 →
        (committed_handles.f0_dev (reg_owner committed_f1 reg).1).isSome = true →
        (∃ r, probe_at s' reg (reg_owner committed_f1 reg).1 (reg_owner committed_f1 reg).2
            = some r ∧
          r.flags = 1) ∧
        ((reg_owner committed_f1 reg).1 < committed_handles.fx_devs →
          ∀ t, Later s' t → ∀ n' l', (n', l') ≠ reg_owner committed_f1 reg →
            (t.f0_dev n').isSome = true →
            (∃ t' idx, amdfam15_find_iopair t n' n' l' = some (t', some idx) ∧
              resource_reg idx ≠ reg) ∧
            (∃ t' idx, amdfam15_find_mempair t n' n' l' = some (t', some idx) ∧
              resource_reg idx ≠ reg)) :=
  recovered_reservations 8 committed_tree initial_state committed_handles committed_f1
    rfl rfl (by decide)

/-! ## C25, C26: what holds when the class is not exhausted -/

/-- The offset a finder settles on is 0 or an offset of its class. -/
theorem find_pair_offset_range (s : NbState) (n l : Nat) :
    (iopair_reg s n l = 0 ∨ iopair_reg s n l ∈ io_regs) ∧
    (mempair_reg s n l = 0 ∨ mempair_reg s n l ∈ mem_regs) := by
  constructor
  · rcases find_pair_walk_result s n l io_regs 0 with h | ⟨h, _⟩
    · exact Or.inl h
    · exact Or.inr h
  · rcases find_pair_walk_result s n l mem_regs 0 with h | ⟨h, _⟩
    · exact Or.inl h
    · exact Or.inr h

/-- After a finder call for `(node, link)` that settled on a nonzero offset and the
set-up of the window with flags above 1, `reg_useable` classifies that offset 0 for
`(node, link)`, so the next finder call of the same class settles on another offset. -/
theorem find_pair_second_differs (regs : List Nat) (hregs : ∀ r ∈ regs, r < 0x1000)
    (s s1 : NbState) (node link idx1 align limit flags : Nat)
    (hn : node < s.fx_devs) (hl : link < 8) (hflags : 1 < flags)
    (h1 : find_pair regs s node node link = some (s1, some idx1))
    (hnz : resource_reg idx1 ≠ 0) :
    ∃ s3 idx2, find_pair regs (setup_window s1 node (some idx1) align limit flags)
        node node link = some (s3, some idx2) ∧
      resource_reg idx2 ≠ resource_reg idx1 := by
  unfold find_pair at h1
  cases hnr : new_resource s node (IOINDEX (0x1000 + find_pair_walk s node link regs 0) link) with
  | none => rw [hnr] at h1; cases h1
  | some p =>
    obtain ⟨s2, idx⟩ := p
    rw [hnr] at h1
    simp only [Option.some.injEq, Prod.mk.injEq] at h1
    obtain ⟨e1, e2⟩ := h1
    subst e1
    have hidx := (new_resource_fx_devs _ _ _ _ _ hnr).2
    subst hidx
    subst e2
    have hfx2 := (new_resource_fx_devs _ _ _ _ _ hnr).1
    -- the first offset is an offset of the class, classified 1 or 2
    have hw : find_pair_walk s node link regs 0 ∈ regs ∧
        reg_useable s (find_pair_walk s node link regs 0) node link ≠ 0 := by
      rcases find_pair_walk_result s node link regs 0 with h | h
      · rw [h, resource_reg_IOINDEX _ _ (by decide)] at hnz
        exact absurd rfl hnz
      · exact h
    generalize hwdef : find_pair_walk s node link regs 0 = w at *
    obtain ⟨hwmem, hwuse⟩ := hw
    have hwlt := hregs w hwmem
    rw [resource_reg_IOINDEX _ _ hwlt] at hnz ⊢
    have hinit : ∀ r, (init_window r align limit flags).index = r.index := fun _ => rfl
    -- every other scanned lookup at `w` was empty
    have hothers : ∀ n2 l2, n2 < s.fx_devs → l2 < 8 → (n2 < node ∨ (n2 = node ∧ l2 < link)) →
        probe_at s w n2 l2 = none := by
      intro n2 l2 hn2 hl2 hlt
      rcases reg_useable_cases s w node link with h | h | h
      · exact absurd h hwuse
      · obtain ⟨res, hscan, _⟩ := reg_useable_eq_one_inv s w node link h
        obtain ⟨n0, l0, e1, e2, _, _, _, hfirst⟩ := reg_useable_scan_inv s w _ _ res hscan
        have en : n0 = node := by omega
        have el : l0 = link := by omega
        subst en
        subst el
        exact hfirst n2 l2 hl2 hlt
      · exact probe_at_none_of_scan s w (scan_none_of_reg_useable_two s w node link h)
          n2 l2 hn2 hl2
    -- in the state after the set-up the first resource found at `w` is the new window
    have hdev : (s2.f0_dev node).isSome = true := by
      unfold new_resource at hnr
      cases hd : s.f0_dev node with
      | none => rw [hd] at hnr; cases hnr
      | some d =>
        rw [hd] at hnr
        simp only [Option.some.injEq, Prod.mk.injEq] at hnr
        obtain ⟨e, _⟩ := hnr
        subst e
        simp only [Function.update_same, Option.isSome_some]
    have hsetup : setup_window s2 node (some (IOINDEX (0x1000 + w) link)) align limit flags
        = modify_resource s2 node (IOINDEX (0x1000 + w) link)
            (fun r => init_window r align limit flags) := rfl
    obtain ⟨m1, _, m3⟩ := modify_resource_fx s2 node (IOINDEX (0x1000 + w) link)
      (fun r => init_window r align limit flags)
    have hscan : reg_useable_scan
        (setup_window s2 node (some (IOINDEX (0x1000 + w) link)) align limit flags) w
        = (some (init_window (fresh_resource (IOINDEX (0x1000 + w) link)) align limit flags),
            node + 1, link + 1) := by
      rw [hsetup]
      apply reg_useable_scan_some _ _ _ _ _ (by rw [m1, hfx2]; exact hn) hl
      · rw [probe_at_modify_resource _ _ _ _ hinit, if_pos ⟨rfl, rfl⟩,
          probe_at_new_resource_same _ _ _ _ _ _ hnr]
        rfl
      · intro n2 l2 hl2 hlt
        have hne : n2 ≠ node ∨ IOINDEX (0x1000 + w) l2 ≠ IOINDEX (0x1000 + w) link := by
          by_cases hnn : n2 = node
          · right
            intro e
            have := (IOINDEX_inj (by omega) (by omega) e).2
            omega
          · exact Or.inl hnn
        rw [probe_at_modify_resource _ _ _ _ hinit, if_neg (by
          rintro ⟨a, b⟩
          rcases hne with h | h
          · exact h a
          · exact h b), probe_at_new_resource_other _ _ _ _ _ _ _ _ hnr hne]
        exact hothers n2 l2 (by omega) hl2 hlt
    have hzero : reg_useable
        (setup_window s2 node (some (IOINDEX (0x1000 + w) link)) align limit flags) w node link
        = 0 := by
      rw [reg_useable_of_scan_some _ w node link node link _ hscan, if_neg]
      rintro ⟨_, _, h⟩
      have : (init_window (fresh_resource (IOINDEX (0x1000 + w) link)) align limit flags).flags
          = flags := rfl
      omega
    have hdev2 : ((setup_window s2 node (some (IOINDEX (0x1000 + w) link)) align limit
        flags).f0_dev node).isSome = true := by
      rw [hsetup, m3 node]
      exact hdev
    obtain ⟨d2, hd2⟩ := Option.isSome_iff_exists.mp hdev2
    obtain ⟨s3, hs3⟩ := new_resource_some _ node
      (IOINDEX (0x1000 + find_pair_walk
        (setup_window s2 node (some (IOINDEX (0x1000 + w) link)) align limit flags)
        node link regs 0) link) d2 hd2
    refine ⟨s3, IOINDEX (0x1000 + find_pair_walk
        (setup_window s2 node (some (IOINDEX (0x1000 + w) link)) align limit flags)
        node link regs 0) link, by simp only [find_pair, hs3], ?_⟩
    rcases find_pair_walk_result
      (setup_window s2 node (some (IOINDEX (0x1000 + w) link)) align limit flags)
      node link regs 0 with h | ⟨h, h'⟩
    · rw [h, resource_reg_IOINDEX _ _ (by decide)]
      exact fun e => hnz e.symm
    · rw [resource_reg_IOINDEX _ _ (hregs _ h)]
      intro e
      rw [e] at h'
      exact h' hzero

/-- Where the first `amdfam15_find_mempair` call of `amdfam15_link_read_bases` settles
on a nonzero offset, for a node that `reg_useable` scans, a link below 8 and window
flags above 1, the second call returns another offset. -/
theorem link_read_bases_mem_windows_differ (c : DevConsts) (s s' : NbState)
    (node link i1 i2 : Nat) (io : Option Nat)
    (hn : node < s.fx_devs) (hl : link < 8)
    (hflags : 1 < (c.IORESOURCE_MEM ||| c.IORESOURCE_PREFETCH) ||| c.IORESOURCE_BRIDGE)
    (h : link_read_bases_resources c s node node link = some (s', io, some i1, some i2))
    (hnz : resource_reg i1 ≠ 0) :
    resource_reg i2 ≠ resource_reg i1 := by
  unfold link_read_bases_resources at h
  cases h1 : amdfam15_find_iopair s node node link with
  | none => rw [h1] at h; cases h
  | some p1 =>
    obtain ⟨s1, r1⟩ := p1
    rw [h1] at h
    dsimp only at h
    have hfx1 : s1.fx_devs = s.fx_devs := by
      unfold amdfam15_find_iopair at h1
      cases hnr : new_resource s node (IOINDEX (0x1000 + iopair_reg s node link) link) with
      | none => rw [hnr] at h1; cases h1
      | some q =>
        obtain ⟨sq, iq⟩ := q
        rw [hnr] at h1
        simp only [Option.some.injEq, Prod.mk.injEq] at h1
        rw [← h1.1]
        exact (new_resource_fx_devs _ _ _ _ _ hnr).1
    have hfx2 : (setup_window s1 node r1 (Nat.log2 c.HT_IO_HOST_ALIGN) 0xffff
        (c.IORESOURCE_IO ||| c.IORESOURCE_BRIDGE)).fx_devs = s.fx_devs := by
      cases r1 with
      | none => exact hfx1
      | some k =>
        show (modify_resource s1 node k _).fx_devs = _
        rw [(modify_resource_fx s1 node k _).1, hfx1]
    generalize setup_window s1 node r1 (Nat.log2 c.HT_IO_HOST_ALIGN) 0xffff
      (c.IORESOURCE_IO ||| c.IORESOURCE_BRIDGE) = t at h hfx2
    cases h2 : amdfam15_find_mempair t node node link with
    | none => rw [h2] at h; cases h
    | some p2 =>
      obtain ⟨s3, r2⟩ := p2
      rw [h2] at h
      dsimp only at h
      cases h3 : amdfam15_find_mempair (setup_window s3 node r2 (Nat.log2 c.HT_MEM_HOST_ALIGN)
        0xffffffffff ((c.IORESOURCE_MEM ||| c.IORESOURCE_PREFETCH) ||| c.IORESOURCE_BRIDGE))
        node node link with
      | none => rw [h3] at h; cases h
      | some p3 =>
        obtain ⟨s5, r3⟩ := p3
        rw [h3] at h
        simp only [Option.some.injEq, Prod.mk.injEq] at h
        obtain ⟨_, _, e2, e3⟩ := h
        subst e2
        subst e3
        rw [amdfam15_find_mempair_eq] at h2 h3
        obtain ⟨s6, idx2, k1, k2⟩ := find_pair_second_differs mem_regs (by decide) t s3 node
          link i1 (Nat.log2 c.HT_MEM_HOST_ALIGN) 0xffffffffff
          ((c.IORESOURCE_MEM ||| c.IORESOURCE_PREFETCH) ||| c.IORESOURCE_BRIDGE)
          (by rw [hfx2]; exact hn) hl hflags h2 hnz
        rw [h3] at k1
        simp only [Option.some.injEq, Prod.mk.injEq] at k1
        rw [k1.2]
        exact k2

/-! ## C3 (amended): a committed pair inside the scanned range is found again -/

end Coreboot
